import Mathlib

/-!
ASCII-Art: a verification development for `script.js`

The numeric pipeline of `script.js` (tone mapping, Gaussian kernels, convolution,
Sobel operators, quantisation and dithering) is embedded as Lean functions.

Numbers are modelled exactly: a finite JavaScript number is an element of a linear
ordered field `α` (the rationals when a definition is evaluated, the reals when a
theorem needs `Math.exp`, `Math.sqrt` or `Math.atan2`).  Rounding of IEEE doubles is
not modelled.  Where the source can divide by zero (the contrast factor) the
computation is carried out in `JSNum α`, which adds `NaN` and the two infinities.
-/

set_option linter.unusedSectionVars false

namespace AsciiArt

/-! ## Definitions -/

/-- A JavaScript number whose finite values are taken from `α`. -/
inductive JSNum (α : Type) where
  | nan : JSNum α
  | posInf : JSNum α
  | negInf : JSNum α
  | fin (v : α) : JSNum α
  deriving DecidableEq, Repr

namespace JSNum

variable {α : Type} [LinearOrderedField α]

/-- The product of an infinity with the finite value `a`; `positive` is the sign of the
infinity.  Infinity times zero is `NaN`. -/
def infTimes (positive : Bool) (a : α) : JSNum α :=
  if a = 0 then nan
  else if (decide (0 < a)) = positive then posInf
  else negInf

/-- IEEE addition. -/
def add : JSNum α → JSNum α → JSNum α
  | fin a, fin b => fin (a + b)
  | nan, _ => nan
  | _, nan => nan
  | posInf, negInf => nan
  | negInf, posInf => nan
  | posInf, _ => posInf
  | _, posInf => posInf
  | negInf, _ => negInf
  | _, negInf => negInf

/-- IEEE negation. -/
def neg : JSNum α → JSNum α
  | fin a => fin (-a)
  | nan => nan
  | posInf => negInf
  | negInf => posInf

/-- IEEE subtraction. -/
def sub (a b : JSNum α) : JSNum α := add a (neg b)

/-- IEEE multiplication. -/
def mul : JSNum α → JSNum α → JSNum α
  | fin a, fin b => fin (a * b)
  | nan, _ => nan
  | _, nan => nan
  | posInf, posInf => posInf
  | negInf, negInf => posInf
  | posInf, negInf => negInf
  | negInf, posInf => negInf
  | posInf, fin a => infTimes true a
  | fin a, posInf => infTimes true a
  | negInf, fin a => infTimes false a
  | fin a, negInf => infTimes false a

/-- IEEE division.  A finite zero divisor is taken to be `+0`: the only divisor of the
source that can vanish is `255 * (259 - contrastValue)`, which is `+0` when it does. -/
def div : JSNum α → JSNum α → JSNum α
  | nan, _ => nan
  | _, nan => nan
  | fin a, fin b =>
      if b = 0 then
        (if 0 < a then posInf else if a < 0 then negInf else nan)
      else fin (a / b)
  | fin _, posInf => fin 0
  | fin _, negInf => fin 0
  | posInf, fin b => if 0 ≤ b then posInf else negInf
  | negInf, fin b => if 0 ≤ b then negInf else posInf
  | posInf, posInf => nan
  | posInf, negInf => nan
  | negInf, posInf => nan
  | negInf, negInf => nan

/-- The function `Math.max` on two numbers: `NaN` if either is `NaN`. -/
def max : JSNum α → JSNum α → JSNum α
  | nan, _ => nan
  | _, nan => nan
  | posInf, _ => posInf
  | _, posInf => posInf
  | negInf, b => b
  | a, negInf => a
  | fin a, fin b => fin (Max.max a b)

/-- The function `Math.min` on two numbers: `NaN` if either is `NaN`. -/
def min : JSNum α → JSNum α → JSNum α
  | nan, _ => nan
  | _, nan => nan
  | negInf, _ => negInf
  | _, negInf => negInf
  | posInf, b => b
  | a, posInf => a
  | fin a, fin b => fin (Min.min a b)

/-- The comparison `a < b` of JavaScript: false as soon as one side is `NaN`. -/
def lt : JSNum α → JSNum α → Bool
  | nan, _ => false
  | _, nan => false
  | fin a, fin b => decide (a < b)
  | negInf, negInf => false
  | negInf, _ => true
  | _, negInf => false
  | posInf, _ => false
  | fin _, posInf => true

instance : Add (JSNum α) := ⟨add⟩
instance : Sub (JSNum α) := ⟨sub⟩
instance : Mul (JSNum α) := ⟨mul⟩
instance : Div (JSNum α) := ⟨div⟩
instance : Max (JSNum α) := ⟨max⟩
instance : Min (JSNum α) := ⟨min⟩
instance {n : Nat} [OfNat α n] : OfNat (JSNum α) n := ⟨fin (OfNat.ofNat n)⟩
instance : OfScientific (JSNum α) :=
  ⟨fun m s e => fin (OfScientific.ofScientific m s e)⟩

/-- The number is finite and lies in the closed interval `[lo, hi]`. -/
def InRange (lo hi : α) : JSNum α → Prop
  | fin v => lo ≤ v ∧ v ≤ hi
  | _ => False

end JSNum

/-- The function `clamp(value, min, max)` of the source: `Math.max(min, Math.min(max, value))`. -/
def clamp {β : Type} [Max β] [Min β] (value min max : β) : β :=
  Max.max min (Min.min max value)

section Tone

variable {α : Type} [LinearOrderedField α]

/-- Reading `data[i]` from the pixel array: `undefined` outside the array, which the
arithmetic that follows turns into `NaN`. -/
def dataAt (data : List α) (i : Nat) : JSNum α :=
  match data[i]? with
  | some v => JSNum.fin v
  | none => JSNum.nan

/-- The `contrastFactor` of `generateASCII` and `generateContourASCII`. -/
def contrastFactor (contrastValue : α) : JSNum α :=
  (259 * (JSNum.fin contrastValue + 255)) / (255 * (259 - JSNum.fin contrastValue))

/-- The body of the tone loop of `generateASCII` at byte offset `i` of `data`. -/
def adjustedAt (data : List α) (brightness contrastValue : α) (invertEnabled : Bool)
    (i : Nat) : JSNum α :=
  let lum : JSNum α := 0.299 * dataAt data i + 0.587 * dataAt data (i + 1)
    + 0.114 * dataAt data (i + 2)
  let lum : JSNum α := if invertEnabled then 255 - lum else lum
  clamp (contrastFactor contrastValue * (lum - 128) + 128 + JSNum.fin brightness) 0 255

/-- The loop `for (let i = 0; i < data.length; i += 4)` of `generateASCII`, started at
offset `i` with `fuel` iterations allowed; it pushes one tone per iteration. -/
def grayLoop (data : List α) (brightness contrastValue : α) (invertEnabled : Bool) :
    Nat → Nat → List (JSNum α)
  | 0, _ => []
  | fuel + 1, i =>
      if i < data.length then
        adjustedAt data brightness contrastValue invertEnabled i
          :: grayLoop data brightness contrastValue invertEnabled fuel (i + 4)
      else []

/-- The arrays `gray` and `grayOriginal` built by `generateASCII` (both receive the same
values).  `data.length` iterations always suffice. -/
def grayOfData (data : List α) (brightness contrastValue : α) (invertEnabled : Bool) :
    List (JSNum α) :=
  grayLoop data brightness contrastValue invertEnabled data.length 0

/-- The grid `gray2d` built by `generateContourASCII`. -/
def gray2dOfData (data : List α) (asciiWidth asciiHeight : Nat)
    (brightness contrastValue : α) (invertEnabled : Bool) : List (List (JSNum α)) :=
  (List.range asciiHeight).map fun (y : Nat) =>
    (List.range asciiWidth).map fun (x : Nat) =>
      let idx := (y * asciiWidth + x) * 4
      let lum : JSNum α := 0.299 * dataAt data idx + 0.587 * dataAt data (idx + 1)
        + 0.114 * dataAt data (idx + 2)
      let lum : JSNum α := if invertEnabled then 255 - lum else lum
      clamp (contrastFactor contrastValue * (lum - 128) + 128 + JSNum.fin brightness) 0 255

/-- The tone of a pixel as the specification words it: the luminance
`0.299 R + 0.587 G + 0.114 B`, inverted first when `invert` is on, scaled around 128 by
the contrast factor, offset by the brightness and limited to `[0, 255]`. -/
def toneSpec (r g b brightness contrast : α) (invert : Bool) : JSNum α :=
  let l : JSNum α := JSNum.fin (0.299 * r + 0.587 * g + 0.114 * b)
  let l : JSNum α := if invert then JSNum.fin 255 - l else l
  let factor : JSNum α :=
    JSNum.fin (259 * (contrast + 255)) / JSNum.fin (255 * (259 - contrast))
  let v : JSNum α := factor * (l - JSNum.fin 128) + JSNum.fin 128 + JSNum.fin brightness
  if JSNum.lt v (JSNum.fin 0) then JSNum.fin 0
  else if JSNum.lt (JSNum.fin 255) v then JSNum.fin 255
  else v

end Tone


section Kernel

variable {α : Type} [LinearOrderedField α]

/-- The values taken by a loop `for (let v = -half; v <= half; v++)`. -/
def offsets (half : Nat) : List Int :=
  (List.range (2 * half + 1)).map fun (i : Nat) => (i : Int) - (half : Int)

/-- The function `gaussianKernel2D(sigma, kernelSize)`; `exp` stands for `Math.exp`.  The first loop
nest fills the rows and accumulates `sum` in row-major order, the second divides the
cells of the first `kernelSize` rows and columns by `sum`. -/
def gaussianKernel2D (exp : α → α) (sigma : α) (kernelSize : Nat) : List (List α) :=
  let half := kernelSize / 2
  let kernel : List (List α) :=
    (offsets half).map fun (y : Int) =>
      (offsets half).map fun (x : Int) =>
        exp (-((x : α) * (x : α) + (y : α) * (y : α)) / (2 * sigma * sigma))
  let sum : α := kernel.flatten.foldl (fun sum value => sum + value) 0
  kernel.mapIdx fun y row =>
    row.mapIdx fun x value =>
      if y < kernelSize ∧ x < kernelSize then value / sum else value

/-- Reading `m[r][c]` from a grid.  Every theorem below assumes rectangular grids and
reads inside them, where the default is never used. -/
def cell (m : List (List α)) (r c : Nat) : α :=
  (m.getD r []).getD c 0

/-- The function `convolve2D(img, kernel)`.  `img[0].length` throws on an empty `img`, which is the
result `none`. -/
def convolve2D (img kernel : List (List α)) : Option (List (List α)) :=
  match img with
  | [] => none
  | row0 :: _ =>
    let height := img.length
    let width := row0.length
    let kernelSize := kernel.length
    let half := kernelSize / 2
    some ((List.range height).map fun (y : Nat) =>
      (List.range width).map fun (x : Nat) =>
        (List.range kernelSize).foldl (fun (sum : α) (ky : Nat) =>
          (List.range kernelSize).foldl (fun (sum : α) (kx : Nat) =>
            let yy : Int := (y : Int) + (ky : Int) - (half : Int)
            let xx : Int := (x : Int) + (kx : Int) - (half : Int)
            let pixel : α :=
              if 0 ≤ yy ∧ yy < (height : Int) ∧ 0 ≤ xx ∧ xx < (width : Int)
              then cell img yy.toNat xx.toNat else 0
            sum + pixel * cell kernel ky kx) sum) 0)

/-- The pointwise sum `a + b` of two fields. -/
def add2D (a b : List (List α)) : List (List α) :=
  List.zipWith (fun ra rb => List.zipWith (fun u v => u + v) ra rb) a b

/-- A grid has `h` rows of `w` cells each. -/
def IsGrid (m : List (List α)) (h w : Nat) : Prop :=
  m.length = h ∧ ∀ row ∈ m, row.length = w

end Kernel

section Sobel

variable {α : Type} [LinearOrderedField α]

/-- The function `applyEdgeDetection(gray, width, height, threshold)`; `sqrt` stands for
`Math.sqrt`.  The array `edges` starts as `width * height` cells holding 255 and the two loops overwrite the
interior cells.  A read outside `gray` (which has `width * height` cells in every
theorem below) is given the value 0. -/
def applyEdgeDetection (sqrt : α → α) (gray : List α) (width height : Nat)
    (threshold : α) : List α :=
  let edges : List α := List.replicate (width * height) 255
  (List.range' 1 (height - 2)).foldl (fun (edges : List α) (y : Nat) =>
    (List.range' 1 (width - 2)).foldl (fun (edges : List α) (x : Nat) =>
      let idx := y * width + x
      let a := gray.getD ((y - 1) * width + (x - 1)) 0
      let b := gray.getD ((y - 1) * width + x) 0
      let c := gray.getD ((y - 1) * width + (x + 1)) 0
      let d := gray.getD (y * width + (x - 1)) 0
      let e := gray.getD (y * width + x) 0
      let f := gray.getD (y * width + (x + 1)) 0
      let g := gray.getD ((y + 1) * width + (x - 1)) 0
      let h := gray.getD ((y + 1) * width + x) 0
      let i := gray.getD ((y + 1) * width + (x + 1)) 0
      let Gx := (-1 * a) + (0 * b) + (1 * c) +
                (-2 * d) + (0 * e) + (2 * f) +
                (-1 * g) + (0 * h) + (1 * i)
      let Gy := (-1 * a) + (-2 * b) + (-1 * c) +
                (0 * d) + (0 * e) + (0 * f) +
                (1 * g) + (2 * h) + (1 * i)
      let magVal := sqrt (Gx * Gx + Gy * Gy)
      let normalized := (magVal / 1442) * 255
      edges.set idx (if normalized > threshold then 0 else 255)) edges) edges

/-- The Sobel kernel `kernelX` of `applySobel2D`. -/
def kernelX : List (List α) := [[-1, 0, 1], [-2, 0, 2], [-1, 0, 1]]

/-- The Sobel kernel `kernelY` of `applySobel2D`. -/
def kernelY : List (List α) := [[-1, -2, -1], [0, 0, 0], [1, 2, 1]]

/-- The assignment `m[y][x] = v` on a grid. -/
def setCell (m : List (List α)) (y x : Nat) (v : α) : List (List α) :=
  m.set y ((m.getD y []).set x v)

/-- The grid of `height` rows of `width` zeros with which `applySobel2D` and
`nonMaxSuppression` start. -/
def zeros2D (width height : Nat) : List (List α) :=
  List.replicate height (List.replicate width 0)

/-- The sums `Gx` and `Gy` accumulated by the two inner loops of `applySobel2D` at the
cell `(y, x)`. -/
def sobelSums (img : List (List α)) (y x : Nat) : α × α :=
  (offsets 1).foldl (fun (acc : α × α) (ky : Int) =>
    (offsets 1).foldl (fun (acc : α × α) (kx : Int) =>
      let pixel := cell img ((y : Int) + ky).toNat ((x : Int) + kx).toNat
      (acc.1 + pixel * cell kernelX (ky + 1).toNat (kx + 1).toNat,
       acc.2 + pixel * cell kernelY (ky + 1).toNat (kx + 1).toNat)) acc) (0, 0)

/-- The function `applySobel2D(img, width, height)`, returning the pair `(mag, angle)`; `sqrt`,
`atan2` and `pi` stand for `Math.sqrt`, `Math.atan2` and `Math.PI`. -/
def applySobel2D (sqrt : α → α) (atan2 : α → α → α) (pi : α) (img : List (List α))
    (width height : Nat) : List (List α) × List (List α) :=
  (List.range' 1 (height - 2)).foldl
    (fun (st : List (List α) × List (List α)) (y : Nat) =>
      (List.range' 1 (width - 2)).foldl
        (fun (st : List (List α) × List (List α)) (x : Nat) =>
          let G := sobelSums img y x
          let Gx := G.1
          let Gy := G.2
          let g := sqrt (Gx * Gx + Gy * Gy)
          let theta := atan2 Gy Gx * (180 / pi)
          let theta := if theta < 0 then theta + 180 else theta
          (setCell st.1 y x g, setCell st.2 y x theta)) st)
    (zeros2D width height, zeros2D width height)

/-- The weighted sum of the 3 x 3 neighbourhood of the cell `(y, x)` of a row-major
buffer: the specification's wording of the Sobel sums `Gx` and `Gy`, for a 3 x 3 table of
weights. -/
def neighbourhoodSum (weights : List (List α)) (gray : List α) (width y x : Nat) : α :=
  ∑ ky in Finset.range 3, ∑ kx in Finset.range 3,
    cell weights ky kx * gray.getD ((y + ky - 1) * width + (x + kx - 1)) 0

/-- The angle `atan2(Gy, Gx)` in degrees with a negative angle raised by 180: the
specification's folding of the gradient direction. -/
def foldedAngle (atan2 : α → α → α) (pi : α) (Gx Gy : α) : α :=
  if atan2 Gy Gx * (180 / pi) < 0 then atan2 Gy Gx * (180 / pi) + 180
  else atan2 Gy Gx * (180 / pi)

end Sobel

section Render

variable {α : Type} [LinearOrderedField α] [FloorRing α]

/-- The function `Math.round(v)`: the nearest integer, a half being rounded up. -/
def jsRound (v : α) : Int := ⌊v + 0.5⌋

/-- The call `gradient.charAt(level)`: the empty string when `level` is not an index of the
string. -/
def charAt (gradient : List Char) (level : Int) : List Char :=
  if 0 ≤ level then
    match gradient[level.toNat]? with
    | some c => [c]
    | none => []
  else []

/-- The values of `ditherAlgorithm`; `other` is any string that is none of the four
names tested by `generateASCII`. -/
inductive DitherAlgorithm where
  | floyd | atkinson | noise | ordered | other
  deriving DecidableEq, Repr

/-- What the loops of `generateASCII` carry from cell to cell: the working buffer `gray`
and the number of calls made to `Math.random`. -/
structure Work (α : Type) where
  gray : List α
  draws : Nat

/-- The loop body shared by the sobel branch and the plain branch of `generateASCII`:
the ignoreWhite test, then the quantisation of `gray[idx]`.  It returns the text
appended to `line` and the state after the cell. -/
def plainCell (gradient : List Char) (ignoreWhite : Bool) (grayOriginal : List α)
    (asciiWidth : Nat) (st : Work α) (x y : Nat) : List Char × Work α :=
  let idx := y * asciiWidth + x
  if ignoreWhite && decide (grayOriginal.getD idx 0 = 255) then ([' '], st)
  else
    let nLevels := gradient.length
    let computedLevel := jsRound ((st.gray.getD idx 0 / 255) * ((nLevels : α) - 1))
    (charAt gradient computedLevel, st)

/-- The loop body of the Floyd-Steinberg branch.  With a palette of one character the
source divides zero by zero; every palette selectable in the source has at least two. -/
def floydCell (gradient : List Char) (ignoreWhite : Bool) (grayOriginal : List α)
    (asciiWidth asciiHeight : Nat) (st : Work α) (x y : Nat) : List Char × Work α :=
  let idx := y * asciiWidth + x
  if ignoreWhite && decide (grayOriginal.getD idx 0 = 255) then ([' '], st)
  else
    let nLevels := gradient.length
    let gray := st.gray
    let computedLevel := jsRound ((gray.getD idx 0 / 255) * ((nLevels : α) - 1))
    let newPixel := ((computedLevel : α) / ((nLevels : α) - 1)) * 255
    let error := gray.getD idx 0 - newPixel
    let gray := if x + 1 < asciiWidth then
        gray.set (idx + 1) (clamp (gray.getD (idx + 1) 0 + error * (7 / 16)) 0 255)
      else gray
    let gray := if 1 ≤ x ∧ y + 1 < asciiHeight then
        gray.set (idx - 1 + asciiWidth)
          (clamp (gray.getD (idx - 1 + asciiWidth) 0 + error * (3 / 16)) 0 255)
      else gray
    let gray := if y + 1 < asciiHeight then
        gray.set (idx + asciiWidth)
          (clamp (gray.getD (idx + asciiWidth) 0 + error * (5 / 16)) 0 255)
      else gray
    let gray := if x + 1 < asciiWidth ∧ y + 1 < asciiHeight then
        gray.set (idx + asciiWidth + 1)
          (clamp (gray.getD (idx + asciiWidth + 1) 0 + error * (1 / 16)) 0 255)
      else gray
    (charAt gradient computedLevel, { st with gray := gray })

/-- The loop body of the Atkinson branch. -/
def atkinsonCell (gradient : List Char) (ignoreWhite : Bool) (grayOriginal : List α)
    (asciiWidth asciiHeight : Nat) (st : Work α) (x y : Nat) : List Char × Work α :=
  let idx := y * asciiWidth + x
  if ignoreWhite && decide (grayOriginal.getD idx 0 = 255) then ([' '], st)
  else
    let nLevels := gradient.length
    let gray := st.gray
    let computedLevel := jsRound ((gray.getD idx 0 / 255) * ((nLevels : α) - 1))
    let newPixel := ((computedLevel : α) / ((nLevels : α) - 1)) * 255
    let error := gray.getD idx 0 - newPixel
    let diffusion := error / 8
    let gray := if x + 1 < asciiWidth then
        gray.set (idx + 1) (clamp (gray.getD (idx + 1) 0 + diffusion) 0 255)
      else gray
    let gray := if x + 2 < asciiWidth then
        gray.set (idx + 2) (clamp (gray.getD (idx + 2) 0 + diffusion) 0 255)
      else gray
    let gray := if y + 1 < asciiHeight then
        let gray := if 1 ≤ x then
            gray.set (idx - 1 + asciiWidth)
              (clamp (gray.getD (idx - 1 + asciiWidth) 0 + diffusion) 0 255)
          else gray
        let gray := gray.set (idx + asciiWidth)
          (clamp (gray.getD (idx + asciiWidth) 0 + diffusion) 0 255)
        if x + 1 < asciiWidth then
          gray.set (idx + asciiWidth + 1)
            (clamp (gray.getD (idx + asciiWidth + 1) 0 + diffusion) 0 255)
        else gray
      else gray
    let gray := if y + 2 < asciiHeight then
        gray.set (idx + 2 * asciiWidth)
          (clamp (gray.getD (idx + 2 * asciiWidth) 0 + diffusion) 0 255)
      else gray
    (charAt gradient computedLevel, { st with gray := gray })

/-- The loop body of the noise branch; `random k` is the value returned by the call
number `k` to `Math.random`. -/
def noiseCell (random : Nat → α) (gradient : List Char) (ignoreWhite : Bool)
    (grayOriginal : List α) (asciiWidth : Nat) (st : Work α) (x y : Nat) :
    List Char × Work α :=
  let idx := y * asciiWidth + x
  if ignoreWhite && decide (grayOriginal.getD idx 0 = 255) then ([' '], st)
  else
    let nLevels := gradient.length
    let noise := (random st.draws - 0.5) * (255 / (nLevels : α))
    let noisyValue := clamp (st.gray.getD idx 0 + noise) 0 255
    let computedLevel := jsRound ((noisyValue / 255) * ((nLevels : α) - 1))
    (charAt gradient computedLevel, { st with draws := st.draws + 1 })

/-- The 4 x 4 Bayer matrix of the ordered branch. -/
def bayer : List (List α) :=
  [[0, 8, 2, 10], [12, 4, 14, 6], [3, 11, 1, 9], [15, 7, 13, 5]]

/-- The loop body of the ordered branch. -/
def orderedCell (gradient : List Char) (ignoreWhite : Bool) (grayOriginal : List α)
    (asciiWidth : Nat) (st : Work α) (x y : Nat) : List Char × Work α :=
  let idx := y * asciiWidth + x
  if ignoreWhite && decide (grayOriginal.getD idx 0 = 255) then ([' '], st)
  else
    let nLevels := gradient.length
    let matrixSize := 4
    let p := st.gray.getD idx 0 / 255
    let t := (cell bayer (y % matrixSize) (x % matrixSize) + 0.5)
      / (((matrixSize * matrixSize : Nat) : α))
    let valueWithDither := p + t - 0.5
    let valueWithDither := Min.min (Max.max valueWithDither 0) 1
    let computedLevel : Int := ⌊valueWithDither * (nLevels : α)⌋
    let computedLevel : Int :=
      if computedLevel ≥ (nLevels : Int) then (nLevels : Int) - 1 else computedLevel
    (charAt gradient computedLevel, st)

/-- One row of the scan: `for (let x = 0; x < asciiWidth; x++)`, collecting the text
each cell appends to `line`. -/
def scanRow (body : Work α → Nat → Nat → List Char × Work α) (asciiWidth y : Nat)
    (st : Work α) : List (List Char) × Work α :=
  (List.range asciiWidth).foldl
    (fun (acc : List (List Char) × Work α) (x : Nat) =>
      let r := body acc.2 x y
      (acc.1 ++ [r.1], r.2)) ([], st)

/-- The scan `for (let y = 0; y < asciiHeight; y++)` over the rows: the pieces of text
appended cell by cell, row by row, and the final state. -/
def scanCells (body : Work α → Nat → Nat → List Char × Work α)
    (asciiWidth asciiHeight : Nat) (st : Work α) : List (List (List Char)) × Work α :=
  (List.range asciiHeight).foldl
    (fun (acc : List (List (List Char)) × Work α) (y : Nat) =>
      let r := scanRow body asciiWidth y acc.2
      (acc.1 ++ [r.1], r.2)) ([], st)

/-- The text `ascii`: every row is the concatenation of its pieces followed by a line
feed. -/
def asciiText (cells : List (List (List Char))) : List Char :=
  (cells.map fun (row : List (List Char)) => row.flatten ++ [Char.ofNat 10]).flatten

/-- The settings read by `generateASCII` once the tone buffer is built; `sobel` is the
outcome of the test `edgeMethod === 'sobel'` (the mode `dog` has returned before). -/
structure RenderConfig (α : Type) where
  gradient : List Char
  ignoreWhite : Bool
  sobel : Bool
  edgeThreshold : α
  ditheringEnabled : Bool
  ditherAlgorithm : DitherAlgorithm

/-- The part of `generateASCII` that follows the tone loop, as the grid of the pieces of
text appended cell by cell.  `gray` is the tone buffer, of which `grayOriginal` is a
copy.  An unknown dither algorithm runs no loop at all. -/
def generateASCIICells (sqrt : α → α) (random : Nat → α) (cfg : RenderConfig α)
    (asciiWidth asciiHeight : Nat) (gray : List α) : List (List (List Char)) :=
  let grayOriginal := gray
  if cfg.sobel then
    let gray := applyEdgeDetection sqrt gray asciiWidth asciiHeight cfg.edgeThreshold
    (scanCells (plainCell cfg.gradient cfg.ignoreWhite grayOriginal asciiWidth)
      asciiWidth asciiHeight ⟨gray, 0⟩).1
  else if cfg.ditheringEnabled then
    match cfg.ditherAlgorithm with
    | DitherAlgorithm.floyd =>
      (scanCells (floydCell cfg.gradient cfg.ignoreWhite grayOriginal asciiWidth asciiHeight)
        asciiWidth asciiHeight ⟨gray, 0⟩).1
    | DitherAlgorithm.atkinson =>
      (scanCells
        (atkinsonCell cfg.gradient cfg.ignoreWhite grayOriginal asciiWidth asciiHeight)
        asciiWidth asciiHeight ⟨gray, 0⟩).1
    | DitherAlgorithm.noise =>
      (scanCells (noiseCell random cfg.gradient cfg.ignoreWhite grayOriginal asciiWidth)
        asciiWidth asciiHeight ⟨gray, 0⟩).1
    | DitherAlgorithm.ordered =>
      (scanCells (orderedCell cfg.gradient cfg.ignoreWhite grayOriginal asciiWidth)
        asciiWidth asciiHeight ⟨gray, 0⟩).1
    | DitherAlgorithm.other => []
  else
    (scanCells (plainCell cfg.gradient cfg.ignoreWhite grayOriginal asciiWidth)
      asciiWidth asciiHeight ⟨gray, 0⟩).1

/-- The text that `generateASCII` stores in the page for the modes other than `dog`. -/
def generateASCII (sqrt : α → α) (random : Nat → α) (cfg : RenderConfig α)
    (asciiWidth asciiHeight : Nat) (gray : List α) : List Char :=
  asciiText (generateASCIICells sqrt random cfg asciiWidth asciiHeight gray)

/-- The loop body of the branch of `generateASCII` that the settings select, the
ignoreWhite flag being passed apart from them.  An unknown dither algorithm selects no
loop; it is given the body that appends nothing. -/
def pathCell (random : Nat → α) (cfg : RenderConfig α) (ignoreWhite : Bool)
    (grayOriginal : List α) (asciiWidth asciiHeight : Nat) :
    Work α → Nat → Nat → List Char × Work α :=
  if cfg.sobel then plainCell cfg.gradient ignoreWhite grayOriginal asciiWidth
  else if cfg.ditheringEnabled then
    match cfg.ditherAlgorithm with
    | DitherAlgorithm.floyd =>
      floydCell cfg.gradient ignoreWhite grayOriginal asciiWidth asciiHeight
    | DitherAlgorithm.atkinson =>
      atkinsonCell cfg.gradient ignoreWhite grayOriginal asciiWidth asciiHeight
    | DitherAlgorithm.noise => noiseCell random cfg.gradient ignoreWhite grayOriginal asciiWidth
    | DitherAlgorithm.ordered => orderedCell cfg.gradient ignoreWhite grayOriginal asciiWidth
    | DitherAlgorithm.other => fun (st : Work α) _ _ => ([], st)
  else plainCell cfg.gradient ignoreWhite grayOriginal asciiWidth

/-- The working buffer with which the selected branch starts: the edge buffer in the
sobel branch, the tone buffer in the others. -/
def pathStart (sqrt : α → α) (cfg : RenderConfig α) (asciiWidth asciiHeight : Nat)
    (gray : List α) : Work α :=
  if cfg.sobel then
    ⟨applyEdgeDetection sqrt gray asciiWidth asciiHeight cfg.edgeThreshold, 0⟩
  else ⟨gray, 0⟩

/-- The level of ordered dithering as the specification words it: the tone over 255,
shifted by the Bayer threshold `t` minus one half, limited to `[0, 1]`, scaled by
`nLevels`, rounded down and capped at `nLevels - 1`. -/
def orderedLevelSpec (nLevels : Nat) (tone : α) (x y : Nat) : Int :=
  let t : α := (cell bayer (y % 4) (x % 4) + 0.5) / 16
  Min.min ⌊clamp (tone / 255 + t - 0.5) 0 1 * (nLevels : α)⌋ ((nLevels : Int) - 1)

/-- The assignment `gray[i] = clamp(gray[i] + d, 0, 255)` made by the error-diffusion
branches. -/
def addClamped (gray : List α) (i : Nat) (d : α) : List α :=
  gray.set i (clamp (gray.getD i 0 + d) 0 255)

/-- The quantisation error of a value, as the specification words it: the value minus
`level / (nLevels - 1) * 255`, where `level` is `value / 255 * (nLevels - 1)` rounded. -/
def quantError (nLevels : Nat) (value : α) : α :=
  value - ((jsRound (value / 255 * ((nLevels : α) - 1)) : Int) : α) / ((nLevels : α) - 1) * 255

/-- The assignments that the Floyd-Steinberg step makes at the cell `(x, y)`, in the order
of the source: the flat index written and the amount added, for the guards that hold. -/
def floydTargets (asciiWidth asciiHeight x y : Nat) (error : α) : List (Nat × α) :=
  (if x + 1 < asciiWidth then [(y * asciiWidth + x + 1, error * (7 / 16))] else [])
    ++ (if 1 ≤ x ∧ y + 1 < asciiHeight then
        [(y * asciiWidth + x - 1 + asciiWidth, error * (3 / 16))] else [])
    ++ (if y + 1 < asciiHeight then [(y * asciiWidth + x + asciiWidth, error * (5 / 16))]
        else [])
    ++ (if x + 1 < asciiWidth ∧ y + 1 < asciiHeight then
        [(y * asciiWidth + x + asciiWidth + 1, error * (1 / 16))] else [])

/-- The assignments that the Atkinson step makes at the cell `(x, y)`, in the order of the
source: the flat index written and the amount added, for the guards that hold. -/
def atkinsonTargets (asciiWidth asciiHeight x y : Nat) (diffusion : α) : List (Nat × α) :=
  (if x + 1 < asciiWidth then [(y * asciiWidth + x + 1, diffusion)] else [])
    ++ (if x + 2 < asciiWidth then [(y * asciiWidth + x + 2, diffusion)] else [])
    ++ (if y + 1 < asciiHeight then
        (if 1 ≤ x then [(y * asciiWidth + x - 1 + asciiWidth, diffusion)] else [])
          ++ [(y * asciiWidth + x + asciiWidth, diffusion)]
          ++ (if x + 1 < asciiWidth then [(y * asciiWidth + x + asciiWidth + 1, diffusion)]
              else [])
      else [])
    ++ (if y + 2 < asciiHeight then [(y * asciiWidth + x + 2 * asciiWidth, diffusion)]
        else [])

/-- The neighbours of the cell `(x, y)` that the specification names for Floyd-Steinberg,
as pairs `(row, column)` inside a grid of `asciiHeight` rows and `asciiWidth` columns,
each with the share of the error it receives: right, bottom-left, bottom, bottom-right. -/
def floydNeighbours (asciiWidth asciiHeight x y : Nat) (error : α) :
    List ((Nat × Nat) × α) :=
  (if x + 1 < asciiWidth then [((y, x + 1), error * (7 / 16))] else [])
    ++ (if 1 ≤ x ∧ y + 1 < asciiHeight then [((y + 1, x - 1), error * (3 / 16))] else [])
    ++ (if y + 1 < asciiHeight then [((y + 1, x), error * (5 / 16))] else [])
    ++ (if x + 1 < asciiWidth ∧ y + 1 < asciiHeight then
        [((y + 1, x + 1), error * (1 / 16))] else [])

/-- The neighbours of the cell `(x, y)` that the specification names for Atkinson, as
pairs `(row, column)` inside the grid, each with the amount it receives: right, second
to the right, bottom-left, bottom, bottom-right, second below. -/
def atkinsonNeighbours (asciiWidth asciiHeight x y : Nat) (diffusion : α) :
    List ((Nat × Nat) × α) :=
  (if x + 1 < asciiWidth then [((y, x + 1), diffusion)] else [])
    ++ (if x + 2 < asciiWidth then [((y, x + 2), diffusion)] else [])
    ++ (if 1 ≤ x ∧ y + 1 < asciiHeight then [((y + 1, x - 1), diffusion)] else [])
    ++ (if y + 1 < asciiHeight then [((y + 1, x), diffusion)] else [])
    ++ (if x + 1 < asciiWidth ∧ y + 1 < asciiHeight then [((y + 1, x + 1), diffusion)]
        else [])
    ++ (if y + 2 < asciiHeight then [((y + 2, x), diffusion)] else [])

/-- The cell `(row, col)` is one of the six targets that the specification names for the
Atkinson step at `(x, y)`: `(x+1, y)`, `(x+2, y)`, `(x-1, y+1)`, `(x, y+1)`, `(x+1, y+1)`
and `(x, y+2)`. -/
def AtkinsonTarget (x y row col : Nat) : Prop :=
  (row = y ∧ col = x + 1) ∨ (row = y ∧ col = x + 2) ∨ (row = y + 1 ∧ col + 1 = x)
    ∨ (row = y + 1 ∧ col = x) ∨ (row = y + 1 ∧ col = x + 1) ∨ (row = y + 2 ∧ col = x)

/-- The cell `(row, col)` is one of the four targets that the specification names for the
Floyd-Steinberg step at `(x, y)`: `(x+1, y)`, `(x-1, y+1)`, `(x, y+1)` and `(x+1, y+1)`. -/
def FloydTarget (x y row col : Nat) : Prop :=
  (row = y ∧ col = x + 1) ∨ (row = y + 1 ∧ col + 1 = x) ∨ (row = y + 1 ∧ col = x)
    ∨ (row = y + 1 ∧ col = x + 1)

/-- The working buffer holds `asciiWidth * asciiHeight` values, all in `[0, 255]`. -/
def ToneBuffer (asciiWidth asciiHeight : Nat) (st : Work α) : Prop :=
  st.gray.length = asciiWidth * asciiHeight ∧ ∀ v ∈ st.gray, 0 ≤ v ∧ v ≤ 255

end Render

section Contour

variable {α : Type} [LinearOrderedField α]

/-- The value that the loop body of `nonMaxSuppression` assigns to `suppressed[y][x]`.
When no test on `theta` succeeds both neighbours keep their initial value 0. -/
def suppressedAt (mag angle : List (List α)) (y x : Nat) : α :=
  let currentMag := cell mag y x
  let theta := cell angle y x
  let neighbors : α × α :=
    if (theta ≥ 0 ∧ theta < 22.5) ∨ (theta ≥ 157.5 ∧ theta ≤ 180) then
      (cell mag y (x - 1), cell mag y (x + 1))
    else if theta ≥ 22.5 ∧ theta < 67.5 then
      (cell mag (y - 1) (x + 1), cell mag (y + 1) (x - 1))
    else if theta ≥ 67.5 ∧ theta < 112.5 then
      (cell mag (y - 1) x, cell mag (y + 1) x)
    else if theta ≥ 112.5 ∧ theta < 157.5 then
      (cell mag (y - 1) (x - 1), cell mag (y + 1) (x + 1))
    else (0, 0)
  if currentMag ≥ neighbors.1 ∧ currentMag ≥ neighbors.2 then currentMag else 0

/-- The function `nonMaxSuppression(mag, angle, width, height)`: the grid `suppressed`
starts as zeros and the two loops assign the interior cells. -/
def nonMaxSuppression (mag angle : List (List α)) (width height : Nat) : List (List α) :=
  (List.range' 1 (height - 2)).foldl (fun (suppressed : List (List α)) (y : Nat) =>
    (List.range' 1 (width - 2)).foldl (fun (suppressed : List (List α)) (x : Nat) =>
      setCell suppressed y x (suppressedAt mag angle y x)) suppressed)
    (zeros2D width height)

/-- The function `differenceOfGaussians2D(gray, sigma1, sigma2, kernelSize)`; `none` is the
exception thrown by `convolve2D` (or by `gray[0].length`) on an empty `gray`. -/
def differenceOfGaussians2D (exp : α → α) (gray : List (List α)) (sigma1 sigma2 : α)
    (kernelSize : Nat) : Option (List (List α)) :=
  let kernel1 := gaussianKernel2D exp sigma1 kernelSize
  let kernel2 := gaussianKernel2D exp sigma2 kernelSize
  match convolve2D gray kernel1 with
  | none => none
  | some blurred1 =>
    match convolve2D gray kernel2 with
    | none => none
    | some blurred2 =>
      match gray with
      | [] => none
      | row0 :: _ =>
        let height := gray.length
        let width := row0.length
        some ((List.range height).map fun (y : Nat) =>
          (List.range width).map fun (x : Nat) => cell blurred1 y x - cell blurred2 y x)

/-- The glyph chosen by `generateContourASCII` for an adjusted angle; the last glyph is
the backslash. -/
def edgeChar (adjustedAngle : α) : Char :=
  if adjustedAngle < 22.5 ∨ adjustedAngle ≥ 157.5 then '-'
  else if adjustedAngle < 67.5 then '/'
  else if adjustedAngle < 112.5 then '|'
  else Char.ofNat 92

end Contour

section ContourRender

variable {α : Type} [LinearOrderedField α] [FloorRing α]

/-- The operator `a % b` of JavaScript on numbers: what is left of `a` once `b` times the
quotient truncated toward zero is taken away. -/
def jsRem (a b : α) : α :=
  if 0 ≤ a / b then a - b * ((⌊a / b⌋ : Int) : α) else a - b * ((⌈a / b⌉ : Int) : α)

/-- The last loop nest of `generateContourASCII`: the piece of text appended for every
cell, from the suppressed magnitudes and the angles. -/
def contourCells (suppressedMag angle : List (List α)) (asciiWidth asciiHeight : Nat)
    (threshold : α) : List (List (List Char)) :=
  (List.range asciiHeight).map fun (y : Nat) =>
    (List.range asciiWidth).map fun (x : Nat) =>
      if cell suppressedMag y x > threshold then
        let adjustedAngle := jsRem (cell angle y x + 90) 180
        [edgeChar adjustedAngle]
      else [' ']

/-- The part of `generateContourASCII` that follows the tone loop, as the grid of the
pieces of text appended cell by cell; `gray2d` is the tone grid.  The result is `none`
when `differenceOfGaussians2D` throws. -/
def generateContourASCIICells (exp sqrt : α → α) (atan2 : α → α → α) (pi : α)
    (gray2d : List (List α)) (asciiWidth asciiHeight : Nat) (threshold : α) :
    Option (List (List (List Char))) :=
  let sigma1 : α := 0.5
  let sigma2 : α := 1.0
  let kernelSize := 3
  match differenceOfGaussians2D exp gray2d sigma1 sigma2 kernelSize with
  | none => none
  | some dog =>
    let sobel := applySobel2D sqrt atan2 pi dog asciiWidth asciiHeight
    let mag := sobel.1
    let angle := sobel.2
    let suppressedMag := nonMaxSuppression mag angle asciiWidth asciiHeight
    some (contourCells suppressedMag angle asciiWidth asciiHeight threshold)

/-- The text that `generateContourASCII` stores in the page. -/
def generateContourASCII (exp sqrt : α → α) (atan2 : α → α → α) (pi : α)
    (gray2d : List (List α)) (asciiWidth asciiHeight : Nat) (threshold : α) :
    Option (List Char) :=
  (generateContourASCIICells exp sqrt atan2 pi gray2d asciiWidth asciiHeight threshold).map
    asciiText

end ContourRender

section Palette

/-- The palette `gradient` chosen by the `switch (charset)` of `generateASCII`;
`manualCharInput` is the text of the manual-character field, replaced by `0` when it is
empty.  A palette is a list of UTF-16 code units, one `Char` each. -/
def selectGradient (charset : String) (manualCharInput : List Char) : List Char :=
  if charset = "standard" then ("@%#*+=-:.").toList
  else if charset = "blocks" then ("█▓▒░ ").toList
  else if charset = "binary" then ("01").toList
  else if charset = "manual" then
    let manualChar := if manualCharInput = [] then ['0'] else manualCharInput
    manualChar ++ [' ']
  else if charset = "hex" then ("0123456789ABCDEF").toList
  else ("$@B%8&WM#*oahkbdpqwmZO0QLCJUYXzcvunxrjft/\\|()1\x7b\x7d[]?-_+~<>i!lI;:,\"^`'.").toList

end Palette

/-! ## Theorems -/

namespace JSNum

variable {α : Type} [LinearOrderedField α]

@[simp] theorem fin_add_fin (a b : α) : (fin a + fin b : JSNum α) = fin (a + b) := rfl

@[simp] theorem fin_sub_fin (a b : α) : (fin a - fin b : JSNum α) = fin (a - b) := by
  show add (fin a) (neg (fin b)) = fin (a - b)
  simp [add, neg, sub_eq_add_neg]

@[simp] theorem fin_mul_fin (a b : α) : (fin a * fin b : JSNum α) = fin (a * b) := rfl

theorem fin_div_fin (a b : α) (hb : b ≠ 0) : (fin a / fin b : JSNum α) = fin (a / b) := by
  show div (fin a) (fin b) = fin (a / b)
  simp [div, hb]

/-- The source's `clamp` agrees with the three-way case split on every number,
`NaN` and the infinities included. -/
theorem clamp_eq_cases (v : JSNum α) :
    clamp v 0 255
      = if lt v (fin 0) then fin 0 else if lt (fin 255) v then fin 255 else v := by
  have h0 : (0 : JSNum α) = fin 0 := rfl
  have h255 : (255 : JSNum α) = fin 255 := rfl
  rw [h0, h255]
  cases v with
  | nan => rfl
  | posInf => show max (fin 0) (min (fin 255) posInf) = _; simp [min, max, lt]
  | negInf => show max (fin 0) (min (fin 255) negInf) = _; simp [min, max, lt]
  | fin v =>
    show max (fin 0) (min (fin 255) (fin v)) = _
    simp only [min, max, lt, decide_eq_true_eq]
    by_cases h1 : v < 0
    · have : v ≤ 255 := le_trans h1.le (by norm_num)
      simp [h1, this, h1.le]
    · by_cases h2 : 255 < v
      · simp [h1, h2, h2.le]
      · have h3 : v ≤ 255 := not_lt.mp h2
        have h4 : 0 ≤ v := not_lt.mp h1
        simp [h1, h2, h3, h4]

end JSNum

theorem dataAt_of_get? {α : Type} {data : List α} {i : Nat} {v : α} (h : data[i]? = some v) :
    dataAt data i = JSNum.fin v := by
  simp [dataAt, h]

section ToneTheorems

variable {α : Type} [LinearOrderedField α]

/-- The cell `(y, x)` of `gray2d` holds the tone computed from the four bytes that start
at offset `(y * w + x) * 4`. -/
theorem gray2dOfData_get? (data : List α) (w h : Nat) (brightness contrast : α)
    (invert : Bool) (y x : Nat) (hy : y < h) (hx : x < w) :
    ((gray2dOfData data w h brightness contrast invert)[y]?).bind (fun row => row[x]?)
      = some (adjustedAt data brightness contrast invert ((y * w + x) * 4)) := by
  simp [gray2dOfData, List.getElem?_map, List.getElem?_range, hy, hx, adjustedAt]

/-- The tone computed by `generateASCII` for a pixel whose three colour bytes are
present is the tone of the specification. -/
theorem adjustedAt_eq_toneSpec (data : List α) (brightness contrast : α) (invert : Bool)
    (i : Nat) (r g b : α) (hr : data[i]? = some r) (hg : data[i + 1]? = some g)
    (hb : data[i + 2]? = some b) :
    adjustedAt data brightness contrast invert i
      = toneSpec r g b brightness contrast invert := by
  simp only [adjustedAt, toneSpec, contrastFactor, dataAt_of_get? hr, dataAt_of_get? hg,
    dataAt_of_get? hb, JSNum.clamp_eq_cases]
  have e1 : (0.299 : JSNum α) = JSNum.fin 0.299 := rfl
  have e2 : (0.587 : JSNum α) = JSNum.fin 0.587 := rfl
  have e3 : (0.114 : JSNum α) = JSNum.fin 0.114 := rfl
  have e4 : (255 : JSNum α) = JSNum.fin 255 := rfl
  have e5 : (259 : JSNum α) = JSNum.fin 259 := rfl
  have e6 : (128 : JSNum α) = JSNum.fin 128 := rfl
  simp only [e1, e2, e3, e4, e5, e6, JSNum.fin_add_fin, JSNum.fin_mul_fin, JSNum.fin_sub_fin]

/-- The tone pushed by iteration `k` of the tone loop is the tone of the pixel at offset
`i + 4 * k`. -/
theorem grayLoop_get? (data : List α) (brightness contrast : α) (invert : Bool) :
    ∀ (fuel i k : Nat), k < fuel → i + 4 * k < data.length →
      (grayLoop data brightness contrast invert fuel i).get? k
        = some (adjustedAt data brightness contrast invert (i + 4 * k)) := by
  intro fuel
  induction fuel with
  | zero => intro i k hk; omega
  | succ fuel ih =>
    intro i k hk hlen
    have hi : i < data.length := by omega
    cases k with
    | zero => simp [grayLoop, hi]
    | succ k =>
      simp only [grayLoop, hi, if_true, List.get?_cons_succ]
      rw [ih (i + 4) k (by omega) (by omega)]
      congr 2
      omega

/-- Claim C4.  For a pixel array holding `w * h` RGBA pixels, the tone that
`generateContourASCII` stores at cell `(y, x)` of `gray2d` and the tone that
`generateASCII` pushes at index `y * w + x` of `gray` are both the tone of the
specification for the pixel's colour bytes: the luminance (inverted first when invert is
on), scaled by the contrast factor around 128, offset by the brightness and clamped to
`[0, 255]`. -/
theorem tone_contour_eq_plain_eq_spec (data : List α) (w h : Nat)
    (brightness contrast : α) (invert : Bool) (hlen : data.length = 4 * (w * h))
    (y x : Nat) (hy : y < h) (hx : x < w) :
    ∃ r g b : α,
      data[4 * (y * w + x)]? = some r ∧ data[4 * (y * w + x) + 1]? = some g
        ∧ data[4 * (y * w + x) + 2]? = some b
        ∧ ((gray2dOfData data w h brightness contrast invert)[y]?).bind (fun row => row[x]?)
            = some (toneSpec r g b brightness contrast invert)
        ∧ (grayOfData data brightness contrast invert)[y * w + x]?
            = some (toneSpec r g b brightness contrast invert) := by
  have hidx : y * w + x < w * h := by
    calc y * w + x < y * w + w := by omega
      _ = (y + 1) * w := by ring
      _ ≤ h * w := Nat.mul_le_mul_right w hy
      _ = w * h := Nat.mul_comm h w
  have h0 : 4 * (y * w + x) < data.length := by omega
  have h1 : 4 * (y * w + x) + 1 < data.length := by omega
  have h2 : 4 * (y * w + x) + 2 < data.length := by omega
  refine ⟨data[4 * (y * w + x)], data[4 * (y * w + x) + 1], data[4 * (y * w + x) + 2],
    List.getElem?_eq_getElem h0, List.getElem?_eq_getElem h1, List.getElem?_eq_getElem h2,
    ?_, ?_⟩
  · rw [gray2dOfData_get? data w h brightness contrast invert y x hy hx,
      Nat.mul_comm (y * w + x) 4]
    exact congrArg some (adjustedAt_eq_toneSpec data brightness contrast invert _ _ _ _
      (List.getElem?_eq_getElem h0) (List.getElem?_eq_getElem h1)
      (List.getElem?_eq_getElem h2))
  · have hk := grayLoop_get? data brightness contrast invert data.length 0 (y * w + x)
      (by omega) (by omega)
    simp only [Nat.zero_add] at hk
    have hk2 : (grayOfData data brightness contrast invert)[y * w + x]?
        = some (adjustedAt data brightness contrast invert (4 * (y * w + x))) := by
      simpa [grayOfData] using hk
    rw [hk2]
    exact congrArg some (adjustedAt_eq_toneSpec data brightness contrast invert _ _ _ _
      (List.getElem?_eq_getElem h0) (List.getElem?_eq_getElem h1)
      (List.getElem?_eq_getElem h2))

/-- Witness for claim C4: a single grey pixel with contrast 259, where the contrast
factor is infinite and both tones are 255. -/
theorem tone_contour_eq_plain_eq_spec_witness :
    ∃ r g b : ℚ,
      ([200, 200, 200, 255] : List ℚ)[4 * (0 * 1 + 0)]? = some r
        ∧ ([200, 200, 200, 255] : List ℚ)[4 * (0 * 1 + 0) + 1]? = some g
        ∧ ([200, 200, 200, 255] : List ℚ)[4 * (0 * 1 + 0) + 2]? = some b
        ∧ ((gray2dOfData ([200, 200, 200, 255] : List ℚ) 1 1 0 259 false)[0]?).bind
            (fun row => row[0]?) = some (toneSpec r g b 0 259 false)
        ∧ (grayOfData ([200, 200, 200, 255] : List ℚ) 0 259 false)[0 * 1 + 0]?
            = some (toneSpec r g b 0 259 false) :=
  tone_contour_eq_plain_eq_spec [200, 200, 200, 255] 1 1 0 259 false (by simp) 0 0
    (by decide) (by decide)

/-- Away from contrast 259 the divisor of the contrast factor is not zero and the tone is
a finite number of `[0, 255]`. -/
theorem toneSpec_of_contrast_ne (r g b brightness contrast : α) (invert : Bool)
    (hc : contrast ≠ 259) :
    JSNum.InRange 0 255 (toneSpec r g b brightness contrast invert) := by
  have hden : (255 : α) * (259 - contrast) ≠ 0 := by
    apply mul_ne_zero (by norm_num)
    intro h
    exact hc (by linear_combination -h)
  cases invert <;>
  · simp only [toneSpec, JSNum.fin_div_fin _ _ hden, JSNum.fin_sub_fin, JSNum.fin_mul_fin,
      JSNum.fin_add_fin, JSNum.lt, decide_eq_true_eq, Bool.false_eq_true, if_false, if_true]
    split_ifs with h1 h2
    · simp [JSNum.InRange]
    · simp [JSNum.InRange]
    · exact ⟨not_lt.mp h1, not_lt.mp h2⟩

/-- At contrast 259 the contrast factor is `+Infinity`: the tone is decided by the sign of
the luminance minus 128, and is `NaN` when that difference is zero. -/
theorem toneSpec_contrast_259 (r g b brightness : α) (invert : Bool) (l : α)
    (hl : l = if invert then 255 - (0.299 * r + 0.587 * g + 0.114 * b)
      else 0.299 * r + 0.587 * g + 0.114 * b) :
    toneSpec r g b brightness 259 invert
      = if l = 128 then JSNum.nan else if 128 < l then JSNum.fin 255 else JSNum.fin 0 := by
  have hnum : (0 : α) < 259 * (259 + 255) := by norm_num
  have hdiv : (JSNum.fin (259 * (259 + 255)) / JSNum.fin (255 * (259 - 259)) : JSNum α)
      = JSNum.posInf := by
    show JSNum.div _ _ = _
    simp [JSNum.div, hnum]
  have hmul : ∀ v : α, (JSNum.posInf * JSNum.fin v : JSNum α) = JSNum.infTimes true v :=
    fun _ => rfl
  have key : ∀ l0 : α,
      (if JSNum.lt (JSNum.posInf * JSNum.fin (l0 - 128) + JSNum.fin 128
            + JSNum.fin brightness) (JSNum.fin 0) then JSNum.fin 0
        else if JSNum.lt (JSNum.fin 255) (JSNum.posInf * JSNum.fin (l0 - 128)
            + JSNum.fin 128 + JSNum.fin brightness) then JSNum.fin 255
        else JSNum.posInf * JSNum.fin (l0 - 128) + JSNum.fin 128 + JSNum.fin brightness)
      = if l0 = 128 then JSNum.nan else if 128 < l0 then JSNum.fin 255 else JSNum.fin 0 := by
    intro l0
    have a1 : ∀ v : α, (JSNum.posInf + JSNum.fin v : JSNum α) = JSNum.posInf := fun _ => rfl
    have a2 : ∀ v : α, (JSNum.negInf + JSNum.fin v : JSNum α) = JSNum.negInf := fun _ => rfl
    have a3 : ∀ v : α, (JSNum.nan + JSNum.fin v : JSNum α) = JSNum.nan := fun _ => rfl
    have l1 : ∀ v : α, JSNum.lt (JSNum.posInf : JSNum α) (JSNum.fin v) = false :=
      fun _ => rfl
    have l2 : ∀ v : α, JSNum.lt (JSNum.fin v) (JSNum.posInf : JSNum α) = true :=
      fun _ => rfl
    have l3 : ∀ v : α, JSNum.lt (JSNum.negInf : JSNum α) (JSNum.fin v) = true :=
      fun _ => rfl
    have l4 : ∀ v : α, JSNum.lt (JSNum.nan : JSNum α) (JSNum.fin v) = false :=
      fun _ => rfl
    have l5 : ∀ v : α, JSNum.lt (JSNum.fin v) (JSNum.nan : JSNum α) = false := by
      intro v; simp [JSNum.lt]
    simp only [hmul, JSNum.infTimes]
    by_cases h1 : l0 = 128
    · subst h1
      simp only [sub_self, if_true, a3, l4, l5, Bool.false_eq_true, if_false]
    · have h2 : l0 - 128 ≠ 0 := sub_ne_zero.mpr h1
      by_cases h3 : 128 < l0
      · have h4 : 0 < l0 - 128 := sub_pos.mpr h3
        simp only [h1, h2, h3, h4, if_false, if_true, decide_True, a1, l1, l2,
          Bool.false_eq_true]
      · have h4 : ¬ 0 < l0 - 128 := fun h => h3 (sub_pos.mp h)
        simp only [h1, h2, h3, h4, if_false, decide_False, Bool.false_eq_true, a2, l3,
          if_true]
  cases invert
  · simp only [Bool.false_eq_true, if_false] at hl
    subst hl
    simp only [toneSpec, hdiv, Bool.false_eq_true, if_false, JSNum.fin_sub_fin]
    exact key _
  · simp only [if_true] at hl
    subst hl
    simp only [toneSpec, hdiv, if_true, JSNum.fin_sub_fin]
    exact key _

/-- Claim C5, as amended.  For a pixel whose colour bytes are present and every
brightness and invert setting, the tone pushed into `gray` and `grayOriginal` is a
finite number in `[0, 255]` whenever the contrast is not 259; at contrast 259 the
contrast factor is infinite and the tone is 255 when the luminance (after inversion) is
above 128, 0 when it is below 128 and `NaN` when it is exactly 128. -/
theorem tone_in_range_unless_contrast_259 (data : List α) (brightness contrast : α)
    (invert : Bool) (i : Nat) (r g b : α) (hr : data[i]? = some r)
    (hg : data[i + 1]? = some g) (hb : data[i + 2]? = some b) :
    (contrast ≠ 259 →
        JSNum.InRange 0 255 (adjustedAt data brightness contrast invert i))
      ∧ (contrast = 259 →
          adjustedAt data brightness contrast invert i
            = if (if invert then 255 - (0.299 * r + 0.587 * g + 0.114 * b)
                  else 0.299 * r + 0.587 * g + 0.114 * b) = 128 then JSNum.nan
              else if 128 < (if invert then 255 - (0.299 * r + 0.587 * g + 0.114 * b)
                  else 0.299 * r + 0.587 * g + 0.114 * b) then JSNum.fin 255
              else JSNum.fin 0) := by
  rw [adjustedAt_eq_toneSpec data brightness contrast invert i r g b hr hg hb]
  refine ⟨toneSpec_of_contrast_ne r g b brightness contrast invert, ?_⟩
  intro hc
  subst hc
  exact toneSpec_contrast_259 r g b brightness invert _ rfl

/-- Witness for claim C5 (amended): the pixel `(10, 20, 30)` at contrast 50. -/
theorem tone_in_range_unless_contrast_259_witness :
    (((50 : ℚ) ≠ 259 →
        JSNum.InRange 0 255 (adjustedAt ([10, 20, 30, 255] : List ℚ) 0 50 false 0))
      ∧ ((50 : ℚ) = 259 →
          adjustedAt ([10, 20, 30, 255] : List ℚ) 0 50 false 0
            = if (if false = true then 255 - (0.299 * 10 + 0.587 * 20 + 0.114 * 30)
                  else 0.299 * 10 + 0.587 * 20 + 0.114 * (30 : ℚ)) = 128 then JSNum.nan
              else if 128 < (if false = true then 255 - (0.299 * 10 + 0.587 * 20 + 0.114 * 30)
                  else 0.299 * 10 + 0.587 * 20 + 0.114 * (30 : ℚ)) then JSNum.fin 255
              else JSNum.fin 0)) :=
  tone_in_range_unless_contrast_259 [10, 20, 30, 255] 0 50 false 0 10 20 30 rfl rfl rfl

/-- Counterexample to claim C5 as stated: the pixel `(1, 189, 147)` has luminance exactly
128, and at contrast 259 (brightness 0, invert off) its tone is `NaN`, which is not a
number of `[0, 255]`. -/
theorem tone_nan_at_contrast_259 :
    adjustedAt ([1, 189, 147, 255] : List ℚ) 0 259 false 0 = JSNum.nan
      ∧ ¬ JSNum.InRange 0 255 (adjustedAt ([1, 189, 147, 255] : List ℚ) 0 259 false 0) := by
  have h : adjustedAt ([1, 189, 147, 255] : List ℚ) 0 259 false 0 = JSNum.nan := by
    rw [adjustedAt_eq_toneSpec ([1, 189, 147, 255] : List ℚ) 0 259 false 0 1 189 147
      rfl rfl rfl, toneSpec_contrast_259 1 189 147 0 false 128 (by norm_num)]
    simp
  rw [h]
  exact ⟨rfl, fun hin => hin⟩

end ToneTheorems

section KernelTheorems

variable {α : Type} [LinearOrderedField α]

theorem foldl_add_eq_sum (l : List α) (init : α) :
    l.foldl (fun s v => s + v) init = init + l.sum := by
  induction l generalizing init with
  | nil => simp
  | cons a l ih => simp [ih, add_assoc]

theorem sum_map_range (f : Nat → α) (n : Nat) :
    ((List.range n).map f).sum = ∑ i in Finset.range n, f i := by
  induction n with
  | zero => simp
  | succ n ih => simp [List.range_succ, Finset.sum_range_succ, ih]

theorem foldl_range_add (f : Nat → α) (n : Nat) (init : α) :
    (List.range n).foldl (fun s k => s + f k) init = init + ∑ k in Finset.range n, f k := by
  induction n with
  | zero => simp
  | succ n ih => simp [List.range_succ, List.foldl_append, Finset.sum_range_succ, ih, add_assoc]

/-- For the odd size `2 * half + 1` the kernel is the table of the Gaussian weights
divided by their total. -/
theorem gaussianKernel2D_eq (exp : α → α) (sigma : α) (half : Nat) :
    gaussianKernel2D exp sigma (2 * half + 1)
      = (List.range (2 * half + 1)).map fun (i : Nat) =>
          (List.range (2 * half + 1)).map fun (j : Nat) =>
            exp (-(((j : α) - (half : α)) ^ 2 + ((i : α) - (half : α)) ^ 2) / (2 * sigma ^ 2))
            / ∑ y in Finset.range (2 * half + 1), ∑ x in Finset.range (2 * half + 1),
                exp (-(((x : α) - (half : α)) ^ 2 + ((y : α) - (half : α)) ^ 2)
                  / (2 * sigma ^ 2)) := by
  have hk : (2 * half + 1) / 2 = half := by omega
  have hw : ∀ x y : Nat,
      exp (-((((x : Int) - (half : Int) : Int) : α) * (((x : Int) - (half : Int) : Int) : α)
          + (((y : Int) - (half : Int) : Int) : α) * (((y : Int) - (half : Int) : Int) : α))
            / (2 * sigma * sigma))
        = exp (-(((x : α) - (half : α)) ^ 2 + ((y : α) - (half : α)) ^ 2)
            / (2 * sigma ^ 2)) := by
    intro x y
    congr 1
    simp only [Int.cast_sub, Int.cast_natCast]
    ring
  simp only [gaussianKernel2D, hk, offsets, List.map_map, Function.comp_def, hw]
  rw [foldl_add_eq_sum, List.sum_flatten, List.map_map, zero_add]
  simp only [Function.comp_def, sum_map_range]
  apply List.ext_getElem?
  intro i
  by_cases hi : i < 2 * half + 1
  · simp only [List.getElem?_mapIdx, List.getElem?_map, List.getElem?_range hi, Option.map_some']
    congr 1
    apply List.ext_getElem?
    intro j
    by_cases hj : j < 2 * half + 1
    · simp [List.getElem?_mapIdx, List.getElem?_map, List.getElem?_range hj, hi, hj]
    · have hj2 : (List.range (2 * half + 1))[j]? = none :=
        List.getElem?_eq_none (by simpa using not_lt.mp hj)
      simp [List.getElem?_mapIdx, hj2]
  · have hi2 : (List.range (2 * half + 1))[i]? = none :=
      List.getElem?_eq_none (by simpa using not_lt.mp hi)
    simp [List.getElem?_mapIdx, hi2]

/-- Claim C1.  For every `sigma > 0` and every odd `kernelSize`, the kernel returned
by `gaussianKernel2D` (with the real exponential) has `kernelSize` rows of `kernelSize`
cells, the cell in row `i` and column `j` is `exp(-(x^2 + y^2) / (2 sigma^2))` for the
offsets `x = j - half`, `y = i - half` from the centre, divided by the total of these
values over the whole kernel, and the cells sum to exactly 1. -/
theorem gaussianKernel2D_normalized (sigma : ℝ) (kernelSize : Nat) (hsigma : 0 < sigma)
    (hodd : kernelSize % 2 = 1) :
    (gaussianKernel2D Real.exp sigma kernelSize).length = kernelSize
      ∧ (∀ row ∈ gaussianKernel2D Real.exp sigma kernelSize, row.length = kernelSize)
      ∧ (∀ i j : Nat, i < kernelSize → j < kernelSize →
          ((gaussianKernel2D Real.exp sigma kernelSize)[i]?).bind (fun row => row[j]?)
            = some (Real.exp (-(((j : ℝ) - ((kernelSize / 2 : Nat) : ℝ)) ^ 2
                  + ((i : ℝ) - ((kernelSize / 2 : Nat) : ℝ)) ^ 2) / (2 * sigma ^ 2))
                / ∑ y in Finset.range kernelSize, ∑ x in Finset.range kernelSize,
                    Real.exp (-(((x : ℝ) - ((kernelSize / 2 : Nat) : ℝ)) ^ 2
                      + ((y : ℝ) - ((kernelSize / 2 : Nat) : ℝ)) ^ 2) / (2 * sigma ^ 2))))
      ∧ ((gaussianKernel2D Real.exp sigma kernelSize).map List.sum).sum = 1 := by
  have hsig : sigma ≠ 0 := ne_of_gt hsigma
  obtain ⟨half, rfl⟩ : ∃ half, kernelSize = 2 * half + 1 := ⟨kernelSize / 2, by omega⟩
  have hk : (2 * half + 1) / 2 = half := by omega
  rw [gaussianKernel2D_eq, hk]
  have hpos : 0 < ∑ y in Finset.range (2 * half + 1), ∑ x in Finset.range (2 * half + 1),
      Real.exp (-(((x : ℝ) - (half : ℝ)) ^ 2 + ((y : ℝ) - (half : ℝ)) ^ 2)
        / (2 * sigma ^ 2)) :=
    Finset.sum_pos (fun _ _ => Finset.sum_pos (fun _ _ => Real.exp_pos _) (by simp)) (by simp)
  refine ⟨by simp, ?_, ?_, ?_⟩
  · intro row hrow
    simp only [List.mem_map, List.mem_range] at hrow
    obtain ⟨i, _, rfl⟩ := hrow
    simp
  · intro i j hi hj
    simp [List.getElem?_map, List.getElem?_range hi, List.getElem?_range hj]
  · rw [List.map_map]
    simp only [Function.comp_def, sum_map_range]
    simp only [← Finset.sum_div]
    exact div_self (ne_of_gt hpos)

/-- Witness for claim C1: `sigma = 1` and `kernelSize = 3`. -/
theorem gaussianKernel2D_normalized_witness :
    (gaussianKernel2D Real.exp 1 3).length = 3
      ∧ (∀ row ∈ gaussianKernel2D Real.exp 1 3, row.length = 3)
      ∧ (∀ i j : Nat, i < 3 → j < 3 →
          ((gaussianKernel2D Real.exp 1 3)[i]?).bind (fun row => row[j]?)
            = some (Real.exp (-(((j : ℝ) - ((3 / 2 : Nat) : ℝ)) ^ 2
                  + ((i : ℝ) - ((3 / 2 : Nat) : ℝ)) ^ 2) / (2 * (1 : ℝ) ^ 2))
                / ∑ y in Finset.range 3, ∑ x in Finset.range 3,
                    Real.exp (-(((x : ℝ) - ((3 / 2 : Nat) : ℝ)) ^ 2
                      + ((y : ℝ) - ((3 / 2 : Nat) : ℝ)) ^ 2) / (2 * (1 : ℝ) ^ 2))))
      ∧ ((gaussianKernel2D Real.exp 1 3).map List.sum).sum = 1 :=
  gaussianKernel2D_normalized 1 3 (by norm_num) (by decide)

end KernelTheorems

section ConvolveTheorems

variable {α : Type} [LinearOrderedField α]

theorem cell_add2D (a b : List (List α)) (h w : Nat) (ha : IsGrid a h w) (hb : IsGrid b h w)
    (y x : Nat) (hy : y < h) (hx : x < w) :
    cell (add2D a b) y x = cell a y x + cell b y x := by
  obtain ⟨hal, har⟩ := ha
  obtain ⟨hbl, hbr⟩ := hb
  have hya : y < a.length := by omega
  have hyb : y < b.length := by omega
  have hxa : x < (a[y]).length := by rw [har _ (List.getElem_mem hya)]; exact hx
  have hxb : x < (b[y]).length := by rw [hbr _ (List.getElem_mem hyb)]; exact hx
  simp [cell, add2D, List.getD_eq_getElem?_getD, List.getElem?_zipWith,
    List.getElem?_eq_getElem hya, List.getElem?_eq_getElem hyb,
    List.getElem?_eq_getElem hxa, List.getElem?_eq_getElem hxb]

theorem isGrid_add2D (a b : List (List α)) (h w : Nat) (ha : IsGrid a h w)
    (hb : IsGrid b h w) : IsGrid (add2D a b) h w := by
  obtain ⟨hal, har⟩ := ha
  obtain ⟨hbl, hbr⟩ := hb
  refine ⟨by simp [add2D, hal, hbl], ?_⟩
  intro row hrow
  obtain ⟨i, hi, rfl⟩ := List.getElem_of_mem hrow
  have hi2 : i < a.length ∧ i < b.length := by simpa [add2D] using hi
  simp [add2D, har _ (List.getElem_mem hi2.1), hbr _ (List.getElem_mem hi2.2)]

/-- The value of `convolve2D` on a non-empty grid, with the two accumulation loops
written as sums. -/
theorem convolve2D_eq (img kernel : List (List α)) (h w : Nat) (himg : IsGrid img h w)
    (hh : 0 < h) :
    convolve2D img kernel = some ((List.range h).map fun (y : Nat) =>
      (List.range w).map fun (x : Nat) =>
        ∑ ky in Finset.range kernel.length, ∑ kx in Finset.range kernel.length,
          (if 0 ≤ (y : Int) + (ky : Int) - ((kernel.length / 2 : Nat) : Int)
              ∧ (y : Int) + (ky : Int) - ((kernel.length / 2 : Nat) : Int) < (h : Int)
              ∧ 0 ≤ (x : Int) + (kx : Int) - ((kernel.length / 2 : Nat) : Int)
              ∧ (x : Int) + (kx : Int) - ((kernel.length / 2 : Nat) : Int) < (w : Int)
            then cell img ((y : Int) + (ky : Int) - ((kernel.length / 2 : Nat) : Int)).toNat
              ((x : Int) + (kx : Int) - ((kernel.length / 2 : Nat) : Int)).toNat
            else 0) * cell kernel ky kx) := by
  obtain ⟨hl, hr⟩ := himg
  cases img with
  | nil => simp at hl; omega
  | cons row0 rest =>
    have hw0 : row0.length = w := hr row0 (List.mem_cons_self _ _)
    simp only [convolve2D, hl, hw0]
    congr 1
    apply List.map_congr_left
    intro y _
    apply List.map_congr_left
    intro x _
    simp only [foldl_range_add, zero_add]

theorem zipWith_map_range {β : Type} (f : β → β → β) (g k : Nat → β) (n : Nat) :
    List.zipWith f ((List.range n).map g) ((List.range n).map k)
      = (List.range n).map fun (i : Nat) => f (g i) (k i) := by
  apply List.ext_getElem?
  intro i
  by_cases hi : i < n
  · simp [List.getElem?_zipWith, List.getElem?_map, List.getElem?_range hi]
  · have hnone : (List.range n)[i]? = none :=
      List.getElem?_eq_none (by simpa using not_lt.mp hi)
    simp [List.getElem?_zipWith, List.getElem?_map, hnone]

theorem cell_map_range (f : Nat → Nat → α) (h w y x : Nat) (hy : y < h) (hx : x < w) :
    cell ((List.range h).map fun (y : Nat) => (List.range w).map fun (x : Nat) => f y x) y x
      = f y x := by
  simp [cell, List.getD_eq_getElem?_getD, List.getElem?_map, List.getElem?_range hy,
    List.getElem?_range hx]

theorem isGrid_map_range {β : Type} (f : Nat → Nat → β) (h w : Nat) :
    IsGrid ((List.range h).map fun (y : Nat) => (List.range w).map fun (x : Nat) => f y x)
      h w := by
  refine ⟨by simp, ?_⟩
  intro row hrow
  simp only [List.mem_map, List.mem_range] at hrow
  obtain ⟨i, _, rfl⟩ := hrow
  simp

/-- Claim C2.  For a non-empty rectangular field of `H` rows and `W` columns and a
square kernel of side `K` (with `half = K / 2` rounded down), `convolve2D` returns a
field of `H` rows of `W` cells whose cell `(y, x)` is the sum over `0 <= ky, kx < K` of
`kernel[ky][kx] * s`, where `s` is `img[y + ky - half][x + kx - half]` when that
position lies inside the field and `0` otherwise. -/
theorem convolve2D_zero_padded (img kernel : List (List α)) (H W K : Nat)
    (himg : IsGrid img H W) (hH : 0 < H) (hker : IsGrid kernel K K) :
    ∃ out, convolve2D img kernel = some out ∧ IsGrid out H W
      ∧ ∀ y x : Nat, y < H → x < W →
          cell out y x = ∑ ky in Finset.range K, ∑ kx in Finset.range K,
            cell kernel ky kx *
              (if 0 ≤ (y : Int) + (ky : Int) - ((K / 2 : Nat) : Int)
                  ∧ (y : Int) + (ky : Int) - ((K / 2 : Nat) : Int) < (H : Int)
                  ∧ 0 ≤ (x : Int) + (kx : Int) - ((K / 2 : Nat) : Int)
                  ∧ (x : Int) + (kx : Int) - ((K / 2 : Nat) : Int) < (W : Int)
                then cell img ((y : Int) + (ky : Int) - ((K / 2 : Nat) : Int)).toNat
                  ((x : Int) + (kx : Int) - ((K / 2 : Nat) : Int)).toNat
                else 0) := by
  have hK : kernel.length = K := hker.1
  refine ⟨_, convolve2D_eq img kernel H W himg hH, isGrid_map_range _ H W, ?_⟩
  intro y x hy hx
  rw [cell_map_range _ H W y x hy hx, hK]
  apply Finset.sum_congr rfl
  intro ky _
  apply Finset.sum_congr rfl
  intro kx _
  exact mul_comm _ _

/-- Witness for claim C2: a 2 x 2 field and the 1 x 1 kernel `[[1]]`. -/
theorem convolve2D_zero_padded_witness :
    ∃ out, convolve2D ([[1, 2], [3, 4]] : List (List ℚ)) [[1]] = some out ∧ IsGrid out 2 2
      ∧ ∀ y x : Nat, y < 2 → x < 2 →
          cell out y x = ∑ ky in Finset.range 1, ∑ kx in Finset.range 1,
            cell ([[1]] : List (List ℚ)) ky kx *
              (if 0 ≤ (y : Int) + (ky : Int) - ((1 / 2 : Nat) : Int)
                  ∧ (y : Int) + (ky : Int) - ((1 / 2 : Nat) : Int) < ((2 : Nat) : Int)
                  ∧ 0 ≤ (x : Int) + (kx : Int) - ((1 / 2 : Nat) : Int)
                  ∧ (x : Int) + (kx : Int) - ((1 / 2 : Nat) : Int) < ((2 : Nat) : Int)
                then cell ([[1, 2], [3, 4]] : List (List ℚ))
                  ((y : Int) + (ky : Int) - ((1 / 2 : Nat) : Int)).toNat
                  ((x : Int) + (kx : Int) - ((1 / 2 : Nat) : Int)).toNat
                else 0) :=
  convolve2D_zero_padded [[1, 2], [3, 4]] [[1]] 2 2 1 (by simp [IsGrid]) (by decide)
    (by simp [IsGrid])

/-- Claim C3.  `convolve2D` is linear in the field: for a square kernel and two fields
of the same non-empty rectangular dimensions, the convolution of the pointwise sum
`a + b` is, cell by cell, the sum of the convolutions of `a` and of `b`. -/
theorem convolve2D_add (a b kernel : List (List α)) (H W K : Nat) (ha : IsGrid a H W)
    (hb : IsGrid b H W) (hH : 0 < H) (_hker : IsGrid kernel K K) :
    ∃ oa ob, convolve2D a kernel = some oa ∧ convolve2D b kernel = some ob
      ∧ IsGrid oa H W ∧ IsGrid ob H W
      ∧ convolve2D (add2D a b) kernel = some (add2D oa ob) := by
  refine ⟨_, _, convolve2D_eq a kernel H W ha hH, convolve2D_eq b kernel H W hb hH,
    isGrid_map_range _ H W, isGrid_map_range _ H W, ?_⟩
  rw [convolve2D_eq (add2D a b) kernel H W (isGrid_add2D a b H W ha hb) hH]
  congr 1
  conv_rhs => rw [add2D, zipWith_map_range]
  apply List.map_congr_left
  intro y hy
  rw [zipWith_map_range]
  apply List.map_congr_left
  intro x hx
  rw [← Finset.sum_add_distrib]
  apply Finset.sum_congr rfl
  intro ky _
  rw [← Finset.sum_add_distrib]
  apply Finset.sum_congr rfl
  intro kx _
  rw [← add_mul]
  congr 1
  split_ifs with hin
  · obtain ⟨h1, h2, h3, h4⟩ := hin
    exact cell_add2D a b H W ha hb _ _ (by omega) (by omega)
  · simp

/-- Witness for claim C3: two 1 x 2 fields and the 1 x 1 kernel `[[2]]`. -/
theorem convolve2D_add_witness :
    ∃ oa ob, convolve2D ([[1, 2]] : List (List ℚ)) [[2]] = some oa
      ∧ convolve2D ([[10, 20]] : List (List ℚ)) [[2]] = some ob
      ∧ IsGrid oa 1 2 ∧ IsGrid ob 1 2
      ∧ convolve2D (add2D ([[1, 2]] : List (List ℚ)) [[10, 20]]) [[2]]
          = some (add2D oa ob) :=
  convolve2D_add [[1, 2]] [[10, 20]] [[2]] 1 2 1 (by simp [IsGrid]) (by simp [IsGrid])
    (by decide) (by simp [IsGrid])

end ConvolveTheorems

section LoopTheorems

/-- Reading a state after a loop of point updates.  Each step `F s i` changes the
value read at `pos i` to `val i` and nothing else. -/
theorem foldl_point_updates {σ ι κ β : Type} (Inv : σ → Prop) (read : σ → κ → β)
    (F : σ → ι → σ) (pos : ι → κ) (val : ι → β) (l : List ι)
    (hInv : ∀ s, ∀ i ∈ l, Inv s → Inv (F s i))
    (hsame : ∀ s, ∀ i ∈ l, Inv s → read (F s i) (pos i) = val i)
    (hother : ∀ s, ∀ i ∈ l, ∀ k, Inv s → k ≠ pos i → read (F s i) k = read s k)
    (init : σ) (h0 : Inv init) :
    Inv (l.foldl F init)
      ∧ (∀ k, (∀ i ∈ l, pos i ≠ k) → read (l.foldl F init) k = read init k)
      ∧ (∀ i ∈ l, (∀ j ∈ l, pos j = pos i → val j = val i) →
          read (l.foldl F init) (pos i) = val i) := by
  induction l generalizing init with
  | nil => exact ⟨h0, fun _ _ => rfl, fun i hi => by simp at hi⟩
  | cons a l ih =>
    have ha : Inv (F init a) := hInv init a (List.mem_cons_self _ _) h0
    obtain ⟨i1, i2, i3⟩ := ih (fun s i hi => hInv s i (List.mem_cons_of_mem _ hi))
      (fun s i hi => hsame s i (List.mem_cons_of_mem _ hi))
      (fun s i hi => hother s i (List.mem_cons_of_mem _ hi)) (F init a) ha
    refine ⟨i1, ?_, ?_⟩
    · intro k hk
      rw [List.foldl_cons, i2 k (fun i hi => hk i (List.mem_cons_of_mem _ hi))]
      exact hother init a (List.mem_cons_self _ _) k h0
        (fun h => hk a (List.mem_cons_self _ _) h.symm)
    · intro i hi hval
      rw [List.foldl_cons]
      by_cases hex : ∃ j ∈ l, pos j = pos i
      · obtain ⟨j, hj, hji⟩ := hex
        have hvj : val j = val i := hval j (List.mem_cons_of_mem _ hj) hji
        have := i3 j hj (fun j2 hj2 h2 => by
          rw [hvj]
          exact hval j2 (List.mem_cons_of_mem _ hj2) (h2.trans hji))
        rw [← hji, this, hvj]
      · have hno : ∀ j ∈ l, pos j ≠ pos i := fun j hj h => hex ⟨j, hj, h⟩
        rw [i2 (pos i) hno]
        rcases List.mem_cons.mp hi with rfl | hil
        · exact hsame init i (List.mem_cons_self _ _) h0
        · exact absurd rfl (hno i hil)

/-- A loop nested in a loop is a single loop over the pairs of indices. -/
theorem foldl_nested {σ : Type} (F : σ → Nat → Nat → σ) (ys xs : List Nat) (init : σ) :
    ys.foldl (fun (s : σ) (y : Nat) => xs.foldl (fun (s : σ) (x : Nat) => F s y x) s) init
      = (ys.flatMap fun (y : Nat) => xs.map fun (x : Nat) => (y, x)).foldl
          (fun (s : σ) (p : Nat × Nat) => F s p.1 p.2) init := by
  induction ys generalizing init with
  | nil => rfl
  | cons y ys ih =>
    rw [List.foldl_cons, ih, List.flatMap_cons, List.foldl_append, List.foldl_map]

theorem mem_interior_pairs (w h y x : Nat) :
    (y, x) ∈ ((List.range' 1 (h - 2)).flatMap fun (y : Nat) =>
        (List.range' 1 (w - 2)).map fun (x : Nat) => (y, x))
      ↔ (1 ≤ y ∧ y + 1 < h) ∧ (1 ≤ x ∧ x + 1 < w) := by
  simp only [List.mem_flatMap, List.mem_map, List.mem_range'_1, Prod.mk.injEq]
  constructor
  · rintro ⟨y0, hy0, x0, hx0, rfl, rfl⟩
    omega
  · rintro ⟨hy, hx⟩
    exact ⟨y, by omega, x, by omega, rfl, rfl⟩

theorem rowMajor_inj {w y x y' x' : Nat} (hx : x < w) (hx' : x' < w)
    (h : y * w + x = y' * w + x') : y = y' ∧ x = x' := by
  have hw : 0 < w := by omega
  have e1 : (y * w + x) / w = y := by
    rw [Nat.add_comm, Nat.add_mul_div_right _ _ hw, Nat.div_eq_of_lt hx, Nat.zero_add]
  have e2 : (y' * w + x') / w = y' := by
    rw [Nat.add_comm, Nat.add_mul_div_right _ _ hw, Nat.div_eq_of_lt hx', Nat.zero_add]
  have hy : y = y' := by rw [← e1, ← e2, h]
  subst hy
  exact ⟨rfl, by omega⟩

theorem rowMajor_lt {w h y x : Nat} (hy : y < h) (hx : x < w) : y * w + x < w * h := by
  calc y * w + x < y * w + w := by omega
    _ = (y + 1) * w := by ring
    _ ≤ h * w := Nat.mul_le_mul_right w hy
    _ = w * h := Nat.mul_comm h w

end LoopTheorems

section EdgeTheorems

variable {α : Type} [LinearOrderedField α]

/-- The cells of the result of `applyEdgeDetection`, one by one. -/
theorem applyEdgeDetection_cells (sqrt : α → α) (gray : List α) (width height : Nat)
    (threshold : α) :
    (applyEdgeDetection sqrt gray width height threshold).length = width * height
      ∧ ∀ y x : Nat, y < height → x < width →
          (applyEdgeDetection sqrt gray width height threshold)[y * width + x]?
            = some (if (1 ≤ y ∧ y + 1 < height) ∧ (1 ≤ x ∧ x + 1 < width) then
                (if sqrt (neighbourhoodSum kernelX gray width y x ^ 2
                      + neighbourhoodSum kernelY gray width y x ^ 2) / 1442 * 255
                    > threshold then 0 else 255)
              else 255) := by
  have hG : ∀ y x : Nat, 1 ≤ y → 1 ≤ x →
      ((-1 * gray.getD ((y - 1) * width + (x - 1)) 0) + (0 * gray.getD ((y - 1) * width + x) 0)
        + (1 * gray.getD ((y - 1) * width + (x + 1)) 0)
        + (-2 * gray.getD (y * width + (x - 1)) 0) + (0 * gray.getD (y * width + x) 0)
        + (2 * gray.getD (y * width + (x + 1)) 0)
        + (-1 * gray.getD ((y + 1) * width + (x - 1)) 0)
        + (0 * gray.getD ((y + 1) * width + x) 0)
        + (1 * gray.getD ((y + 1) * width + (x + 1)) 0)
          = neighbourhoodSum kernelX gray width y x)
      ∧ ((-1 * gray.getD ((y - 1) * width + (x - 1)) 0)
        + (-2 * gray.getD ((y - 1) * width + x) 0)
        + (-1 * gray.getD ((y - 1) * width + (x + 1)) 0)
        + (0 * gray.getD (y * width + (x - 1)) 0) + (0 * gray.getD (y * width + x) 0)
        + (0 * gray.getD (y * width + (x + 1)) 0)
        + (1 * gray.getD ((y + 1) * width + (x - 1)) 0)
        + (2 * gray.getD ((y + 1) * width + x) 0)
        + (1 * gray.getD ((y + 1) * width + (x + 1)) 0)
          = neighbourhoodSum kernelY gray width y x) := by
    intro y x hy hx
    have e1 : y + 0 - 1 = y - 1 := rfl
    have e2 : y + 1 - 1 = y := by omega
    have e3 : y + 2 - 1 = y + 1 := by omega
    have e4 : x + 0 - 1 = x - 1 := rfl
    have e5 : x + 1 - 1 = x := by omega
    have e6 : x + 2 - 1 = x + 1 := by omega
    simp only [neighbourhoodSum, Finset.sum_range_succ, Finset.sum_range_zero, cell, kernelX,
      kernelY, e1, e2, e3, e4, e5, e6]
    constructor <;> simp <;> ring
  set val : Nat × Nat → Option α := fun p =>
    some (if sqrt (neighbourhoodSum kernelX gray width p.1 p.2 ^ 2
        + neighbourhoodSum kernelY gray width p.1 p.2 ^ 2) / 1442 * 255 > threshold
      then 0 else 255) with hval
  set l : List (Nat × Nat) := (List.range' 1 (height - 2)).flatMap fun (y : Nat) =>
    (List.range' 1 (width - 2)).map fun (x : Nat) => (y, x) with hl
  have hloop : applyEdgeDetection sqrt gray width height threshold
      = l.foldl (fun (s : List α) (p : Nat × Nat) =>
          s.set (p.1 * width + p.2) (if sqrt (neighbourhoodSum kernelX gray width p.1 p.2 ^ 2
            + neighbourhoodSum kernelY gray width p.1 p.2 ^ 2) / 1442 * 255 > threshold
          then 0 else 255)) (List.replicate (width * height) 255) := by
    rw [applyEdgeDetection, foldl_nested]
    apply List.foldl_ext
    intro s p hp
    obtain ⟨y, x⟩ := p
    obtain ⟨hy, hx⟩ := (mem_interior_pairs width height y x).mp hp
    simp only [(hG y x hy.1 hx.1).1, (hG y x hy.1 hx.1).2, ← pow_two]
  obtain ⟨h1, h2, h3⟩ := foldl_point_updates (fun (s : List α) => s.length = width * height)
    (fun (s : List α) (k : Nat) => s[k]?)
    (fun (s : List α) (p : Nat × Nat) =>
      s.set (p.1 * width + p.2) (if sqrt (neighbourhoodSum kernelX gray width p.1 p.2 ^ 2
        + neighbourhoodSum kernelY gray width p.1 p.2 ^ 2) / 1442 * 255 > threshold
      then 0 else 255))
    (fun p => p.1 * width + p.2) val l
    (fun s i _ hs => by simpa using hs)
    (fun s i hi hs => by
      obtain ⟨y, x⟩ := i
      obtain ⟨hy, hx⟩ := (mem_interior_pairs width height y x).mp hi
      have hlt : y * width + x < s.length := by
        rw [hs]; exact rowMajor_lt (by omega) (by omega)
      simp [hval, List.getElem?_set_self hlt])
    (fun s i _ k _ hk => by
      simp only
      rw [List.getElem?_set_ne (fun h => hk h.symm)])
    (List.replicate (width * height) 255) (by simp)
  rw [hloop]
  refine ⟨h1, ?_⟩
  intro y x hy hx
  by_cases hin : (1 ≤ y ∧ y + 1 < height) ∧ (1 ≤ x ∧ x + 1 < width)
  · rw [if_pos hin]
    have hmem : (y, x) ∈ l := (mem_interior_pairs width height y x).mpr hin
    refine h3 (y, x) hmem ?_
    intro j hj hpos
    obtain ⟨y', x'⟩ := j
    obtain ⟨_, hx'⟩ := (mem_interior_pairs width height y' x').mp hj
    obtain ⟨rfl, rfl⟩ := rowMajor_inj (by omega) hx hpos
    rfl
  · rw [if_neg hin]
    have := h2 (y * width + x) (fun i hi hpos => by
      obtain ⟨y', x'⟩ := i
      have hm := (mem_interior_pairs width height y' x').mp hi
      obtain ⟨rfl, rfl⟩ := rowMajor_inj (by omega) hx hpos
      exact hin hm)
    simp only at this
    rw [this]
    simp [List.getElem?_replicate, rowMajor_lt hy hx]

end EdgeTheorems

section EdgeClaims

variable {α : Type} [LinearOrderedField α]

theorem rowMajor_decomp {w h k : Nat} (hk : k < w * h) :
    ∃ y x : Nat, y < h ∧ x < w ∧ k = y * w + x := by
  have hw : 0 < w := by
    rcases Nat.eq_zero_or_pos w with h0 | h0
    · subst h0; simp at hk
    · exact h0
  refine ⟨k / w, k % w, ?_, Nat.mod_lt _ hw, ?_⟩
  · exact Nat.div_lt_of_lt_mul hk
  · rw [Nat.mul_comm]; exact (Nat.div_add_mod k w).symm

/-- Claim C8.  For a buffer of `width * height` cells, `applyEdgeDetection` returns
`width * height` cells; a cell on the one-pixel border is 255, an interior cell is 0
when `sqrt(Gx^2 + Gy^2) / 1442 * 255 > threshold` and 255 otherwise, `Gx` and `Gy`
being the 3 x 3 Sobel sums over the cell's neighbourhood; no value other than 0 and 255
appears in the result. -/
theorem applyEdgeDetection_binary (sqrt : α → α) (gray : List α) (width height : Nat)
    (threshold : α) (_hlen : gray.length = width * height) :
    (applyEdgeDetection sqrt gray width height threshold).length = width * height
      ∧ (∀ y x : Nat, y < height → x < width →
          (applyEdgeDetection sqrt gray width height threshold)[y * width + x]?
            = some (if (1 ≤ y ∧ y + 1 < height) ∧ (1 ≤ x ∧ x + 1 < width) then
                (if sqrt (neighbourhoodSum kernelX gray width y x ^ 2
                      + neighbourhoodSum kernelY gray width y x ^ 2) / 1442 * 255
                    > threshold then 0 else 255)
              else 255))
      ∧ ∀ v ∈ applyEdgeDetection sqrt gray width height threshold, v = 0 ∨ v = 255 := by
  obtain ⟨h1, h2⟩ := applyEdgeDetection_cells sqrt gray width height threshold
  refine ⟨h1, h2, ?_⟩
  intro v hv
  obtain ⟨k, hk, rfl⟩ := List.getElem_of_mem hv
  obtain ⟨y, x, hy, hx, rfl⟩ := rowMajor_decomp (h1 ▸ hk)
  have h := h2 y x hy hx
  rw [List.getElem?_eq_getElem hk] at h
  have h' := Option.some.inj h
  rw [h']
  split_ifs <;> simp

/-- Witness for claim C8: a 3 x 3 buffer with one bright corner, `sqrt` read as the
identity. -/
theorem applyEdgeDetection_binary_witness :
    (applyEdgeDetection (fun (v : ℚ) => v) [0, 0, 0, 0, 0, 0, 0, 0, 9] 3 3 0).length = 3 * 3
      ∧ (∀ y x : Nat, y < 3 → x < 3 →
          (applyEdgeDetection (fun (v : ℚ) => v) [0, 0, 0, 0, 0, 0, 0, 0, 9] 3 3 0)[y * 3 + x]?
            = some (if (1 ≤ y ∧ y + 1 < 3) ∧ (1 ≤ x ∧ x + 1 < 3) then
                (if (fun (v : ℚ) => v)
                      (neighbourhoodSum kernelX [0, 0, 0, 0, 0, 0, 0, 0, 9] 3 y x ^ 2
                      + neighbourhoodSum kernelY [0, 0, 0, 0, 0, 0, 0, 0, 9] 3 y x ^ 2)
                      / 1442 * 255 > 0 then 0 else 255)
              else 255))
      ∧ ∀ v ∈ applyEdgeDetection (fun (v : ℚ) => v) [0, 0, 0, 0, 0, 0, 0, 0, 9] 3 3 0,
          v = 0 ∨ v = 255 :=
  applyEdgeDetection_binary (fun (v : ℚ) => v) [0, 0, 0, 0, 0, 0, 0, 0, 9] 3 3 0 (by decide)

theorem neighbourhoodSum_uniform (weights : List (List α)) (v : α) (width height y x : Nat)
    (hy : 1 ≤ y ∧ y + 1 < height) (hx : 1 ≤ x ∧ x + 1 < width) :
    neighbourhoodSum weights (List.replicate (width * height) v) width y x
      = (∑ ky in Finset.range 3, ∑ kx in Finset.range 3, cell weights ky kx) * v := by
  rw [neighbourhoodSum, Finset.sum_mul]
  apply Finset.sum_congr rfl
  intro ky hky
  rw [Finset.sum_mul]
  apply Finset.sum_congr rfl
  intro kx hkx
  have hky2 : ky < 3 := Finset.mem_range.mp hky
  have hkx2 : kx < 3 := Finset.mem_range.mp hkx
  have hlt : (y + ky - 1) * width + (x + kx - 1) < width * height :=
    rowMajor_lt (by omega) (by omega)
  simp [List.getD_eq_getElem?_getD, List.getElem?_replicate, hlt]

/-- Claim C9.  For every width, height, value `v` and threshold `>= 0`,
`applyEdgeDetection` (with the real square root) maps the uniform buffer of value `v`
to the buffer in which every cell, interior or border, is 255: `Gx` and `Gy` vanish at
every interior cell. -/
theorem applyEdgeDetection_uniform (width height : Nat) (v threshold : ℝ)
    (hthr : 0 ≤ threshold) :
    applyEdgeDetection Real.sqrt (List.replicate (width * height) v) width height threshold
        = List.replicate (width * height) 255
      ∧ ∀ y x : Nat, (1 ≤ y ∧ y + 1 < height) → (1 ≤ x ∧ x + 1 < width) →
          neighbourhoodSum kernelX (List.replicate (width * height) v) width y x = 0
            ∧ neighbourhoodSum kernelY (List.replicate (width * height) v) width y x = 0 := by
  have hzero : ∀ y x : Nat, (1 ≤ y ∧ y + 1 < height) → (1 ≤ x ∧ x + 1 < width) →
      neighbourhoodSum kernelX (List.replicate (width * height) v) width y x = 0
        ∧ neighbourhoodSum kernelY (List.replicate (width * height) v) width y x = 0 := by
    intro y x hy hx
    rw [neighbourhoodSum_uniform kernelX v width height y x hy hx,
      neighbourhoodSum_uniform kernelY v width height y x hy hx]
    constructor <;>
    · simp only [Finset.sum_range_succ, Finset.sum_range_zero, cell, kernelX, kernelY]
      norm_num
  refine ⟨?_, hzero⟩
  obtain ⟨h1, h2⟩ := applyEdgeDetection_cells Real.sqrt (List.replicate (width * height) v)
    width height threshold
  apply List.ext_getElem?
  intro k
  by_cases hk : k < width * height
  · obtain ⟨y, x, hy, hx, rfl⟩ := rowMajor_decomp hk
    rw [h2 y x hy hx, List.getElem?_replicate, if_pos hk]
    congr 1
    split_ifs with hin hgt
    · exfalso
      rw [(hzero y x hin.1 hin.2).1, (hzero y x hin.1 hin.2).2] at hgt
      norm_num at hgt
      linarith
    · rfl
    · rfl
  · have hk2 : width * height ≤ k := not_lt.mp hk
    rw [List.getElem?_eq_none (by omega), List.getElem?_eq_none (by simpa using hk2)]

/-- Witness for claim C9: the 3 x 3 buffer of value 7 with threshold 0. -/
theorem applyEdgeDetection_uniform_witness :
    applyEdgeDetection Real.sqrt (List.replicate (3 * 3) 7) 3 3 0
        = List.replicate (3 * 3) 255
      ∧ ∀ y x : Nat, (1 ≤ y ∧ y + 1 < 3) → (1 ≤ x ∧ x + 1 < 3) →
          neighbourhoodSum kernelX (List.replicate (3 * 3) (7 : ℝ)) 3 y x = 0
            ∧ neighbourhoodSum kernelY (List.replicate (3 * 3) (7 : ℝ)) 3 y x = 0 :=
  applyEdgeDetection_uniform 3 3 7 0 (le_refl 0)

end EdgeClaims

section GridTheorems

variable {α : Type} [LinearOrderedField α]

theorem isGrid_setCell (m : List (List α)) (h w y x : Nat) (v : α) (hm : IsGrid m h w) :
    IsGrid (setCell m y x v) h w := by
  by_cases hy : y < m.length
  · obtain ⟨hl, hr⟩ := hm
    refine ⟨by simp [setCell, hl], ?_⟩
    intro row hrow
    rcases List.mem_or_eq_of_mem_set hrow with hmem | rfl
    · exact hr row hmem
    · rw [List.length_set]
      simp only [List.getD_eq_getElem?_getD, List.getElem?_eq_getElem hy, Option.getD_some]
      exact hr _ (List.getElem_mem hy)
  · rw [setCell, List.set_eq_of_length_le (not_lt.mp hy)]
    exact hm

theorem cell_setCell_self (m : List (List α)) (h w y x : Nat) (v : α) (hm : IsGrid m h w)
    (hy : y < h) (hx : x < w) : cell (setCell m y x v) y x = v := by
  obtain ⟨hl, hr⟩ := hm
  have hy2 : y < m.length := by omega
  have hx2 : x < (m[y]).length := by rw [hr _ (List.getElem_mem hy2)]; exact hx
  simp [cell, setCell, List.getD_eq_getElem?_getD, List.getElem?_set_self hy2,
    List.getElem?_eq_getElem hy2, List.getElem?_set_self hx2]

theorem cell_setCell_ne (m : List (List α)) (y x y' x' : Nat) (v : α)
    (hne : (y', x') ≠ (y, x)) : cell (setCell m y x v) y' x' = cell m y' x' := by
  by_cases hy : y' = y
  · subst hy
    have hx : x ≠ x' := fun h => hne (by rw [h])
    by_cases hy2 : y' < m.length
    · simp [cell, setCell, List.getD_eq_getElem?_getD, List.getElem?_set_self hy2,
        List.getElem?_eq_getElem hy2, List.getElem?_set_ne hx]
    · rw [setCell, List.set_eq_of_length_le (not_lt.mp hy2)]
  · simp [cell, setCell, List.getD_eq_getElem?_getD, List.getElem?_set_ne (Ne.symm hy)]

theorem isGrid_zeros2D (w h : Nat) : IsGrid (zeros2D w h : List (List α)) h w := by
  refine ⟨by simp [zeros2D], ?_⟩
  intro row hrow
  rw [zeros2D, List.mem_replicate] at hrow
  rw [hrow.2, List.length_replicate]

theorem cell_zeros2D (w h y x : Nat) : cell (zeros2D w h : List (List α)) y x = 0 := by
  simp only [cell, zeros2D, List.getD_eq_getElem?_getD, List.getElem?_replicate]
  by_cases hy : y < h
  · by_cases hx : x < w
    · simp [hy, hx]
    · simp [hy, hx]
  · simp [hy]

/-- The cells of the two grids returned by `applySobel2D`, one by one. -/
theorem applySobel2D_cells (sqrt : α → α) (atan2 : α → α → α) (pi : α)
    (img : List (List α)) (width height : Nat) :
    IsGrid (applySobel2D sqrt atan2 pi img width height).1 height width
      ∧ IsGrid (applySobel2D sqrt atan2 pi img width height).2 height width
      ∧ ∀ y x : Nat, y < height → x < width →
          cell (applySobel2D sqrt atan2 pi img width height).1 y x
              = (if (1 ≤ y ∧ y + 1 < height) ∧ (1 ≤ x ∧ x + 1 < width) then
                  sqrt ((sobelSums img y x).1 * (sobelSums img y x).1
                    + (sobelSums img y x).2 * (sobelSums img y x).2)
                else 0)
            ∧ cell (applySobel2D sqrt atan2 pi img width height).2 y x
              = (if (1 ≤ y ∧ y + 1 < height) ∧ (1 ≤ x ∧ x + 1 < width) then
                  foldedAngle atan2 pi (sobelSums img y x).1 (sobelSums img y x).2
                else 0) := by
  set l : List (Nat × Nat) := (List.range' 1 (height - 2)).flatMap fun (y : Nat) =>
    (List.range' 1 (width - 2)).map fun (x : Nat) => (y, x) with hl
  set F : List (List α) × List (List α) → Nat × Nat → List (List α) × List (List α) :=
    fun st p => (setCell st.1 p.1 p.2 (sqrt ((sobelSums img p.1 p.2).1 * (sobelSums img p.1 p.2).1
        + (sobelSums img p.1 p.2).2 * (sobelSums img p.1 p.2).2)),
      setCell st.2 p.1 p.2
        (foldedAngle atan2 pi (sobelSums img p.1 p.2).1 (sobelSums img p.1 p.2).2)) with hF
  have hloop : applySobel2D sqrt atan2 pi img width height
      = l.foldl F (zeros2D width height, zeros2D width height) := by
    rw [applySobel2D, foldl_nested]
    rfl
  obtain ⟨h1, h2, h3⟩ := foldl_point_updates
    (fun (s : List (List α) × List (List α)) => IsGrid s.1 height width ∧ IsGrid s.2 height width)
    (fun (s : List (List α) × List (List α)) (k : Nat × Nat) =>
      (cell s.1 k.1 k.2, cell s.2 k.1 k.2))
    F (fun p => p)
    (fun p => (sqrt ((sobelSums img p.1 p.2).1 * (sobelSums img p.1 p.2).1
        + (sobelSums img p.1 p.2).2 * (sobelSums img p.1 p.2).2),
      foldedAngle atan2 pi (sobelSums img p.1 p.2).1 (sobelSums img p.1 p.2).2)) l
    (fun s i _ hs => ⟨isGrid_setCell _ _ _ _ _ _ hs.1, isGrid_setCell _ _ _ _ _ _ hs.2⟩)
    (fun s i hi hs => by
      obtain ⟨y, x⟩ := i
      obtain ⟨hy, hx⟩ := (mem_interior_pairs width height y x).mp hi
      simp only [hF]
      rw [cell_setCell_self _ height width y x _ hs.1 (by omega) (by omega),
        cell_setCell_self _ height width y x _ hs.2 (by omega) (by omega)])
    (fun s i _ k _ hk => by
      simp only [hF]
      rw [cell_setCell_ne _ _ _ _ _ _ hk, cell_setCell_ne _ _ _ _ _ _ hk])
    (zeros2D width height, zeros2D width height)
    ⟨isGrid_zeros2D width height, isGrid_zeros2D width height⟩
  rw [hloop]
  refine ⟨h1.1, h1.2, ?_⟩
  intro y x hy hx
  by_cases hin : (1 ≤ y ∧ y + 1 < height) ∧ (1 ≤ x ∧ x + 1 < width)
  · rw [if_pos hin, if_pos hin]
    have := h3 (y, x) ((mem_interior_pairs width height y x).mpr hin) (fun j _ hj => by rw [hj])
    exact ⟨congrArg Prod.fst this, congrArg Prod.snd this⟩
  · rw [if_neg hin, if_neg hin]
    have := h2 (y, x) (fun i hi hpos => by
      obtain ⟨y', x'⟩ := i
      have hm := (mem_interior_pairs width height y' x').mp hi
      simp only [Prod.mk.injEq] at hpos
      obtain ⟨rfl, rfl⟩ := hpos
      exact hin hm)
    simp only [cell_zeros2D] at this
    exact ⟨congrArg Prod.fst this, congrArg Prod.snd this⟩

end GridTheorems

section AngleTheorems

theorem foldedAngle_real_range (Gx Gy : ℝ) :
    0 ≤ foldedAngle (fun (y x : ℝ) => Complex.arg ⟨x, y⟩) Real.pi Gx Gy
      ∧ foldedAngle (fun (y x : ℝ) => Complex.arg ⟨x, y⟩) Real.pi Gx Gy ≤ 180
      ∧ (foldedAngle (fun (y x : ℝ) => Complex.arg ⟨x, y⟩) Real.pi Gx Gy = 180
          ↔ Gy = 0 ∧ Gx < 0) := by
  have hpi : 0 < Real.pi := Real.pi_pos
  have hk : 0 < 180 / Real.pi := div_pos (by norm_num) hpi
  have hlo : -Real.pi < Complex.arg ⟨Gx, Gy⟩ := Complex.neg_pi_lt_arg _
  have hhi : Complex.arg ⟨Gx, Gy⟩ ≤ Real.pi := Complex.arg_le_pi _
  have e180 : Real.pi * (180 / Real.pi) = 180 := by field_simp
  have hlo2 : -180 < Complex.arg ⟨Gx, Gy⟩ * (180 / Real.pi) := by
    have := mul_lt_mul_of_pos_right hlo hk
    rw [neg_mul, e180] at this
    exact this
  have hhi2 : Complex.arg ⟨Gx, Gy⟩ * (180 / Real.pi) ≤ 180 := by
    have := mul_le_mul_of_nonneg_right hhi hk.le
    rw [e180] at this
    exact this
  have hiff : Complex.arg ⟨Gx, Gy⟩ * (180 / Real.pi) = 180 ↔ Gy = 0 ∧ Gx < 0 := by
    constructor
    · intro h
      have harg : Complex.arg ⟨Gx, Gy⟩ = Real.pi := by
        have h2 : Complex.arg ⟨Gx, Gy⟩ * (180 / Real.pi) = Real.pi * (180 / Real.pi) := by
          rw [h, e180]
        exact mul_right_cancel₀ (ne_of_gt hk) h2
      have := Complex.arg_eq_pi_iff.mp harg
      exact ⟨this.2, this.1⟩
    · rintro ⟨hy, hx⟩
      have harg : Complex.arg ⟨Gx, Gy⟩ = Real.pi := Complex.arg_eq_pi_iff.mpr ⟨hx, hy⟩
      rw [harg, e180]
  simp only [foldedAngle]
  split_ifs with hneg
  · refine ⟨by linarith, by linarith, ?_⟩
    constructor
    · intro h
      exfalso
      linarith
    · intro h
      exfalso
      have := hiff.mpr h
      linarith
  · exact ⟨not_lt.mp hneg, hhi2, hiff⟩

/-- Claim C10, as amended.  For an image of `height` rows of `width` cells and every
cell, the angle returned by `applySobel2D` (with the real `atan2` and `pi`) is
`atan2(Gy, Gx)` in degrees with negative angles raised by 180 at an interior cell and 0
at a border cell; it lies in the closed range `[0, 180]`, and it is exactly 180 at the
interior cells where `Gy = 0` and `Gx < 0`, and only there. -/
theorem applySobel2D_angle_closed_range (img : List (List ℝ)) (width height : Nat)
    (_himg : IsGrid img height width) (y x : Nat) (hy : y < height) (hx : x < width) :
    cell (applySobel2D Real.sqrt (fun (b a : ℝ) => Complex.arg ⟨a, b⟩) Real.pi img width
        height).2 y x
        = (if (1 ≤ y ∧ y + 1 < height) ∧ (1 ≤ x ∧ x + 1 < width) then
            foldedAngle (fun (b a : ℝ) => Complex.arg ⟨a, b⟩) Real.pi
              (sobelSums img y x).1 (sobelSums img y x).2
          else 0)
      ∧ 0 ≤ cell (applySobel2D Real.sqrt (fun (b a : ℝ) => Complex.arg ⟨a, b⟩) Real.pi img
          width height).2 y x
      ∧ cell (applySobel2D Real.sqrt (fun (b a : ℝ) => Complex.arg ⟨a, b⟩) Real.pi img
          width height).2 y x ≤ 180
      ∧ (cell (applySobel2D Real.sqrt (fun (b a : ℝ) => Complex.arg ⟨a, b⟩) Real.pi img
          width height).2 y x = 180
          ↔ ((1 ≤ y ∧ y + 1 < height) ∧ (1 ≤ x ∧ x + 1 < width))
            ∧ (sobelSums img y x).2 = 0 ∧ (sobelSums img y x).1 < 0) := by
  obtain ⟨_, _, hcells⟩ := applySobel2D_cells Real.sqrt (fun (b a : ℝ) => Complex.arg ⟨a, b⟩)
    Real.pi img width height
  have hc := (hcells y x hy hx).2
  obtain ⟨r1, r2, r3⟩ := foldedAngle_real_range (sobelSums img y x).1 (sobelSums img y x).2
  rw [hc]
  refine ⟨rfl, ?_⟩
  by_cases hin : (1 ≤ y ∧ y + 1 < height) ∧ (1 ≤ x ∧ x + 1 < width)
  · rw [if_pos hin]
    exact ⟨r1, r2, by rw [r3]; exact ⟨fun h => ⟨hin, h⟩, fun h => h.2⟩⟩
  · rw [if_neg hin]
    refine ⟨le_refl 0, by norm_num, ?_⟩
    constructor
    · intro h
      norm_num at h
    · intro h
      exact absurd h.1 hin

/-- Witness for claim C10 (amended): the centre of a 3 x 3 image. -/
theorem applySobel2D_angle_closed_range_witness :
    cell (applySobel2D Real.sqrt (fun (b a : ℝ) => Complex.arg ⟨a, b⟩) Real.pi
        [[1, 0, 0], [0, 0, 0], [0, 0, 0]] 3 3).2 1 1
        = (if (1 ≤ 1 ∧ 1 + 1 < 3) ∧ (1 ≤ 1 ∧ 1 + 1 < 3) then
            foldedAngle (fun (b a : ℝ) => Complex.arg ⟨a, b⟩) Real.pi
              (sobelSums [[1, 0, 0], [0, 0, 0], [0, 0, 0]] 1 1).1
              (sobelSums [[1, 0, 0], [0, 0, 0], [0, 0, 0]] 1 1).2
          else 0)
      ∧ 0 ≤ cell (applySobel2D Real.sqrt (fun (b a : ℝ) => Complex.arg ⟨a, b⟩) Real.pi
          [[1, 0, 0], [0, 0, 0], [0, 0, 0]] 3 3).2 1 1
      ∧ cell (applySobel2D Real.sqrt (fun (b a : ℝ) => Complex.arg ⟨a, b⟩) Real.pi
          [[1, 0, 0], [0, 0, 0], [0, 0, 0]] 3 3).2 1 1 ≤ 180
      ∧ (cell (applySobel2D Real.sqrt (fun (b a : ℝ) => Complex.arg ⟨a, b⟩) Real.pi
          [[1, 0, 0], [0, 0, 0], [0, 0, 0]] 3 3).2 1 1 = 180
          ↔ ((1 ≤ 1 ∧ 1 + 1 < 3) ∧ (1 ≤ 1 ∧ 1 + 1 < 3))
            ∧ (sobelSums ([[1, 0, 0], [0, 0, 0], [0, 0, 0]] : List (List ℝ)) 1 1).2 = 0
            ∧ (sobelSums ([[1, 0, 0], [0, 0, 0], [0, 0, 0]] : List (List ℝ)) 1 1).1 < 0) :=
  applySobel2D_angle_closed_range [[1, 0, 0], [0, 0, 0], [0, 0, 0]] 3 3
    (by simp [IsGrid]) 1 1 (by decide) (by decide)

theorem sobelSums_left_column :
    sobelSums ([[1, 0, 0], [1, 0, 0], [1, 0, 0]] : List (List ℝ)) 1 1 = (-4, 0) := by
  simp [sobelSums, offsets, cell, kernelX, kernelY, List.range, List.range.loop]
  norm_num

/-- Counterexample to claim C10 as stated: in the 3 x 3 image whose left column is 1 and
whose other cells are 0, the centre has `Gx = -4` and `Gy = 0`, `atan2(0, -4)` is `pi`,
and the angle returned for the centre is exactly 180, outside `[0, 180)`. -/
theorem applySobel2D_angle_180 :
    cell (applySobel2D Real.sqrt (fun (b a : ℝ) => Complex.arg ⟨a, b⟩) Real.pi
        [[1, 0, 0], [1, 0, 0], [1, 0, 0]] 3 3).2 1 1 = 180
      ∧ ¬ (cell (applySobel2D Real.sqrt (fun (b a : ℝ) => Complex.arg ⟨a, b⟩) Real.pi
        [[1, 0, 0], [1, 0, 0], [1, 0, 0]] 3 3).2 1 1 < 180) := by
  obtain ⟨_, _, hcells⟩ := applySobel2D_cells Real.sqrt (fun (b a : ℝ) => Complex.arg ⟨a, b⟩)
    Real.pi [[1, 0, 0], [1, 0, 0], [1, 0, 0]] 3 3
  have hc := (hcells 1 1 (by decide) (by decide)).2
  rw [if_pos (by decide), sobelSums_left_column] at hc
  have h180 : foldedAngle (fun (b a : ℝ) => Complex.arg ⟨a, b⟩) Real.pi (-4) 0 = 180 :=
    (foldedAngle_real_range (-4) 0).2.2.mpr ⟨rfl, by norm_num⟩
  rw [hc, h180]
  exact ⟨rfl, lt_irrefl _⟩

end AngleTheorems

section ScanTheorems

variable {α : Type} [LinearOrderedField α] [FloorRing α]

theorem jsRound_eq_iff (v : α) (n : Int) :
    jsRound v = n ↔ (n : α) - 1 / 2 ≤ v ∧ v < (n : α) + 1 / 2 := by
  rw [jsRound, Int.floor_eq_iff]
  constructor
  · rintro ⟨h1, h2⟩
    constructor <;> norm_num at h1 h2 ⊢ <;> linarith
  · rintro ⟨h1, h2⟩
    constructor <;> norm_num at h1 h2 ⊢ <;> linarith

theorem scanRow_succ (body : Work α → Nat → Nat → List Char × Work α) (w y : Nat)
    (st : Work α) :
    scanRow body (w + 1) y st
      = ((scanRow body w y st).1 ++ [(body (scanRow body w y st).2 w y).1],
          (body (scanRow body w y st).2 w y).2) := by
  simp only [scanRow, List.range_succ, List.foldl_append, List.foldl_cons, List.foldl_nil]

theorem scanCells_succ (body : Work α → Nat → Nat → List Char × Work α) (w h : Nat)
    (st : Work α) :
    scanCells body w (h + 1) st
      = ((scanCells body w h st).1 ++ [(scanRow body w h (scanCells body w h st).2).1],
          (scanRow body w h (scanCells body w h st).2).2) := by
  simp only [scanCells, List.range_succ, List.foldl_append, List.foldl_cons, List.foldl_nil]

/-- One row of the scan: an invariant of the cell steps holds at every cell, and the
piece of text at column `x` is the one produced by the step taken at that cell. -/
theorem scanRow_spec (P : Work α → Prop) (body : Work α → Nat → Nat → List Char × Work α)
    (w y : Nat) (st : Work α) (hP : ∀ s x, x < w → P s → P (body s x y).2) (h0 : P st) :
    P (scanRow body w y st).2 ∧ (scanRow body w y st).1.length = w
      ∧ ∀ x, x < w → ∃ s, P s ∧ (scanRow body w y st).1[x]? = some (body s x y).1 := by
  induction w with
  | zero => exact ⟨h0, rfl, fun x hx => absurd hx (Nat.not_lt_zero x)⟩
  | succ w ih =>
    obtain ⟨i1, i2, i3⟩ := ih (fun s x hx hs => hP s x (Nat.lt_succ_of_lt hx) hs)
    rw [scanRow_succ]
    refine ⟨hP _ w (Nat.lt_succ_self w) i1, by simp [i2], ?_⟩
    intro x hx
    rcases Nat.lt_succ_iff_lt_or_eq.mp hx with hlt | rfl
    · obtain ⟨s, hs, hget⟩ := i3 x hlt
      exact ⟨s, hs, by rw [List.getElem?_append_left (by omega), hget]⟩
    · refine ⟨_, i1, ?_⟩
      rw [List.getElem?_append_right (by omega)]
      simp [i2]

/-- The whole scan: an invariant of the cell steps holds at every cell, the grid of
pieces has `h` rows of `w` pieces, and the piece at `(y, x)` is the one produced by
the step taken at that cell. -/
theorem scanCells_spec (P : Work α → Prop) (body : Work α → Nat → Nat → List Char × Work α)
    (w h : Nat) (st : Work α) (hP : ∀ s x y, x < w → y < h → P s → P (body s x y).2)
    (h0 : P st) :
    P (scanCells body w h st).2 ∧ (scanCells body w h st).1.length = h
      ∧ (∀ row ∈ (scanCells body w h st).1, row.length = w)
      ∧ ∀ y x, y < h → x < w →
          ∃ s, P s ∧ ((scanCells body w h st).1[y]?).bind (fun row => row[x]?)
            = some (body s x y).1 := by
  induction h with
  | zero =>
    exact ⟨h0, rfl, fun row hrow => by simp [scanCells] at hrow,
      fun y x hy => absurd hy (Nat.not_lt_zero y)⟩
  | succ h ih =>
    obtain ⟨i1, i2, i3, i4⟩ := ih (fun s x y hx hy hs => hP s x y hx (Nat.lt_succ_of_lt hy) hs)
    obtain ⟨r1, r2, r3⟩ := scanRow_spec P body w h (scanCells body w h st).2
      (fun s x hx hs => hP s x h hx (Nat.lt_succ_self h) hs) i1
    rw [scanCells_succ]
    refine ⟨r1, by simp [i2], ?_, ?_⟩
    · intro row hrow
      rcases List.mem_append.mp hrow with hmem | hmem
      · exact i3 row hmem
      · rw [List.mem_singleton.mp hmem]; exact r2
    · intro y x hy hx
      rcases Nat.lt_succ_iff_lt_or_eq.mp hy with hlt | rfl
      · obtain ⟨s, hs, hget⟩ := i4 y x hlt hx
        exact ⟨s, hs, by rw [List.getElem?_append_left (by omega)]; exact hget⟩
      · obtain ⟨s, hs, hget⟩ := r3 x hx
        refine ⟨s, hs, ?_⟩
        rw [List.getElem?_append_right (by omega)]
        simp [i2, hget]

end ScanTheorems

section PlainTheorems

variable {α : Type} [LinearOrderedField α] [FloorRing α]

theorem jsRound_level_bounds (t : α) (n : Nat) (ht0 : 0 ≤ t) (ht1 : t ≤ 255) (hn : 1 ≤ n) :
    0 ≤ jsRound (t / 255 * ((n : α) - 1)) ∧ jsRound (t / 255 * ((n : α) - 1)) ≤ (n : Int) - 1 := by
  have hn1 : (0 : α) ≤ (n : α) - 1 := by
    have : (1 : α) ≤ (n : α) := by exact_mod_cast hn
    linarith
  have hv0 : 0 ≤ t / 255 * ((n : α) - 1) := mul_nonneg (div_nonneg ht0 (by norm_num)) hn1
  have hv1 : t / 255 * ((n : α) - 1) ≤ (n : α) - 1 := by
    have : t / 255 ≤ 1 := by rw [div_le_one (by norm_num)]; exact ht1
    calc t / 255 * ((n : α) - 1) ≤ 1 * ((n : α) - 1) := mul_le_mul_of_nonneg_right this hn1
      _ = (n : α) - 1 := one_mul _
  constructor
  · rw [jsRound]
    apply Int.floor_nonneg.mpr
    norm_num
    linarith
  · have hlt : jsRound (t / 255 * ((n : α) - 1)) < (n : Int) := by
      rw [jsRound, Int.floor_lt]
      push_cast
      norm_num
      linarith
    omega

theorem charAt_of_lt (gradient : List Char) (level : Int) (h0 : 0 ≤ level)
    (h1 : level ≤ (gradient.length : Int) - 1) :
    ∃ c, gradient[level.toNat]? = some c ∧ charAt gradient level = [c] := by
  have hlt : level.toNat < gradient.length := by omega
  refine ⟨gradient[level.toNat], List.getElem?_eq_getElem hlt, ?_⟩
  simp [charAt, h0, List.getElem?_eq_getElem hlt]

/-- The plain branch of `generateASCII` leaves the state as it finds it, so that every
cell is quantised from the tone buffer itself. -/
theorem plain_cells (sqrt : α → α) (random : Nat → α) (gradient : List Char) (thr : α)
    (alg : DitherAlgorithm) (iw : Bool) (w h : Nat) (gray : List α) (y x : Nat) (hy : y < h)
    (hx : x < w) :
    ((generateASCIICells sqrt random ⟨gradient, iw, false, thr, false, alg⟩ w h gray)[y]?).bind
        (fun row => row[x]?)
      = some (plainCell gradient iw gray w ⟨gray, 0⟩ x y).1 := by
  obtain ⟨_, _, _, h4⟩ := scanCells_spec (fun (s : Work α) => s = ⟨gray, 0⟩)
    (plainCell gradient iw gray w) w h ⟨gray, 0⟩
    (fun s x y _ _ hs => by
      simp only [plainCell]
      split_ifs <;> exact hs) rfl
  obtain ⟨s, hs, hget⟩ := h4 y x hy hx
  subst hs
  simpa [generateASCIICells] using hget

/-- Claim C6.  In the plain path (no sobel, dithering disabled, ignoreWhite off), for a
palette of `nLevels >= 1` characters and a tone buffer of `w * h` values in `[0, 255]`,
the text emitted for the cell `(y, x)` of tone `t` is the single character
`Palette[level]`, where `level` is `t / 255 * (nLevels - 1)` rounded to the nearest
integer with halves rounded up, and `level <= nLevels - 1`; in particular the 2 x 2
buffer of uniform tone 128 with the palette `AB` renders as two lines `BB`. -/
theorem plain_quantization (sqrt : α → α) (random : Nat → α) (gradient : List Char)
    (thr : α) (alg : DitherAlgorithm) (w h : Nat) (gray : List α)
    (hn : 1 ≤ gradient.length) (hlen : gray.length = w * h)
    (hrange : ∀ t ∈ gray, 0 ≤ t ∧ t ≤ 255) :
    (∀ y x : Nat, y < h → x < w → ∃ (t : α) (level : Nat) (c : Char),
        gray[y * w + x]? = some t
          ∧ (level : α) - 1 / 2 ≤ t / 255 * ((gradient.length : α) - 1)
          ∧ t / 255 * ((gradient.length : α) - 1) < (level : α) + 1 / 2
          ∧ level ≤ gradient.length - 1
          ∧ gradient[level]? = some c
          ∧ ((generateASCIICells sqrt random ⟨gradient, false, false, thr, false, alg⟩
                w h gray)[y]?).bind (fun row => row[x]?) = some [c])
      ∧ generateASCII sqrt random ⟨['A', 'B'], false, false, thr, false, alg⟩ 2 2
          [128, 128, 128, 128] = ['B', 'B', Char.ofNat 10, 'B', 'B', Char.ofNat 10] := by
  constructor
  · intro y x hy hx
    have hidx : y * w + x < gray.length := by rw [hlen]; exact rowMajor_lt hy hx
    obtain ⟨ht0, ht1⟩ := hrange _ (List.getElem_mem hidx)
    obtain ⟨hl0, hl1⟩ := jsRound_level_bounds _ gradient.length ht0 ht1 hn
    obtain ⟨c, hc1, hc2⟩ := charAt_of_lt gradient _ hl0 hl1
    have hround := (jsRound_eq_iff (gray[y * w + x] / 255 * ((gradient.length : α) - 1))
      (jsRound (gray[y * w + x] / 255 * ((gradient.length : α) - 1)))).mp rfl
    have hcast : (((jsRound (gray[y * w + x] / 255 * ((gradient.length : α) - 1))).toNat : Nat)
        : α) = ((jsRound (gray[y * w + x] / 255 * ((gradient.length : α) - 1)) : Int) : α) := by
      have : (((jsRound (gray[y * w + x] / 255 * ((gradient.length : α) - 1))).toNat : Nat)
        : Int) = jsRound (gray[y * w + x] / 255 * ((gradient.length : α) - 1)) :=
        Int.toNat_of_nonneg hl0
      exact_mod_cast congrArg (fun (z : Int) => (z : α)) this
    refine ⟨gray[y * w + x], (jsRound (gray[y * w + x] / 255
      * ((gradient.length : α) - 1))).toNat, c, List.getElem?_eq_getElem hidx, ?_, ?_, ?_,
      hc1, ?_⟩
    · rw [hcast]; exact hround.1
    · rw [hcast]; exact hround.2
    · omega
    · rw [plain_cells sqrt random gradient thr alg false w h gray y x hy hx]
      simp only [plainCell, Bool.false_and, Bool.false_eq_true, if_false,
        List.getD_eq_getElem?_getD, List.getElem?_eq_getElem hidx, Option.getD_some]
      rw [hc2]
  · have hr : jsRound ((128 : α) / 255 * (2 - 1)) = 1 := by
      rw [jsRound_eq_iff]; norm_num
    simp [generateASCII, generateASCIICells, scanCells, scanRow, plainCell, asciiText, charAt,
      List.range, List.range.loop, hr]

/-- Witness for claim C6: the 1 x 2 buffer `[0, 255]` with the palette `AB`. -/
theorem plain_quantization_witness :
    (∀ y x : Nat, y < 1 → x < 2 → ∃ (t : ℚ) (level : Nat) (c : Char),
        ([0, 255] : List ℚ)[y * 2 + x]? = some t
          ∧ (level : ℚ) - 1 / 2 ≤ t / 255 * ((['A', 'B'].length : ℚ) - 1)
          ∧ t / 255 * ((['A', 'B'].length : ℚ) - 1) < (level : ℚ) + 1 / 2
          ∧ level ≤ ['A', 'B'].length - 1
          ∧ ['A', 'B'][level]? = some c
          ∧ ((generateASCIICells (fun (v : ℚ) => v) (fun _ => 0)
                ⟨['A', 'B'], false, false, 0, false, DitherAlgorithm.floyd⟩
                2 1 [0, 255])[y]?).bind (fun row => row[x]?) = some [c])
      ∧ generateASCII (fun (v : ℚ) => v) (fun _ => 0)
          ⟨['A', 'B'], false, false, 0, false, DitherAlgorithm.floyd⟩ 2 2
          [128, 128, 128, 128] = ['B', 'B', Char.ofNat 10, 'B', 'B', Char.ofNat 10] :=
  plain_quantization (fun (v : ℚ) => v) (fun _ => 0) ['A', 'B'] 0 DitherAlgorithm.floyd 2 1
    [0, 255] (by decide) (by decide) (by
      intro t ht
      simp only [List.mem_cons, List.mem_singleton, List.not_mem_nil, or_false] at ht
      rcases ht with rfl | rfl <;> norm_num)

end PlainTheorems

section IgnoreWhiteTheorems

variable {α : Type} [LinearOrderedField α] [FloorRing α]

/-- With ignoreWhite on, each of the five loop bodies appends a space and leaves the
state untouched at a cell whose original tone is 255. -/
theorem cell_steps_white (random : Nat → α) (gradient : List Char) (orig : List α)
    (w h : Nat) (st : Work α) (x y : Nat) (hwhite : orig.getD (y * w + x) 0 = 255) :
    plainCell gradient true orig w st x y = ([' '], st)
      ∧ floydCell gradient true orig w h st x y = ([' '], st)
      ∧ atkinsonCell gradient true orig w h st x y = ([' '], st)
      ∧ noiseCell random gradient true orig w st x y = ([' '], st)
      ∧ orderedCell gradient true orig w st x y = ([' '], st) := by
  have htest : (true && decide (orig.getD (y * w + x) 0 = 255)) = true := by
    rw [hwhite]; simp
  refine ⟨?_, ?_, ?_, ?_, ?_⟩
  · simp only [plainCell]; rw [if_pos htest]
  · simp only [floydCell]; rw [if_pos htest]
  · simp only [atkinsonCell]; rw [if_pos htest]
  · simp only [noiseCell]; rw [if_pos htest]
  · simp only [orderedCell]; rw [if_pos htest]

/-- At a cell whose original tone is not 255, each of the five loop bodies does with
ignoreWhite on exactly what it does with ignoreWhite off. -/
theorem cell_steps_not_white (random : Nat → α) (gradient : List Char) (orig : List α)
    (w h : Nat) (st : Work α) (x y : Nat) (hwhite : orig.getD (y * w + x) 0 ≠ 255) :
    plainCell gradient true orig w st x y = plainCell gradient false orig w st x y
      ∧ floydCell gradient true orig w h st x y = floydCell gradient false orig w h st x y
      ∧ atkinsonCell gradient true orig w h st x y
          = atkinsonCell gradient false orig w h st x y
      ∧ noiseCell random gradient true orig w st x y
          = noiseCell random gradient false orig w st x y
      ∧ orderedCell gradient true orig w st x y = orderedCell gradient false orig w st x y := by
  have htest : ¬ ((true && decide (orig.getD (y * w + x) 0 = 255)) = true) := by
    simpa using hwhite
  have hoff : ¬ ((false && decide (orig.getD (y * w + x) 0 = 255)) = true) := by simp
  refine ⟨?_, ?_, ?_, ?_, ?_⟩
  · simp only [plainCell]; rw [if_neg htest, if_neg hoff]
  · simp only [floydCell]; rw [if_neg htest, if_neg hoff]
  · simp only [atkinsonCell]; rw [if_neg htest, if_neg hoff]
  · simp only [noiseCell]; rw [if_neg htest, if_neg hoff]
  · simp only [orderedCell]; rw [if_neg htest, if_neg hoff]

theorem scanCells_white (body : Work α → Nat → Nat → List Char × Work α) (orig : List α)
    (w h : Nat) (st : Work α)
    (hbody : ∀ s x y, orig.getD (y * w + x) 0 = 255 → body s x y = ([' '], s))
    (y x : Nat) (hy : y < h) (hx : x < w) (hwhite : orig.getD (y * w + x) 0 = 255) :
    ((scanCells body w h st).1[y]?).bind (fun row => row[x]?) = some [' '] := by
  obtain ⟨_, _, _, h4⟩ := scanCells_spec (fun (_ : Work α) => True) body w h st
    (fun _ _ _ _ _ _ => trivial) trivial
  obtain ⟨s, _, hget⟩ := h4 y x hy hx
  rw [hget, hbody s x y hwhite]

end IgnoreWhiteTheorems

section IgnoreWhiteClaim

variable {α : Type} [LinearOrderedField α] [FloorRing α]

/-- Every branch of `generateASCII` that runs a loop is the scan of its loop body from
its starting buffer. -/
theorem generateASCIICells_eq_scan (sqrt : α → α) (random : Nat → α) (cfg : RenderConfig α)
    (w h : Nat) (gray : List α)
    (hpath : cfg.sobel = true ∨ cfg.ditheringEnabled = false
      ∨ cfg.ditherAlgorithm ≠ DitherAlgorithm.other) :
    generateASCIICells sqrt random cfg w h gray
      = (scanCells (pathCell random cfg cfg.ignoreWhite gray w h) w h
          (pathStart sqrt cfg w h gray)).1 := by
  obtain ⟨gradient, iw, sobel, thr, de, alg⟩ := cfg
  simp only at hpath
  cases sobel with
  | true => simp [generateASCIICells, pathCell, pathStart]
  | false =>
    cases de with
    | false => simp [generateASCIICells, pathCell, pathStart]
    | true =>
      cases alg <;> first
        | (simp at hpath; done)
        | simp [generateASCIICells, pathCell, pathStart]

/-- The step of the selected branch with ignoreWhite on: a space and an untouched state at
a cell whose original tone is 255, the step taken with ignoreWhite off elsewhere. -/
theorem pathCell_ignoreWhite (random : Nat → α) (cfg : RenderConfig α) (orig : List α)
    (w h : Nat) (hpath : cfg.sobel = true ∨ cfg.ditheringEnabled = false
      ∨ cfg.ditherAlgorithm ≠ DitherAlgorithm.other) (st : Work α) (x y : Nat) :
    pathCell random cfg true orig w h st x y
      = if orig.getD (y * w + x) 0 = 255 then ([' '], st)
        else pathCell random cfg false orig w h st x y := by
  obtain ⟨gradient, iw, sobel, thr, de, alg⟩ := cfg
  simp only at hpath
  by_cases hwhite : orig.getD (y * w + x) 0 = 255
  · rw [if_pos hwhite]
    obtain ⟨s1, s2, s3, s4, s5⟩ := cell_steps_white random gradient orig w h st x y hwhite
    cases sobel with
    | true => simpa [pathCell] using s1
    | false =>
      cases de with
      | false => simpa [pathCell] using s1
      | true =>
        cases alg with
        | floyd => simpa [pathCell] using s2
        | atkinson => simpa [pathCell] using s3
        | noise => simpa [pathCell] using s4
        | ordered => simpa [pathCell] using s5
        | other => simp at hpath
  · rw [if_neg hwhite]
    obtain ⟨s1, s2, s3, s4, s5⟩ := cell_steps_not_white random gradient orig w h st x y hwhite
    cases sobel with
    | true => simpa [pathCell] using s1
    | false =>
      cases de with
      | false => simpa [pathCell] using s1
      | true =>
        cases alg with
        | floyd => simpa [pathCell] using s2
        | atkinson => simpa [pathCell] using s3
        | noise => simpa [pathCell] using s4
        | ordered => simpa [pathCell] using s5
        | other => simp at hpath

theorem scanCells_stateless (body : Work α → Nat → Nat → List Char × Work α) (w h : Nat)
    (st : Work α) (hbody : ∀ s x y, (body s x y).2 = s) (y x : Nat) (hy : y < h)
    (hx : x < w) :
    ((scanCells body w h st).1[y]?).bind (fun row => row[x]?) = some (body st x y).1 := by
  obtain ⟨_, _, _, h4⟩ := scanCells_spec (fun (s : Work α) => s = st) body w h st
    (fun s x y _ _ hs => by rw [hbody s x y]; exact hs) rfl
  obtain ⟨s, hs, hget⟩ := h4 y x hy hx
  rw [hget, hs]

theorem plainCell_state (gradient : List Char) (iw : Bool) (orig : List α) (w : Nat)
    (st : Work α) (x y : Nat) : (plainCell gradient iw orig w st x y).2 = st := by
  simp only [plainCell]
  split_ifs <;> rfl

theorem orderedCell_state (gradient : List Char) (iw : Bool) (orig : List α) (w : Nat)
    (st : Work α) (x y : Nat) : (orderedCell gradient iw orig w st x y).2 = st := by
  simp only [orderedCell]
  split_ifs <;> rfl

/-- In the sobel, plain and ordered branches no step changes the state. -/
theorem pathCell_state (random : Nat → α) (cfg : RenderConfig α) (iw : Bool)
    (orig : List α) (w h : Nat)
    (hfree : cfg.sobel = true ∨ cfg.ditheringEnabled = false
      ∨ cfg.ditherAlgorithm = DitherAlgorithm.ordered) (st : Work α) (x y : Nat) :
    (pathCell random cfg iw orig w h st x y).2 = st := by
  obtain ⟨gradient, iw0, sobel, thr, de, alg⟩ := cfg
  simp only at hfree
  cases sobel with
  | true => simpa [pathCell] using plainCell_state gradient iw orig w st x y
  | false =>
    cases de with
    | false => simpa [pathCell] using plainCell_state gradient iw orig w st x y
    | true =>
      cases alg with
      | ordered => simpa [pathCell] using orderedCell_state gradient iw orig w st x y
      | floyd => simp at hfree
      | atkinson => simp at hfree
      | noise => simp at hfree
      | other => simp at hfree

/-- Claim C7.  With ignoreWhite enabled, in each of the six non-contour paths (plain,
sobel, Floyd-Steinberg, Atkinson, noise, ordered) the cell `(y, x)` is rendered as a
space whenever the tone captured in `grayOriginal` for it is exactly 255, whatever the
working buffer holds when the cell is visited, and the step leaves the state untouched;
at a cell whose captured tone is not 255 the step is the step the path takes with
ignoreWhite off from the same working buffer, so that the glyph is the path's own
quantisation of that buffer; and in the sobel, plain and ordered paths, whose steps
never change the state, such a cell shows the glyph of the run with ignoreWhite off. -/
theorem ignoreWhite_rule (sqrt : α → α) (random : Nat → α) (cfg : RenderConfig α)
    (w h : Nat) (gray : List α) (hiw : cfg.ignoreWhite = true)
    (hpath : cfg.sobel = true ∨ cfg.ditheringEnabled = false
      ∨ cfg.ditherAlgorithm ≠ DitherAlgorithm.other) :
    (∀ y x : Nat, y < h → x < w → ∃ st : Work α,
        ((generateASCIICells sqrt random cfg w h gray)[y]?).bind (fun row => row[x]?)
          = some (if gray.getD (y * w + x) 0 = 255 then [' ']
              else (pathCell random cfg false gray w h st x y).1))
      ∧ (∀ (st : Work α) (x y : Nat),
          pathCell random cfg true gray w h st x y
            = if gray.getD (y * w + x) 0 = 255 then ([' '], st)
              else pathCell random cfg false gray w h st x y)
      ∧ ((cfg.sobel = true ∨ cfg.ditheringEnabled = false
            ∨ cfg.ditherAlgorithm = DitherAlgorithm.ordered) →
          ∀ y x : Nat, y < h → x < w → gray.getD (y * w + x) 0 ≠ 255 →
            ((generateASCIICells sqrt random cfg w h gray)[y]?).bind (fun row => row[x]?)
              = ((generateASCIICells sqrt random
                  ⟨cfg.gradient, false, cfg.sobel, cfg.edgeThreshold, cfg.ditheringEnabled,
                    cfg.ditherAlgorithm⟩ w h gray)[y]?).bind (fun row => row[x]?)) := by
  obtain ⟨gradient, iw, sobel, thr, de, alg⟩ := cfg
  simp only at hiw hpath ⊢
  subst hiw
  have hstep := pathCell_ignoreWhite random ⟨gradient, true, sobel, thr, de, alg⟩ gray w h hpath
  refine ⟨?_, hstep, ?_⟩
  · intro y x hy hx
    rw [generateASCIICells_eq_scan sqrt random _ w h gray hpath]
    obtain ⟨_, _, _, h4⟩ := scanCells_spec (fun (_ : Work α) => True)
      (pathCell random ⟨gradient, true, sobel, thr, de, alg⟩ true gray w h) w h
      (pathStart sqrt ⟨gradient, true, sobel, thr, de, alg⟩ w h gray)
      (fun _ _ _ _ _ _ => trivial) trivial
    obtain ⟨s, _, hget⟩ := h4 y x hy hx
    refine ⟨s, ?_⟩
    rw [hget, hstep s x y]
    split_ifs <;> rfl
  · intro hfree y x hy hx hwhite
    have e1 : pathCell random ⟨gradient, false, sobel, thr, de, alg⟩ false gray w h
        = pathCell random ⟨gradient, true, sobel, thr, de, alg⟩ false gray w h := rfl
    have e2 : pathStart sqrt ⟨gradient, false, sobel, thr, de, alg⟩ w h gray
        = pathStart sqrt ⟨gradient, true, sobel, thr, de, alg⟩ w h gray := rfl
    rw [generateASCIICells_eq_scan sqrt random ⟨gradient, true, sobel, thr, de, alg⟩ w h gray
        hpath,
      generateASCIICells_eq_scan sqrt random ⟨gradient, false, sobel, thr, de, alg⟩ w h gray
        hpath]
    simp only [e1, e2]
    rw [scanCells_stateless _ w h _
        (pathCell_state random ⟨gradient, true, sobel, thr, de, alg⟩ true gray w h hfree)
        y x hy hx,
      scanCells_stateless _ w h _
        (pathCell_state random ⟨gradient, true, sobel, thr, de, alg⟩ false gray w h hfree)
        y x hy hx,
      hstep, if_neg hwhite]

/-- Witness for claim C7: the ordered path on the 1 x 2 buffer `[255, 0]`. -/
theorem ignoreWhite_rule_witness :
    (∀ y x : Nat, y < 1 → x < 2 → ∃ st : Work ℚ,
        ((generateASCIICells (fun (v : ℚ) => v) (fun _ => 0)
            ⟨['A', 'B'], true, false, 0, true, DitherAlgorithm.ordered⟩ 2 1 [255, 0])[y]?).bind
          (fun row => row[x]?)
          = some (if ([255, 0] : List ℚ).getD (y * 2 + x) 0 = 255 then [' ']
              else (pathCell (fun _ => 0)
                ⟨['A', 'B'], true, false, 0, true, DitherAlgorithm.ordered⟩ false [255, 0] 2 1
                st x y).1))
      ∧ (∀ (st : Work ℚ) (x y : Nat),
          pathCell (fun _ => 0) ⟨['A', 'B'], true, false, 0, true, DitherAlgorithm.ordered⟩
              true [255, 0] 2 1 st x y
            = if ([255, 0] : List ℚ).getD (y * 2 + x) 0 = 255 then ([' '], st)
              else pathCell (fun _ => 0)
                ⟨['A', 'B'], true, false, 0, true, DitherAlgorithm.ordered⟩ false [255, 0] 2 1
                st x y)
      ∧ ((false = true ∨ true = false
            ∨ DitherAlgorithm.ordered = DitherAlgorithm.ordered) →
          ∀ y x : Nat, y < 1 → x < 2 → ([255, 0] : List ℚ).getD (y * 2 + x) 0 ≠ 255 →
            ((generateASCIICells (fun (v : ℚ) => v) (fun _ => 0)
                ⟨['A', 'B'], true, false, 0, true, DitherAlgorithm.ordered⟩ 2 1 [255, 0])[y]?).bind
              (fun row => row[x]?)
              = ((generateASCIICells (fun (v : ℚ) => v) (fun _ => 0)
                  ⟨['A', 'B'], false, false, 0, true, DitherAlgorithm.ordered⟩ 2 1
                  [255, 0])[y]?).bind (fun row => row[x]?)) :=
  ignoreWhite_rule (fun (v : ℚ) => v) (fun _ => 0)
    ⟨['A', 'B'], true, false, 0, true, DitherAlgorithm.ordered⟩ 2 1 [255, 0] rfl
    (Or.inr (Or.inr (by decide)))

end IgnoreWhiteClaim

section SuppressionTheorems

variable {α : Type} [LinearOrderedField α]

/-- The cells of the grid returned by `nonMaxSuppression`, one by one. -/
theorem nonMaxSuppression_cells (mag angle : List (List α)) (width height : Nat) :
    IsGrid (nonMaxSuppression mag angle width height) height width
      ∧ ∀ y x : Nat, y < height → x < width →
          cell (nonMaxSuppression mag angle width height) y x
            = (if (1 ≤ y ∧ y + 1 < height) ∧ (1 ≤ x ∧ x + 1 < width) then
                suppressedAt mag angle y x
              else 0) := by
  set l : List (Nat × Nat) := (List.range' 1 (height - 2)).flatMap fun (y : Nat) =>
    (List.range' 1 (width - 2)).map fun (x : Nat) => (y, x) with hl
  have hloop : nonMaxSuppression mag angle width height
      = l.foldl (fun (s : List (List α)) (p : Nat × Nat) =>
          setCell s p.1 p.2 (suppressedAt mag angle p.1 p.2)) (zeros2D width height) := by
    rw [nonMaxSuppression, foldl_nested]
  obtain ⟨h1, h2, h3⟩ := foldl_point_updates
    (fun (s : List (List α)) => IsGrid s height width)
    (fun (s : List (List α)) (k : Nat × Nat) => cell s k.1 k.2)
    (fun (s : List (List α)) (p : Nat × Nat) =>
      setCell s p.1 p.2 (suppressedAt mag angle p.1 p.2))
    (fun p => p) (fun p => suppressedAt mag angle p.1 p.2) l
    (fun s i _ hs => isGrid_setCell _ _ _ _ _ _ hs)
    (fun s i hi hs => by
      obtain ⟨y, x⟩ := i
      obtain ⟨hy, hx⟩ := (mem_interior_pairs width height y x).mp hi
      exact cell_setCell_self _ height width y x _ hs (by omega) (by omega))
    (fun s i _ k _ hk => cell_setCell_ne _ _ _ _ _ _ hk)
    (zeros2D width height) (isGrid_zeros2D width height)
  rw [hloop]
  refine ⟨h1, ?_⟩
  intro y x hy hx
  by_cases hin : (1 ≤ y ∧ y + 1 < height) ∧ (1 ≤ x ∧ x + 1 < width)
  · rw [if_pos hin]
    exact h3 (y, x) ((mem_interior_pairs width height y x).mpr hin) (fun j _ hj => by rw [hj])
  · rw [if_neg hin]
    have := h2 (y, x) (fun i hi hpos => by
      obtain ⟨y', x'⟩ := i
      have hm := (mem_interior_pairs width height y' x').mp hi
      simp only [Prod.mk.injEq] at hpos
      obtain ⟨rfl, rfl⟩ := hpos
      exact hin hm)
    simp only [cell_zeros2D] at this
    exact this

theorem suppressedAt_zero_or_mag (mag angle : List (List α)) (y x : Nat) :
    suppressedAt mag angle y x = 0 ∨ suppressedAt mag angle y x = cell mag y x := by
  simp only [suppressedAt]
  split_ifs <;> simp

/-- Claim C11.  For a magnitude field and an angle field of `height` rows of `width`
cells, each cell of `nonMaxSuppression(mag, angle, width, height)` is either 0 or exactly
the value that `mag` holds at the same cell. -/
theorem nonMaxSuppression_zero_or_mag (mag angle : List (List α)) (width height : Nat)
    (_hmag : IsGrid mag height width) (_hangle : IsGrid angle height width) (y x : Nat)
    (hy : y < height) (hx : x < width) :
    cell (nonMaxSuppression mag angle width height) y x = 0
      ∨ cell (nonMaxSuppression mag angle width height) y x = cell mag y x := by
  rw [(nonMaxSuppression_cells mag angle width height).2 y x hy hx]
  split_ifs
  · exact suppressedAt_zero_or_mag mag angle y x
  · exact Or.inl rfl

/-- Witness for claim C11: the centre of a 3 x 3 field. -/
theorem nonMaxSuppression_zero_or_mag_witness :
    cell (nonMaxSuppression ([[0, 0, 0], [1, 5, 2], [0, 0, 0]] : List (List ℚ))
        [[0, 0, 0], [0, 10, 0], [0, 0, 0]] 3 3) 1 1 = 0
      ∨ cell (nonMaxSuppression ([[0, 0, 0], [1, 5, 2], [0, 0, 0]] : List (List ℚ))
        [[0, 0, 0], [0, 10, 0], [0, 0, 0]] 3 3) 1 1
        = cell ([[0, 0, 0], [1, 5, 2], [0, 0, 0]] : List (List ℚ)) 1 1 :=
  nonMaxSuppression_zero_or_mag [[0, 0, 0], [1, 5, 2], [0, 0, 0]]
    [[0, 0, 0], [0, 10, 0], [0, 0, 0]] 3 3 (by simp [IsGrid]) (by simp [IsGrid]) 1 1
    (by decide) (by decide)

/-- Claim C12.  For fields of `height` rows of `width` cells and a cell whose angle lies
in `[0, 180]`: a border cell of the result is 0; at an interior cell exactly one of the
four bins holds the angle, `[0, 22.5)` or `[157.5, 180]` selecting the left and right
neighbours, `[22.5, 67.5)` the top-right and bottom-left ones, `[67.5, 112.5)` the top
and bottom ones, `[112.5, 157.5)` the top-left and bottom-right ones, and the result is
the cell's magnitude when it is at least both selected neighbours (ties are kept) and 0
otherwise. -/
theorem nonMaxSuppression_bins (mag angle : List (List α)) (width height : Nat)
    (_hmag : IsGrid mag height width) (_hangle : IsGrid angle height width) (y x : Nat)
    (hy : y < height) (hx : x < width)
    (hrange : 0 ≤ cell angle y x ∧ cell angle y x ≤ 180) :
    (¬ ((1 ≤ y ∧ y + 1 < height) ∧ (1 ≤ x ∧ x + 1 < width)) →
        cell (nonMaxSuppression mag angle width height) y x = 0)
      ∧ (((1 ≤ y ∧ y + 1 < height) ∧ (1 ≤ x ∧ x + 1 < width)) →
          ((cell angle y x < 22.5 ∨ 157.5 ≤ cell angle y x) →
              cell (nonMaxSuppression mag angle width height) y x
                = if cell mag y x ≥ cell mag y (x - 1) ∧ cell mag y x ≥ cell mag y (x + 1)
                  then cell mag y x else 0)
            ∧ ((22.5 ≤ cell angle y x ∧ cell angle y x < 67.5) →
              cell (nonMaxSuppression mag angle width height) y x
                = if cell mag y x ≥ cell mag (y - 1) (x + 1)
                    ∧ cell mag y x ≥ cell mag (y + 1) (x - 1)
                  then cell mag y x else 0)
            ∧ ((67.5 ≤ cell angle y x ∧ cell angle y x < 112.5) →
              cell (nonMaxSuppression mag angle width height) y x
                = if cell mag y x ≥ cell mag (y - 1) x ∧ cell mag y x ≥ cell mag (y + 1) x
                  then cell mag y x else 0)
            ∧ ((112.5 ≤ cell angle y x ∧ cell angle y x < 157.5) →
              cell (nonMaxSuppression mag angle width height) y x
                = if cell mag y x ≥ cell mag (y - 1) (x - 1)
                    ∧ cell mag y x ≥ cell mag (y + 1) (x + 1)
                  then cell mag y x else 0))
      ∧ ((cell angle y x < 22.5 ∨ 157.5 ≤ cell angle y x)
          ∨ (22.5 ≤ cell angle y x ∧ cell angle y x < 67.5)
          ∨ (67.5 ≤ cell angle y x ∧ cell angle y x < 112.5)
          ∨ (112.5 ≤ cell angle y x ∧ cell angle y x < 157.5))
      ∧ ¬ ((cell angle y x < 22.5 ∨ 157.5 ≤ cell angle y x)
          ∧ (22.5 ≤ cell angle y x ∧ cell angle y x < 67.5))
      ∧ ¬ ((cell angle y x < 22.5 ∨ 157.5 ≤ cell angle y x)
          ∧ (67.5 ≤ cell angle y x ∧ cell angle y x < 112.5))
      ∧ ¬ ((cell angle y x < 22.5 ∨ 157.5 ≤ cell angle y x)
          ∧ (112.5 ≤ cell angle y x ∧ cell angle y x < 157.5))
      ∧ ¬ ((22.5 ≤ cell angle y x ∧ cell angle y x < 67.5)
          ∧ (67.5 ≤ cell angle y x ∧ cell angle y x < 112.5))
      ∧ ¬ ((22.5 ≤ cell angle y x ∧ cell angle y x < 67.5)
          ∧ (112.5 ≤ cell angle y x ∧ cell angle y x < 157.5))
      ∧ ¬ ((67.5 ≤ cell angle y x ∧ cell angle y x < 112.5)
          ∧ (112.5 ≤ cell angle y x ∧ cell angle y x < 157.5)) := by
  have hc := (nonMaxSuppression_cells mag angle width height).2 y x hy hx
  obtain ⟨h0, h180⟩ := hrange
  have c1 : (22.5 : α) < 67.5 := by norm_num
  have c2 : (67.5 : α) < 112.5 := by norm_num
  have c3 : (112.5 : α) < 157.5 := by norm_num
  refine ⟨?_, ?_, ?_, ?_, ?_, ?_, ?_, ?_, ?_⟩
  · intro hb
    rw [hc, if_neg hb]
  · intro hin
    rw [hc, if_pos hin]
    refine ⟨?_, ?_, ?_, ?_⟩
    · intro hbin
      have hcond : (cell angle y x ≥ 0 ∧ cell angle y x < 22.5)
          ∨ (cell angle y x ≥ 157.5 ∧ cell angle y x ≤ 180) := by
        rcases hbin with h | h
        · exact Or.inl ⟨h0, h⟩
        · exact Or.inr ⟨h, h180⟩
      simp only [suppressedAt, if_pos hcond]
    · intro hbin
      have hn : ¬ ((cell angle y x ≥ 0 ∧ cell angle y x < 22.5)
          ∨ (cell angle y x ≥ 157.5 ∧ cell angle y x ≤ 180)) := by
        rintro (h | h)
        · linarith [h.2, hbin.1]
        · linarith [h.1, hbin.2]
      have hp : cell angle y x ≥ 22.5 ∧ cell angle y x < 67.5 := hbin
      simp only [suppressedAt, if_neg hn, if_pos hp]
    · intro hbin
      have hn : ¬ ((cell angle y x ≥ 0 ∧ cell angle y x < 22.5)
          ∨ (cell angle y x ≥ 157.5 ∧ cell angle y x ≤ 180)) := by
        rintro (h | h)
        · linarith [h.2, hbin.1]
        · linarith [h.1, hbin.2]
      have hn2 : ¬ (cell angle y x ≥ 22.5 ∧ cell angle y x < 67.5) := by
        rintro ⟨_, h⟩
        linarith [hbin.1]
      have hp : cell angle y x ≥ 67.5 ∧ cell angle y x < 112.5 := hbin
      simp only [suppressedAt, if_neg hn, if_neg hn2, if_pos hp]
    · intro hbin
      have hn : ¬ ((cell angle y x ≥ 0 ∧ cell angle y x < 22.5)
          ∨ (cell angle y x ≥ 157.5 ∧ cell angle y x ≤ 180)) := by
        rintro (h | h)
        · linarith [h.2, hbin.1]
        · linarith [h.1, hbin.2]
      have hn2 : ¬ (cell angle y x ≥ 22.5 ∧ cell angle y x < 67.5) := by
        rintro ⟨_, h⟩
        linarith [hbin.1]
      have hn3 : ¬ (cell angle y x ≥ 67.5 ∧ cell angle y x < 112.5) := by
        rintro ⟨_, h⟩
        linarith [hbin.1]
      have hp : cell angle y x ≥ 112.5 ∧ cell angle y x < 157.5 := hbin
      simp only [suppressedAt, if_neg hn, if_neg hn2, if_neg hn3, if_pos hp]
  · by_cases h1 : cell angle y x < 22.5
    · exact Or.inl (Or.inl h1)
    · by_cases h2 : cell angle y x < 67.5
      · exact Or.inr (Or.inl ⟨not_lt.mp h1, h2⟩)
      · by_cases h3 : cell angle y x < 112.5
        · exact Or.inr (Or.inr (Or.inl ⟨not_lt.mp h2, h3⟩))
        · by_cases h4 : cell angle y x < 157.5
          · exact Or.inr (Or.inr (Or.inr ⟨not_lt.mp h3, h4⟩))
          · exact Or.inl (Or.inr (not_lt.mp h4))
  · rintro ⟨h | h, h2⟩ <;> linarith [h2.1, h2.2]
  · rintro ⟨h | h, h2⟩ <;> linarith [h2.1, h2.2]
  · rintro ⟨h | h, h2⟩ <;> linarith [h2.1, h2.2]
  · rintro ⟨h, h2⟩; linarith [h.2, h2.1]
  · rintro ⟨h, h2⟩; linarith [h.2, h2.1]
  · rintro ⟨h, h2⟩; linarith [h.2, h2.1]

/-- Witness for claim C12: the centre of a 3 x 3 field, with the angle 10 in the
horizontal bin. -/
theorem nonMaxSuppression_bins_witness :
    (0 ≤ cell ([[0, 0, 0], [0, 10, 0], [0, 0, 0]] : List (List ℚ)) 1 1
        ∧ cell ([[0, 0, 0], [0, 10, 0], [0, 0, 0]] : List (List ℚ)) 1 1 ≤ 180)
      ∧ cell (nonMaxSuppression ([[0, 0, 0], [1, 5, 2], [0, 0, 0]] : List (List ℚ))
          [[0, 0, 0], [0, 10, 0], [0, 0, 0]] 3 3) 1 1
        = if cell ([[0, 0, 0], [1, 5, 2], [0, 0, 0]] : List (List ℚ)) 1 1
              ≥ cell ([[0, 0, 0], [1, 5, 2], [0, 0, 0]] : List (List ℚ)) 1 (1 - 1)
            ∧ cell ([[0, 0, 0], [1, 5, 2], [0, 0, 0]] : List (List ℚ)) 1 1
              ≥ cell ([[0, 0, 0], [1, 5, 2], [0, 0, 0]] : List (List ℚ)) 1 (1 + 1)
          then cell ([[0, 0, 0], [1, 5, 2], [0, 0, 0]] : List (List ℚ)) 1 1 else 0 :=
  have hr : 0 ≤ cell ([[0, 0, 0], [0, 10, 0], [0, 0, 0]] : List (List ℚ)) 1 1
      ∧ cell ([[0, 0, 0], [0, 10, 0], [0, 0, 0]] : List (List ℚ)) 1 1 ≤ 180 := by
    simp [cell]; norm_num
  ⟨hr, ((nonMaxSuppression_bins [[0, 0, 0], [1, 5, 2], [0, 0, 0]]
    [[0, 0, 0], [0, 10, 0], [0, 0, 0]] 3 3 (by simp [IsGrid]) (by simp [IsGrid]) 1 1
    (by decide) (by decide) hr).2.1 (by decide)).1 (Or.inl (by simp [cell]; norm_num))⟩

end SuppressionTheorems

section ContourTheorems

variable {α : Type} [LinearOrderedField α] [FloorRing α]

/-- On a non-empty grid `differenceOfGaussians2D` returns the cell-by-cell difference of
the two convolutions. -/
theorem differenceOfGaussians2D_eq (exp : α → α) (gray : List (List α)) (sigma1 sigma2 : α)
    (kernelSize h w : Nat) (hgray : IsGrid gray h w) (hh : 0 < h) :
    ∃ b1 b2, convolve2D gray (gaussianKernel2D exp sigma1 kernelSize) = some b1
      ∧ convolve2D gray (gaussianKernel2D exp sigma2 kernelSize) = some b2
      ∧ differenceOfGaussians2D exp gray sigma1 sigma2 kernelSize
          = some ((List.range h).map fun (y : Nat) =>
              (List.range w).map fun (x : Nat) => cell b1 y x - cell b2 y x) := by
  have e1 := convolve2D_eq gray (gaussianKernel2D exp sigma1 kernelSize) h w hgray hh
  have e2 := convolve2D_eq gray (gaussianKernel2D exp sigma2 kernelSize) h w hgray hh
  refine ⟨_, _, e1, e2, ?_⟩
  obtain ⟨hl, hr⟩ := hgray
  cases gray with
  | nil => simp at hl; omega
  | cons row0 rest =>
    have hw0 : row0.length = w := hr row0 (List.mem_cons_self _ _)
    simp only [differenceOfGaussians2D, e1, e2, hl, hw0]

theorem jsRem_shifted_angle (theta : α) (h0 : 0 ≤ theta) (h180 : theta ≤ 180) :
    jsRem (theta + 90) 180 = if theta + 90 < 180 then theta + 90 else theta + 90 - 180 := by
  have hq0 : 0 ≤ (theta + 90) / 180 := div_nonneg (by linarith) (by norm_num)
  rw [jsRem, if_pos hq0]
  split_ifs with hlt
  · have hfl : ⌊(theta + 90) / 180⌋ = 0 := by
      rw [Int.floor_eq_iff]
      constructor
      · simpa using hq0
      · rw [div_lt_iff₀ (by norm_num)]
        simpa using hlt
    rw [hfl]
    simp
  · have hfl : ⌊(theta + 90) / 180⌋ = 1 := by
      rw [Int.floor_eq_iff]
      constructor
      · rw [le_div_iff₀ (by norm_num)]
        simpa using not_lt.mp hlt
      · rw [div_lt_iff₀ (by norm_num)]
        norm_num
        linarith
    rw [hfl]
    simp

theorem contourCells_get (suppressedMag angle : List (List α)) (w h : Nat) (thr : α)
    (y x : Nat) (hy : y < h) (hx : x < w) :
    ((contourCells suppressedMag angle w h thr)[y]?).bind (fun row => row[x]?)
      = some (if cell suppressedMag y x > thr then
          [edgeChar (jsRem (cell angle y x + 90) 180)] else [' ']) := by
  simp [contourCells, List.getElem?_map, List.getElem?_range hy, List.getElem?_range hx]

theorem edgeChar_mem (a : α) :
    edgeChar a ∈ ['-', '/', '|', Char.ofNat 92, ' '] := by
  simp only [edgeChar]
  split_ifs <;> simp

/-- Claim C13.  In contour mode on a non-empty tone grid, for every cell whose angle lies
in `[0, 180]`: with `a = (angle + 90) mod 180`, a number of `[0, 180)`, the piece of text
of the cell is the glyph `-` for `a` in `[0, 22.5)` or `[157.5, 180)`, `/` for `a` in
`[22.5, 67.5)`, `|` for `a` in `[67.5, 112.5)` and the backslash for `a` in
`[112.5, 157.5)` when the suppressed magnitude is above the threshold, and a space
otherwise; and every piece of every line is one character of the five-symbol set. -/
theorem contour_glyph_selection (exp sqrt : α → α) (atan2 : α → α → α) (pi : α)
    (gray2d : List (List α)) (w h : Nat) (thr : α) (hgray : IsGrid gray2d h w)
    (hh : 0 < h) :
    ∃ dog cells, differenceOfGaussians2D exp gray2d 0.5 1.0 3 = some dog
      ∧ generateContourASCIICells exp sqrt atan2 pi gray2d w h thr = some cells
      ∧ (∀ y x : Nat, y < h → x < w →
          0 ≤ cell (applySobel2D sqrt atan2 pi dog w h).2 y x →
          cell (applySobel2D sqrt atan2 pi dog w h).2 y x ≤ 180 →
          ∃ (a : α) (g : Char), 0 ≤ a ∧ a < 180
            ∧ (a = cell (applySobel2D sqrt atan2 pi dog w h).2 y x + 90
              ∨ a = cell (applySobel2D sqrt atan2 pi dog w h).2 y x + 90 - 180)
            ∧ ((a < 22.5 ∨ 157.5 ≤ a) → g = '-')
            ∧ ((22.5 ≤ a ∧ a < 67.5) → g = '/')
            ∧ ((67.5 ≤ a ∧ a < 112.5) → g = '|')
            ∧ ((112.5 ≤ a ∧ a < 157.5) → g = Char.ofNat 92)
            ∧ (cells[y]?).bind (fun row => row[x]?)
              = some (if cell (nonMaxSuppression (applySobel2D sqrt atan2 pi dog w h).1
                  (applySobel2D sqrt atan2 pi dog w h).2 w h) y x > thr then [g] else [' ']))
      ∧ (∀ row ∈ cells, ∀ piece ∈ row,
          ∃ c, piece = [c] ∧ c ∈ ['-', '/', '|', Char.ofNat 92, ' ']) := by
  obtain ⟨b1, b2, _, _, hdog⟩ := differenceOfGaussians2D_eq exp gray2d 0.5 1.0 3 h w hgray hh
  generalize hd : (List.range h).map (fun (y : Nat) =>
    (List.range w).map fun (x : Nat) => cell b1 y x - cell b2 y x) = dog at hdog
  refine ⟨dog, contourCells (nonMaxSuppression (applySobel2D sqrt atan2 pi dog w h).1
    (applySobel2D sqrt atan2 pi dog w h).2 w h) (applySobel2D sqrt atan2 pi dog w h).2 w h thr,
    hdog, by simp only [generateContourASCIICells, hdog], ?_, ?_⟩
  · intro y x hy hx h0 h180
    refine ⟨jsRem (cell (applySobel2D sqrt atan2 pi dog w h).2 y x + 90) 180,
      edgeChar (jsRem (cell (applySobel2D sqrt atan2 pi dog w h).2 y x + 90) 180),
      ?_, ?_, ?_, ?_, ?_, ?_, ?_, contourCells_get _ _ w h thr y x hy hx⟩
    · rw [jsRem_shifted_angle _ h0 h180]
      split_ifs <;> linarith
    · rw [jsRem_shifted_angle _ h0 h180]
      split_ifs <;> linarith
    · rw [jsRem_shifted_angle _ h0 h180]
      split_ifs
      · exact Or.inl rfl
      · exact Or.inr rfl
    · intro hbin
      have hc : jsRem (cell (applySobel2D sqrt atan2 pi dog w h).2 y x + 90) 180 < 22.5
          ∨ jsRem (cell (applySobel2D sqrt atan2 pi dog w h).2 y x + 90) 180 ≥ 157.5 := hbin
      simp only [edgeChar, if_pos hc]
    · rintro ⟨hb1, hb2⟩
      have hc : ¬ (jsRem (cell (applySobel2D sqrt atan2 pi dog w h).2 y x + 90) 180 < 22.5
          ∨ jsRem (cell (applySobel2D sqrt atan2 pi dog w h).2 y x + 90) 180 ≥ 157.5) := by
        rintro (hc | hc)
        · linarith
        · have : jsRem (cell (applySobel2D sqrt atan2 pi dog w h).2 y x + 90) 180 < 157.5 :=
            lt_trans hb2 (by norm_num)
          linarith
      simp only [edgeChar, if_neg hc, if_pos hb2]
    · rintro ⟨hb1, hb2⟩
      have hc : ¬ (jsRem (cell (applySobel2D sqrt atan2 pi dog w h).2 y x + 90) 180 < 22.5
          ∨ jsRem (cell (applySobel2D sqrt atan2 pi dog w h).2 y x + 90) 180 ≥ 157.5) := by
        rintro (hc | hc)
        · have : (22.5 : α) < 67.5 := by norm_num
          linarith
        · have : jsRem (cell (applySobel2D sqrt atan2 pi dog w h).2 y x + 90) 180 < 157.5 :=
            lt_trans hb2 (by norm_num)
          linarith
      have hc2 : ¬ jsRem (cell (applySobel2D sqrt atan2 pi dog w h).2 y x + 90) 180 < 67.5 :=
        not_lt.mpr hb1
      simp only [edgeChar, if_neg hc, if_neg hc2, if_pos hb2]
    · rintro ⟨hb1, hb2⟩
      have hc : ¬ (jsRem (cell (applySobel2D sqrt atan2 pi dog w h).2 y x + 90) 180 < 22.5
          ∨ jsRem (cell (applySobel2D sqrt atan2 pi dog w h).2 y x + 90) 180 ≥ 157.5) := by
        rintro (hc | hc)
        · have : (22.5 : α) < 112.5 := by norm_num
          linarith
        · linarith
      have hc2 : ¬ jsRem (cell (applySobel2D sqrt atan2 pi dog w h).2 y x + 90) 180 < 67.5 := by
        have : (67.5 : α) < 112.5 := by norm_num
        exact not_lt.mpr (by linarith)
      have hc3 : ¬ jsRem (cell (applySobel2D sqrt atan2 pi dog w h).2 y x + 90) 180 < 112.5 :=
        not_lt.mpr hb1
      simp only [edgeChar, if_neg hc, if_neg hc2, if_neg hc3]
  · intro row hrow piece hpiece
    simp only [contourCells, List.mem_map, List.mem_range] at hrow
    obtain ⟨y, _, rfl⟩ := hrow
    simp only [List.mem_map, List.mem_range] at hpiece
    obtain ⟨x, _, rfl⟩ := hpiece
    split_ifs
    · exact ⟨_, rfl, edgeChar_mem _⟩
    · exact ⟨' ', rfl, by simp⟩

end ContourTheorems

section PaletteTheorems

/-- Claim C20.  For every charset value and every manual-character input the palette
selected by `generateASCII` has at least two characters: `standard`, `blocks`, `binary`,
`hex` and `detailed` map to their fixed literal strings, every other value except
`manual` maps to the literal of `detailed`, and `manual` maps to the input followed by one
space, the empty input being replaced by the character `0`. -/
theorem selectGradient_two_levels (charset : String) (manualCharInput : List Char) :
    2 ≤ (selectGradient charset manualCharInput).length
      ∧ selectGradient "standard" manualCharInput = ("@%#*+=-:.").toList
      ∧ selectGradient "blocks" manualCharInput = ("█▓▒░ ").toList
      ∧ selectGradient "binary" manualCharInput = ("01").toList
      ∧ selectGradient "hex" manualCharInput = ("0123456789ABCDEF").toList
      ∧ selectGradient "detailed" manualCharInput
          = ("$@B%8&WM#*oahkbdpqwmZO0QLCJUYXzcvunxrjft/\\|()1\x7b\x7d[]?-_+~<>i!lI;:,\"^`'.").toList
      ∧ ((charset ≠ "standard" ∧ charset ≠ "blocks" ∧ charset ≠ "binary"
            ∧ charset ≠ "manual" ∧ charset ≠ "hex") →
          selectGradient charset manualCharInput = selectGradient "detailed" manualCharInput)
      ∧ selectGradient "manual" [] = ['0', ' ']
      ∧ (manualCharInput ≠ [] →
          selectGradient "manual" manualCharInput = manualCharInput ++ [' ']) := by
  refine ⟨?_, ?_, ?_, ?_, ?_, ?_, ?_, ?_, ?_⟩
  · simp only [selectGradient]
    split_ifs with h1 h2 h3 h4 h5 h6
    · decide
    · decide
    · decide
    · simp
    · have : 0 < manualCharInput.length := List.length_pos.mpr h5
      simp only [List.length_append, List.length_singleton]
      omega
    · decide
    · decide
  · simp [selectGradient]
  · simp [selectGradient]
  · simp [selectGradient]
  · simp [selectGradient]
  · simp [selectGradient]
  · rintro ⟨h1, h2, h3, h4, h5⟩
    simp [selectGradient, h1, h2, h3, h4, h5]
  · simp [selectGradient]
  · intro hne
    simp [selectGradient, hne]

end PaletteTheorems

section OrderedTheorems

variable {α : Type} [LinearOrderedField α] [FloorRing α]

/-- The level computed by the ordered branch is the level of the specification. -/
theorem orderedCell_eq (gradient : List Char) (iw : Bool) (orig : List α) (w : Nat)
    (st : Work α) (x y : Nat) :
    orderedCell gradient iw orig w st x y
      = (if (iw && decide (orig.getD (y * w + x) 0 = 255)) = true then [' ']
          else charAt gradient
            (orderedLevelSpec gradient.length (st.gray.getD (y * w + x) 0) x y), st) := by
  have h16 : (((4 * 4 : Nat) : α)) = 16 := by norm_num
  have hclamp : ∀ v : α, Min.min (Max.max v 0) 1 = clamp v 0 1 := by
    intro v
    simp only [clamp]
    rcases le_total v 0 with h0 | h0
    · rw [max_eq_right h0, min_eq_left (zero_le_one' α),
        min_eq_right (le_trans h0 (zero_le_one' α)), max_eq_left h0]
    · rw [max_eq_left h0]
      rcases le_total v 1 with h1 | h1
      · rw [min_eq_left h1, min_eq_right h1, max_eq_right h0]
      · rw [min_eq_right h1, min_eq_left h1, max_eq_right (zero_le_one' α)]
  have hcap : ∀ (z n : Int), (if z ≥ n then n - 1 else z) = Min.min z (n - 1) := by
    intro z n
    split_ifs with h
    · rw [min_eq_right (by omega)]
    · rw [min_eq_left (by omega)]
  simp only [orderedCell, orderedLevelSpec, h16, hclamp, hcap]
  split_ifs <;> rfl

theorem orderedLevelSpec_bounds (n : Nat) (tone : α) (x y : Nat) (hn : 1 ≤ n) :
    0 ≤ orderedLevelSpec n tone x y ∧ orderedLevelSpec n tone x y ≤ (n : Int) - 1 := by
  simp only [orderedLevelSpec]
  constructor
  · apply le_min
    · apply Int.floor_nonneg.mpr
      apply mul_nonneg
      · simp only [clamp]
        exact le_max_left _ _
      · exact Nat.cast_nonneg n
    · omega
  · exact min_le_right _ _

theorem orderedLevelSpec_mod (n : Nat) (tone : α) (x y : Nat) :
    orderedLevelSpec n tone x y = orderedLevelSpec n tone (x % 4) (y % 4) := by
  simp only [orderedLevelSpec, Nat.mod_mod]

/-- Claim C17.  In ordered dithering, for a quantised cell `(x, y)` whose tone lies in
`[0, 255]` and a palette of `nLevels >= 1` characters, the level is
`min(floor(clamp(tone / 255 + t - 0.5, 0, 1) * nLevels), nLevels - 1)` with
`t = (bayer[y mod 4][x mod 4] + 0.5) / 16` and `bayer` the fixed 4 x 4 matrix; the level
lies in `[0, nLevels - 1]`, the cell emits the palette character at that index, and for
`nLevels = 1` the level is 0 (the only divisors are the constants 255 and 16). -/
theorem ordered_level (gradient : List Char) (iw : Bool) (orig : List α) (w : Nat)
    (st : Work α) (x y : Nat) (hn : 1 ≤ gradient.length)
    (_hrange : 0 ≤ st.gray.getD (y * w + x) 0 ∧ st.gray.getD (y * w + x) 0 ≤ 255)
    (hq : (iw && decide (orig.getD (y * w + x) 0 = 255)) = false) :
    (bayer : List (List α)) = [[0, 8, 2, 10], [12, 4, 14, 6], [3, 11, 1, 9], [15, 7, 13, 5]]
      ∧ orderedLevelSpec gradient.length (st.gray.getD (y * w + x) 0) x y
          = Min.min ⌊clamp (st.gray.getD (y * w + x) 0 / 255
                + (cell (bayer : List (List α)) (y % 4) (x % 4) + 0.5) / 16 - 0.5) 0 1
              * (gradient.length : α)⌋ ((gradient.length : Int) - 1)
      ∧ (orderedCell gradient iw orig w st x y).1
          = charAt gradient (orderedLevelSpec gradient.length (st.gray.getD (y * w + x) 0) x y)
      ∧ 0 ≤ orderedLevelSpec gradient.length (st.gray.getD (y * w + x) 0) x y
      ∧ orderedLevelSpec gradient.length (st.gray.getD (y * w + x) 0) x y
          ≤ (gradient.length : Int) - 1
      ∧ (gradient.length = 1 →
          orderedLevelSpec gradient.length (st.gray.getD (y * w + x) 0) x y = 0)
      ∧ ∃ c, gradient[(orderedLevelSpec gradient.length
            (st.gray.getD (y * w + x) 0) x y).toNat]? = some c
          ∧ (orderedCell gradient iw orig w st x y).1 = [c] := by
  obtain ⟨hb0, hb1⟩ := orderedLevelSpec_bounds gradient.length
    (st.gray.getD (y * w + x) 0) x y hn
  have hcell : (orderedCell gradient iw orig w st x y).1
      = charAt gradient
        (orderedLevelSpec gradient.length (st.gray.getD (y * w + x) 0) x y) := by
    rw [orderedCell_eq, hq]
    simp
  obtain ⟨c, hc1, hc2⟩ := charAt_of_lt gradient _ hb0 hb1
  refine ⟨rfl, rfl, hcell, hb0, hb1, ?_, c, hc1, by rw [hcell, hc2]⟩
  intro h1
  rw [h1] at hb0 hb1 ⊢
  simp only [Nat.cast_one, sub_self] at hb1
  omega

/-- Witness for claim C17: tone 128 at the cell `(0, 0)` with the palette `AB`. -/
theorem ordered_level_witness :
    orderedLevelSpec (['A', 'B'] : List Char).length
        ((⟨[128], 0⟩ : Work ℚ).gray.getD (0 * 1 + 0) 0) 0 0 = 0
      ∧ (orderedCell ['A', 'B'] false ([128] : List ℚ) 1 ⟨[128], 0⟩ 0 0).1 = ['A'] := by
  obtain ⟨_, h2, h3, _, _, _, _⟩ := ordered_level ['A', 'B'] false ([128] : List ℚ) 1
    ⟨[128], 0⟩ 0 0 (by decide) (by simp; norm_num) (by simp)
  have hl : orderedLevelSpec (['A', 'B'] : List Char).length
      ((⟨[128], 0⟩ : Work ℚ).gray.getD (0 * 1 + 0) 0) 0 0 = 0 := by
    rw [h2]
    have hf : ⌊clamp ((128 : ℚ) / 255 + 0.5 / 16 - 0.5) 0 1 * 2⌋ = 0 := by
      rw [Int.floor_eq_iff]
      simp only [clamp]
      norm_num
    simp [cell, bayer, hf]
  exact ⟨hl, by rw [h3, hl]; simp [charAt]⟩

/-- Claim C18.  Ordered dithering is deterministic and periodic with period 4: a step
never changes the state (the tone buffer is not modified); the piece of text of a cell is
a function of the ignoreWhite test, the cell's tone, `x mod 4`, `y mod 4` and the
palette; the level is unchanged when `x` and `y` move by multiples of 4; in a run every
cell shows that function of the tone buffer given to the run; and two runs on the same
input give the same text, whatever `Math.random` or `Math.sqrt` return. -/
theorem ordered_deterministic_periodic (gradient : List Char) (iw : Bool) :
    (∀ (orig : List α) (w : Nat) (st : Work α) (x y : Nat),
        (orderedCell gradient iw orig w st x y).2 = st)
      ∧ (∀ (orig : List α) (w : Nat) (st : Work α) (x y : Nat),
          (orderedCell gradient iw orig w st x y).1
            = if (iw && decide (orig.getD (y * w + x) 0 = 255)) = true then [' ']
              else charAt gradient (orderedLevelSpec gradient.length
                (st.gray.getD (y * w + x) 0) (x % 4) (y % 4)))
      ∧ (∀ (n : Nat) (tone : α) (x y a b : Nat),
          orderedLevelSpec n tone (x + 4 * a) (y + 4 * b) = orderedLevelSpec n tone x y)
      ∧ (∀ (sqrt : α → α) (random : Nat → α) (thr : α) (w h : Nat) (gray : List α)
          (y x : Nat), y < h → x < w →
          ((generateASCIICells sqrt random
              ⟨gradient, iw, false, thr, true, DitherAlgorithm.ordered⟩ w h gray)[y]?).bind
              (fun row => row[x]?)
            = some (if (iw && decide (gray.getD (y * w + x) 0 = 255)) = true then [' ']
              else charAt gradient (orderedLevelSpec gradient.length
                (gray.getD (y * w + x) 0) (x % 4) (y % 4))))
      ∧ (∀ (sqrt sqrt2 : α → α) (random random2 : Nat → α) (thr : α) (w h : Nat)
          (gray : List α),
          generateASCII sqrt random
              ⟨gradient, iw, false, thr, true, DitherAlgorithm.ordered⟩ w h gray
            = generateASCII sqrt2 random2
              ⟨gradient, iw, false, thr, true, DitherAlgorithm.ordered⟩ w h gray) := by
  have hstep : ∀ (orig : List α) (w : Nat) (st : Work α) (x y : Nat),
      (orderedCell gradient iw orig w st x y).1
        = if (iw && decide (orig.getD (y * w + x) 0 = 255)) = true then [' ']
          else charAt gradient (orderedLevelSpec gradient.length
            (st.gray.getD (y * w + x) 0) (x % 4) (y % 4)) := by
    intro orig w st x y
    rw [orderedCell_eq, ← orderedLevelSpec_mod]
  refine ⟨fun orig w st x y => orderedCell_state gradient iw orig w st x y, hstep, ?_, ?_, ?_⟩
  · intro n tone x y a b
    rw [orderedLevelSpec_mod n tone (x + 4 * a) (y + 4 * b), orderedLevelSpec_mod n tone x y,
      Nat.add_mul_mod_self_left, Nat.add_mul_mod_self_left]
  · intro sqrt random thr w h gray y x hy hx
    have hcells : generateASCIICells sqrt random
        ⟨gradient, iw, false, thr, true, DitherAlgorithm.ordered⟩ w h gray
        = (scanCells (orderedCell gradient iw gray w) w h ⟨gray, 0⟩).1 := by
      simp [generateASCIICells]
    rw [hcells, scanCells_stateless _ w h _ (orderedCell_state gradient iw gray w) y x hy hx,
      hstep]
  · intro sqrt sqrt2 random random2 thr w h gray
    simp [generateASCII, generateASCIICells]

end OrderedTheorems

section DiffusionTheorems

variable {α : Type} [LinearOrderedField α] [FloorRing α]

theorem addClamped_length (g : List α) (i : Nat) (d : α) :
    (addClamped g i d).length = g.length := by
  simp [addClamped]

theorem addClamped_getD_self (g : List α) (i : Nat) (d : α) (hi : i < g.length) :
    (addClamped g i d).getD i 0 = clamp (g.getD i 0 + d) 0 255 := by
  simp only [addClamped, List.getD_eq_getElem?_getD, List.getElem?_set_self hi,
    Option.getD_some]

theorem addClamped_getD_ne (g : List α) (i j : Nat) (d : α) (hne : i ≠ j) :
    (addClamped g i d).getD j 0 = g.getD j 0 := by
  simp only [addClamped, List.getD_eq_getElem?_getD, List.getElem?_set_ne hne]

/-- A chain of clamped additions at pairwise distinct indices inside the buffer: every
written cell receives its own clamped sum, every other cell is unchanged. -/
theorem foldl_addClamped (upd : List (Nat × α)) (g : List α)
    (hnd : (upd.map Prod.fst).Nodup) (hlt : ∀ p ∈ upd, p.1 < g.length) :
    (upd.foldl (fun (g : List α) (p : Nat × α) => addClamped g p.1 p.2) g).length = g.length
      ∧ (∀ p ∈ upd,
          (upd.foldl (fun (g : List α) (p : Nat × α) => addClamped g p.1 p.2) g).getD p.1 0
            = clamp (g.getD p.1 0 + p.2) 0 255)
      ∧ (∀ j, (∀ p ∈ upd, p.1 ≠ j) →
          (upd.foldl (fun (g : List α) (p : Nat × α) => addClamped g p.1 p.2) g).getD j 0
            = g.getD j 0) := by
  induction upd generalizing g with
  | nil => exact ⟨rfl, fun p hp => by simp at hp, fun j _ => rfl⟩
  | cons a rest ih =>
    simp only [List.map_cons, List.nodup_cons, List.mem_map, not_exists, not_and] at hnd
    obtain ⟨ha, hrest⟩ := hnd
    have hlt2 : ∀ p ∈ rest, p.1 < (addClamped g a.1 a.2).length := by
      intro p hp
      rw [addClamped_length]
      exact hlt p (List.mem_cons_of_mem _ hp)
    obtain ⟨i1, i2, i3⟩ := ih (addClamped g a.1 a.2) hrest hlt2
    simp only [List.foldl_cons]
    refine ⟨by rw [i1, addClamped_length], ?_, ?_⟩
    · intro p hp
      rcases List.mem_cons.mp hp with rfl | hp
      · rw [i3 p.1 (fun q hq hqp => ha q hq hqp),
          addClamped_getD_self g p.1 p.2 (hlt p (List.mem_cons_self _ _))]
      · have hne : a.1 ≠ p.1 := fun h => ha p hp h.symm
        rw [i2 p hp, addClamped_getD_ne g a.1 p.1 a.2 hne]
    · intro j hj
      rw [i3 j (fun p hp => hj p (List.mem_cons_of_mem _ hp)),
        addClamped_getD_ne g a.1 j a.2 (hj a (List.mem_cons_self _ _))]

/-- The Floyd-Steinberg step at a quantised cell: the glyph of the rounded level, and the
chain of clamped additions of the shares of the quantisation error. -/
theorem floydCell_eq (gradient : List Char) (iw : Bool) (orig : List α) (w h : Nat)
    (st : Work α) (x y : Nat)
    (hq : (iw && decide (orig.getD (y * w + x) 0 = 255)) = false) :
    floydCell gradient iw orig w h st x y
      = (charAt gradient
          (jsRound (st.gray.getD (y * w + x) 0 / 255 * ((gradient.length : α) - 1))),
        ⟨(floydTargets w h x y
            (quantError gradient.length (st.gray.getD (y * w + x) 0))).foldl
            (fun (g : List α) (p : Nat × α) => addClamped g p.1 p.2) st.gray, st.draws⟩) := by
  simp only [floydCell, hq, Bool.false_eq_true, if_false, floydTargets, quantError, addClamped]
  congr 2
  split_ifs <;> simp_all

/-- The Atkinson step at a quantised cell: the glyph of the rounded level, and the chain
of clamped additions of one eighth of the quantisation error. -/
theorem atkinsonCell_eq (gradient : List Char) (iw : Bool) (orig : List α) (w h : Nat)
    (st : Work α) (x y : Nat)
    (hq : (iw && decide (orig.getD (y * w + x) 0 = 255)) = false) :
    atkinsonCell gradient iw orig w h st x y
      = (charAt gradient
          (jsRound (st.gray.getD (y * w + x) 0 / 255 * ((gradient.length : α) - 1))),
        ⟨(atkinsonTargets w h x y
            (quantError gradient.length (st.gray.getD (y * w + x) 0) / 8)).foldl
            (fun (g : List α) (p : Nat × α) => addClamped g p.1 p.2) st.gray, st.draws⟩) := by
  simp only [atkinsonCell, hq, Bool.false_eq_true, if_false, atkinsonTargets, quantError,
    addClamped]
  congr 2
  split_ifs <;> simp_all

end DiffusionTheorems

section NeighbourTheorems

variable {α : Type} [LinearOrderedField α] [FloorRing α]

theorem floydTargets_eq (w h x y : Nat) (e : α) :
    floydTargets w h x y e
      = (floydNeighbours w h x y e).map
          (fun (t : (Nat × Nat) × α) => (t.1.1 * w + t.1.2, t.2)) := by
  simp only [floydTargets, floydNeighbours]
  split_ifs <;>
    simp only [List.map_append, List.map_cons, List.map_nil, List.append_nil, List.nil_append,
      List.cons_append, List.cons.injEq, Prod.mk.injEq, and_true, true_and, Nat.add_mul,
      Nat.one_mul] <;>
    omega

theorem atkinsonTargets_eq (w h x y : Nat) (d : α) :
    atkinsonTargets w h x y d
      = (atkinsonNeighbours w h x y d).map
          (fun (t : (Nat × Nat) × α) => (t.1.1 * w + t.1.2, t.2)) := by
  simp only [atkinsonTargets, atkinsonNeighbours]
  split_ifs <;>
    simp only [List.map_append, List.map_cons, List.map_nil, List.append_nil, List.nil_append,
      List.cons_append, List.cons.injEq, Prod.mk.injEq, and_true, true_and, Nat.add_mul,
      Nat.one_mul] <;>
    omega

/-- A chain of clamped additions at pairwise distinct cells of the grid: every written
cell receives its own clamped sum, every other cell is unchanged. -/
theorem foldl_addClamped_grid (T : List ((Nat × Nat) × α)) (w h : Nat) (g : List α)
    (hlen : g.length = w * h) (hnd : (T.map Prod.fst).Nodup)
    (hin : ∀ t ∈ T, t.1.1 < h ∧ t.1.2 < w) :
    ((T.map (fun (t : (Nat × Nat) × α) => (t.1.1 * w + t.1.2, t.2))).foldl
        (fun (g : List α) (p : Nat × α) => addClamped g p.1 p.2) g).length = w * h
      ∧ (∀ t ∈ T,
          ((T.map (fun (t : (Nat × Nat) × α) => (t.1.1 * w + t.1.2, t.2))).foldl
            (fun (g : List α) (p : Nat × α) => addClamped g p.1 p.2) g).getD
              (t.1.1 * w + t.1.2) 0
            = clamp (g.getD (t.1.1 * w + t.1.2) 0 + t.2) 0 255)
      ∧ (∀ j, (∀ t ∈ T, t.1.1 * w + t.1.2 ≠ j) →
          ((T.map (fun (t : (Nat × Nat) × α) => (t.1.1 * w + t.1.2, t.2))).foldl
            (fun (g : List α) (p : Nat × α) => addClamped g p.1 p.2) g).getD j 0
            = g.getD j 0) := by
  have hnd2 : ((T.map (fun (t : (Nat × Nat) × α) => (t.1.1 * w + t.1.2, t.2))).map
      Prod.fst).Nodup := by
    rw [List.map_map]
    have : (Prod.fst ∘ fun (t : (Nat × Nat) × α) => (t.1.1 * w + t.1.2, t.2))
        = (fun (p : Nat × Nat) => p.1 * w + p.2) ∘ Prod.fst := rfl
    rw [this, ← List.map_map]
    apply List.Nodup.map_on _ hnd
    intro p hp q hq hpq
    simp only [List.mem_map] at hp hq
    obtain ⟨t, ht, rfl⟩ := hp
    obtain ⟨u, hu, rfl⟩ := hq
    obtain ⟨e1, e2⟩ := rowMajor_inj (hin t ht).2 (hin u hu).2 hpq
    exact Prod.ext e1 e2
  have hlt : ∀ p ∈ T.map (fun (t : (Nat × Nat) × α) => (t.1.1 * w + t.1.2, t.2)),
      p.1 < g.length := by
    intro p hp
    simp only [List.mem_map] at hp
    obtain ⟨t, ht, rfl⟩ := hp
    rw [hlen]
    exact rowMajor_lt (hin t ht).1 (hin t ht).2
  obtain ⟨i1, i2, i3⟩ := foldl_addClamped _ g hnd2 hlt
  refine ⟨by rw [i1, hlen], ?_, ?_⟩
  · intro t ht
    exact i2 (t.1.1 * w + t.1.2, t.2) (List.mem_map.mpr ⟨t, ht, rfl⟩)
  · intro j hj
    apply i3
    intro p hp
    simp only [List.mem_map] at hp
    obtain ⟨t, ht, rfl⟩ := hp
    exact hj t ht

theorem floydNeighbours_nodup (w h x y : Nat) (e : α) :
    ((floydNeighbours w h x y e).map Prod.fst).Nodup := by
  simp only [floydNeighbours]
  split_ifs <;> simp <;> omega

theorem floydNeighbours_inside (w h x y : Nat) (e : α) (hx : x < w) (hy : y < h) :
    ∀ t ∈ floydNeighbours w h x y e, t.1.1 < h ∧ t.1.2 < w := by
  intro t ht
  simp only [floydNeighbours, List.mem_append] at ht
  rcases ht with ((ht | ht) | ht) | ht <;>
    · split_ifs at ht with hc
      · simp only [List.mem_singleton] at ht
        subst ht
        simp only
        omega
      · simp at ht

theorem atkinsonNeighbours_nodup (w h x y : Nat) (d : α) :
    ((atkinsonNeighbours w h x y d).map Prod.fst).Nodup := by
  simp only [atkinsonNeighbours]
  split_ifs <;> simp <;> omega

theorem atkinsonNeighbours_inside (w h x y : Nat) (d : α) (hx : x < w) (hy : y < h) :
    ∀ t ∈ atkinsonNeighbours w h x y d, t.1.1 < h ∧ t.1.2 < w := by
  intro t ht
  simp only [atkinsonNeighbours, List.mem_append] at ht
  rcases ht with ((((ht | ht) | ht) | ht) | ht) | ht <;>
    · split_ifs at ht with hc
      · simp only [List.mem_singleton] at ht
        subst ht
        simp only
        omega
      · simp at ht

end NeighbourTheorems

section FloydClaim

variable {α : Type} [LinearOrderedField α] [FloorRing α]

theorem clamp_of_mem (v : α) (h0 : 0 ≤ v) (h1 : v ≤ 255) : clamp v 0 255 = v := by
  simp only [clamp]
  rw [min_eq_right h1, max_eq_right h0]

theorem clamp_mem (v : α) : 0 ≤ clamp v 0 255 ∧ clamp v 0 255 ≤ 255 := by
  simp only [clamp]
  exact ⟨le_max_left _ _, max_le (by norm_num) (min_le_left _ _)⟩

/-- The values that the Floyd-Steinberg step leaves in the four neighbours of an interior
cell. -/
theorem floydCell_interior (gradient : List Char) (iw : Bool) (orig : List α) (w h : Nat)
    (st : Work α) (x y : Nat) (hlen : st.gray.length = w * h) (hx1 : 1 ≤ x)
    (hx2 : x + 1 < w) (hy : y + 1 < h)
    (hq : (iw && decide (orig.getD (y * w + x) 0 = 255)) = false) :
    (floydCell gradient iw orig w h st x y).2.gray.getD (y * w + (x + 1)) 0
        = clamp (st.gray.getD (y * w + (x + 1)) 0
            + quantError gradient.length (st.gray.getD (y * w + x) 0) * (7 / 16)) 0 255
      ∧ (floydCell gradient iw orig w h st x y).2.gray.getD ((y + 1) * w + (x - 1)) 0
        = clamp (st.gray.getD ((y + 1) * w + (x - 1)) 0
            + quantError gradient.length (st.gray.getD (y * w + x) 0) * (3 / 16)) 0 255
      ∧ (floydCell gradient iw orig w h st x y).2.gray.getD ((y + 1) * w + x) 0
        = clamp (st.gray.getD ((y + 1) * w + x) 0
            + quantError gradient.length (st.gray.getD (y * w + x) 0) * (5 / 16)) 0 255
      ∧ (floydCell gradient iw orig w h st x y).2.gray.getD ((y + 1) * w + (x + 1)) 0
        = clamp (st.gray.getD ((y + 1) * w + (x + 1)) 0
            + quantError gradient.length (st.gray.getD (y * w + x) 0) * (1 / 16)) 0 255 := by
  rw [floydCell_eq gradient iw orig w h st x y hq, floydTargets_eq]
  simp only
  generalize quantError gradient.length (st.gray.getD (y * w + x) 0) = e
  have hT : floydNeighbours w h x y e
      = [((y, x + 1), e * (7 / 16)), ((y + 1, x - 1), e * (3 / 16)),
         ((y + 1, x), e * (5 / 16)), ((y + 1, x + 1), e * (1 / 16))] := by
    simp [floydNeighbours, hx1, hx2, hy]
  obtain ⟨_, i2, _⟩ := foldl_addClamped_grid (floydNeighbours w h x y e)
    w h st.gray hlen (floydNeighbours_nodup w h x y e)
    (floydNeighbours_inside w h x y e (by omega) (by omega))
  rw [hT] at i2 ⊢
  exact ⟨i2 ((y, x + 1), e * (7 / 16)) (by simp), i2 ((y + 1, x - 1), e * (3 / 16)) (by simp),
    i2 ((y + 1, x), e * (5 / 16)) (by simp), i2 ((y + 1, x + 1), e * (1 / 16)) (by simp)⟩

/-- Claim C15, as amended.  In the Floyd-Steinberg pass, for a buffer of `w * h` values
in `[0, 255]`, a palette of at least two characters and a quantised interior cell (right,
bottom-left, bottom and bottom-right neighbours in bounds), the step replaces the four
neighbours by `clamp(old + error * k / 16, 0, 255)` with `k = 7, 3, 5, 1`; when none of
the four sums leaves `[0, 255]` (no clamp is active) the changes made to the four
neighbours sum to exactly the cell's quantisation error. -/
theorem floyd_error_distribution (gradient : List Char) (iw : Bool) (orig : List α)
    (w h : Nat) (st : Work α) (x y : Nat) (hlen : st.gray.length = w * h)
    (_hn : 2 ≤ gradient.length) (_hrange : ∀ v ∈ st.gray, 0 ≤ v ∧ v ≤ 255) (hx1 : 1 ≤ x)
    (hx2 : x + 1 < w) (hy : y + 1 < h)
    (hq : (iw && decide (orig.getD (y * w + x) 0 = 255)) = false) :
    ((floydCell gradient iw orig w h st x y).2.gray.getD (y * w + (x + 1)) 0
        = clamp (st.gray.getD (y * w + (x + 1)) 0
            + quantError gradient.length (st.gray.getD (y * w + x) 0) * (7 / 16)) 0 255
      ∧ (floydCell gradient iw orig w h st x y).2.gray.getD ((y + 1) * w + (x - 1)) 0
        = clamp (st.gray.getD ((y + 1) * w + (x - 1)) 0
            + quantError gradient.length (st.gray.getD (y * w + x) 0) * (3 / 16)) 0 255
      ∧ (floydCell gradient iw orig w h st x y).2.gray.getD ((y + 1) * w + x) 0
        = clamp (st.gray.getD ((y + 1) * w + x) 0
            + quantError gradient.length (st.gray.getD (y * w + x) 0) * (5 / 16)) 0 255
      ∧ (floydCell gradient iw orig w h st x y).2.gray.getD ((y + 1) * w + (x + 1)) 0
        = clamp (st.gray.getD ((y + 1) * w + (x + 1)) 0
            + quantError gradient.length (st.gray.getD (y * w + x) 0) * (1 / 16)) 0 255)
      ∧ (((0 ≤ st.gray.getD (y * w + (x + 1)) 0
              + quantError gradient.length (st.gray.getD (y * w + x) 0) * (7 / 16)
            ∧ st.gray.getD (y * w + (x + 1)) 0
              + quantError gradient.length (st.gray.getD (y * w + x) 0) * (7 / 16) ≤ 255)
          ∧ (0 ≤ st.gray.getD ((y + 1) * w + (x - 1)) 0
              + quantError gradient.length (st.gray.getD (y * w + x) 0) * (3 / 16)
            ∧ st.gray.getD ((y + 1) * w + (x - 1)) 0
              + quantError gradient.length (st.gray.getD (y * w + x) 0) * (3 / 16) ≤ 255)
          ∧ (0 ≤ st.gray.getD ((y + 1) * w + x) 0
              + quantError gradient.length (st.gray.getD (y * w + x) 0) * (5 / 16)
            ∧ st.gray.getD ((y + 1) * w + x) 0
              + quantError gradient.length (st.gray.getD (y * w + x) 0) * (5 / 16) ≤ 255)
          ∧ (0 ≤ st.gray.getD ((y + 1) * w + (x + 1)) 0
              + quantError gradient.length (st.gray.getD (y * w + x) 0) * (1 / 16)
            ∧ st.gray.getD ((y + 1) * w + (x + 1)) 0
              + quantError gradient.length (st.gray.getD (y * w + x) 0) * (1 / 16) ≤ 255)) →
        ((floydCell gradient iw orig w h st x y).2.gray.getD (y * w + (x + 1)) 0
            - st.gray.getD (y * w + (x + 1)) 0)
          + ((floydCell gradient iw orig w h st x y).2.gray.getD ((y + 1) * w + (x - 1)) 0
            - st.gray.getD ((y + 1) * w + (x - 1)) 0)
          + ((floydCell gradient iw orig w h st x y).2.gray.getD ((y + 1) * w + x) 0
            - st.gray.getD ((y + 1) * w + x) 0)
          + ((floydCell gradient iw orig w h st x y).2.gray.getD ((y + 1) * w + (x + 1)) 0
            - st.gray.getD ((y + 1) * w + (x + 1)) 0)
          = quantError gradient.length (st.gray.getD (y * w + x) 0)) := by
  have hv := floydCell_interior gradient iw orig w h st x y hlen hx1 hx2 hy hq
  refine ⟨hv, ?_⟩
  rintro ⟨⟨a0, a1⟩, ⟨b0, b1⟩, ⟨c0, c1⟩, ⟨d0, d1⟩⟩
  obtain ⟨v1, v2, v3, v4⟩ := hv
  rw [v1, v2, v3, v4, clamp_of_mem _ a0 a1, clamp_of_mem _ b0 b1, clamp_of_mem _ c0 c1,
    clamp_of_mem _ d0 d1]
  ring

/-- Witness for claim C15 (amended): the middle cell of the first row of a 2 x 3 buffer
of tone 128 with the palette `AB`. -/
theorem floyd_error_distribution_witness :
    (floydCell ['A', 'B'] false ([128, 128, 128, 128, 128, 128] : List ℚ) 3 2
        ⟨[128, 128, 128, 128, 128, 128], 0⟩ 1 0).2.gray.getD (0 * 3 + (1 + 1)) 0
      = clamp ((⟨[128, 128, 128, 128, 128, 128], 0⟩ : Work ℚ).gray.getD (0 * 3 + (1 + 1)) 0
          + quantError (['A', 'B'] : List Char).length
              ((⟨[128, 128, 128, 128, 128, 128], 0⟩ : Work ℚ).gray.getD (0 * 3 + 1) 0)
            * (7 / 16)) 0 255 :=
  (floyd_error_distribution ['A', 'B'] false ([128, 128, 128, 128, 128, 128] : List ℚ) 3 2
    ⟨[128, 128, 128, 128, 128, 128], 0⟩ 1 0 (by decide) (by decide)
    (by intro v hv; simp at hv; subst hv; norm_num) (by decide) (by decide) (by decide)
    (by simp)).1.1

theorem quantError_two_100 : quantError 2 (100 : ℚ) = 100 := by
  have hr : jsRound ((100 : ℚ) / 255 * (2 - 1)) = 0 := by
    rw [jsRound_eq_iff]; norm_num
  simp [quantError, hr]

/-- Counterexample to claim C15 as stated: in the 2 x 3 buffer `[255, 100, 255, 255, 255,
255]` with the palette `AB`, the step at the interior cell `(1, 0)` has the quantisation
error 100, but its four neighbours are already 255 and stay 255: the changes sum to 0. -/
theorem floyd_clamp_loses_error :
    ((floydCell ['A', 'B'] false ([255, 100, 255, 255, 255, 255] : List ℚ) 3 2
          ⟨[255, 100, 255, 255, 255, 255], 0⟩ 1 0).2.gray.getD (0 * 3 + (1 + 1)) 0 - 255)
        + ((floydCell ['A', 'B'] false ([255, 100, 255, 255, 255, 255] : List ℚ) 3 2
          ⟨[255, 100, 255, 255, 255, 255], 0⟩ 1 0).2.gray.getD ((0 + 1) * 3 + (1 - 1)) 0 - 255)
        + ((floydCell ['A', 'B'] false ([255, 100, 255, 255, 255, 255] : List ℚ) 3 2
          ⟨[255, 100, 255, 255, 255, 255], 0⟩ 1 0).2.gray.getD ((0 + 1) * 3 + 1) 0 - 255)
        + ((floydCell ['A', 'B'] false ([255, 100, 255, 255, 255, 255] : List ℚ) 3 2
          ⟨[255, 100, 255, 255, 255, 255], 0⟩ 1 0).2.gray.getD ((0 + 1) * 3 + (1 + 1)) 0 - 255)
        ≠ quantError (['A', 'B'] : List Char).length
          (([255, 100, 255, 255, 255, 255] : List ℚ).getD (0 * 3 + 1) 0)
      ∧ quantError (['A', 'B'] : List Char).length
          (([255, 100, 255, 255, 255, 255] : List ℚ).getD (0 * 3 + 1) 0) = 100 := by
  obtain ⟨v1, v2, v3, v4⟩ := floydCell_interior ['A', 'B'] false
    ([255, 100, 255, 255, 255, 255] : List ℚ) 3 2 ⟨[255, 100, 255, 255, 255, 255], 0⟩ 1 0
    (by decide) (by decide) (by decide) (by decide) (by simp)
  have he : quantError (['A', 'B'] : List Char).length
      (([255, 100, 255, 255, 255, 255] : List ℚ).getD (0 * 3 + 1) 0) = 100 := by
    simpa using quantError_two_100
  have hc : ∀ k : ℚ, 0 ≤ k → clamp ((255 : ℚ) + 100 * k) 0 255 = 255 := by
    intro k hk
    simp only [clamp]
    rw [min_eq_left (by nlinarith), max_eq_right (by norm_num)]
  refine ⟨?_, he⟩
  rw [v1, v2, v3, v4]
  simp only [he]
  have e1 : ([255, 100, 255, 255, 255, 255] : List ℚ).getD (0 * 3 + (1 + 1)) 0 = 255 := by
    simp
  have e2 : ([255, 100, 255, 255, 255, 255] : List ℚ).getD ((0 + 1) * 3 + (1 - 1)) 0
      = 255 := by simp
  have e3 : ([255, 100, 255, 255, 255, 255] : List ℚ).getD ((0 + 1) * 3 + 1) 0 = 255 := by
    simp
  have e4 : ([255, 100, 255, 255, 255, 255] : List ℚ).getD ((0 + 1) * 3 + (1 + 1)) 0
      = 255 := by simp
  rw [e1, e2, e3, e4, hc _ (by norm_num), hc _ (by norm_num), hc _ (by norm_num),
    hc _ (by norm_num)]
  norm_num

end FloydClaim

section AtkinsonClaim

variable {α : Type} [LinearOrderedField α] [FloorRing α]

theorem atkinsonNeighbours_mem (w h x y : Nat) (d : α) (row col : Nat) (hrow : row < h)
    (hcol : col < w) (ht : AtkinsonTarget x y row col) :
    ((row, col), d) ∈ atkinsonNeighbours w h x y d := by
  simp only [AtkinsonTarget] at ht
  simp only [atkinsonNeighbours, List.mem_append]
  rcases ht with ⟨rfl, rfl⟩ | ⟨rfl, rfl⟩ | ⟨rfl, rfl⟩ | ⟨rfl, rfl⟩ | ⟨rfl, rfl⟩ | ⟨rfl, rfl⟩
  · simp [hcol]
  · simp [hcol]
  · simp [hrow]
  · simp [hrow]
  · simp [hrow, hcol]
  · simp [hrow]

theorem atkinsonNeighbours_target (w h x y : Nat) (d : α) :
    ∀ t ∈ atkinsonNeighbours w h x y d, AtkinsonTarget x y t.1.1 t.1.2 ∧ t.2 = d := by
  intro t ht
  simp only [atkinsonNeighbours, List.mem_append] at ht
  rcases ht with ((((ht | ht) | ht) | ht) | ht) | ht <;>
    · split_ifs at ht with hc
      · simp only [List.mem_singleton] at ht
        subst ht
        refine ⟨?_, rfl⟩
        first
          | (simp [AtkinsonTarget]; done)
          | (simp [AtkinsonTarget]; omega)
      · simp at ht

/-- The buffer after the Atkinson step at a quantised cell of the grid. -/
theorem atkinsonCell_cells (gradient : List Char) (iw : Bool) (orig : List α) (w h : Nat)
    (st : Work α) (x y : Nat) (hlen : st.gray.length = w * h) (hx : x < w) (hy : y < h)
    (hq : (iw && decide (orig.getD (y * w + x) 0 = 255)) = false) :
    (atkinsonCell gradient iw orig w h st x y).2.gray.length = w * h
      ∧ ∀ row col : Nat, row < h → col < w →
          (AtkinsonTarget x y row col →
            (atkinsonCell gradient iw orig w h st x y).2.gray.getD (row * w + col) 0
              = clamp (st.gray.getD (row * w + col) 0
                  + quantError gradient.length (st.gray.getD (y * w + x) 0) / 8) 0 255)
          ∧ (¬ AtkinsonTarget x y row col →
            (atkinsonCell gradient iw orig w h st x y).2.gray.getD (row * w + col) 0
              = st.gray.getD (row * w + col) 0) := by
  rw [atkinsonCell_eq gradient iw orig w h st x y hq, atkinsonTargets_eq]
  simp only
  generalize quantError gradient.length (st.gray.getD (y * w + x) 0) / 8 = d
  have hins := atkinsonNeighbours_inside w h x y d hx hy
  obtain ⟨i1, i2, i3⟩ := foldl_addClamped_grid (atkinsonNeighbours w h x y d)
    w h st.gray hlen (atkinsonNeighbours_nodup w h x y d) hins
  refine ⟨i1, ?_⟩
  intro row col hrow hcol
  constructor
  · intro ht
    exact i2 ((row, col), d) (atkinsonNeighbours_mem w h x y d row col hrow hcol ht)
  · intro hnt
    apply i3
    intro t hmem hidx
    obtain ⟨e1, e2⟩ := rowMajor_inj (hins t hmem).2 hcol hidx
    apply hnt
    rw [← e1, ← e2]
    exact (atkinsonNeighbours_target w h x y d t hmem).1

/-- Claim C16.  In the Atkinson pass, for a quantised cell `(x, y)` of a buffer of
`w * h` values with error `e = value - level / (nLevels - 1) * 255`, the step replaces
each target among `(x+1, y)`, `(x+2, y)`, `(x-1, y+1)`, `(x, y+1)`, `(x+1, y+1)` and
`(x, y+2)` that lies in the grid by `clamp(old + e / 8, 0, 255)` and changes no other
cell; when the six targets are in the grid and no clamp is active, the total of the
targets increases by exactly `6 / 8` of `e`. -/
theorem atkinson_step (gradient : List Char) (iw : Bool) (orig : List α) (w h : Nat)
    (st : Work α) (x y : Nat) (hlen : st.gray.length = w * h) (hx : x < w) (hy : y < h)
    (hq : (iw && decide (orig.getD (y * w + x) 0 = 255)) = false) :
    (atkinsonCell gradient iw orig w h st x y).2.gray.length = w * h
      ∧ (∀ row col : Nat, row < h → col < w →
          (AtkinsonTarget x y row col →
            (atkinsonCell gradient iw orig w h st x y).2.gray.getD (row * w + col) 0
              = clamp (st.gray.getD (row * w + col) 0
                  + quantError gradient.length (st.gray.getD (y * w + x) 0) / 8) 0 255)
          ∧ (¬ AtkinsonTarget x y row col →
            (atkinsonCell gradient iw orig w h st x y).2.gray.getD (row * w + col) 0
              = st.gray.getD (row * w + col) 0))
      ∧ (1 ≤ x → x + 2 < w → y + 2 < h →
          (∀ row col : Nat, AtkinsonTarget x y row col →
            0 ≤ st.gray.getD (row * w + col) 0
                + quantError gradient.length (st.gray.getD (y * w + x) 0) / 8
              ∧ st.gray.getD (row * w + col) 0
                + quantError gradient.length (st.gray.getD (y * w + x) 0) / 8 ≤ 255) →
          ((atkinsonCell gradient iw orig w h st x y).2.gray.getD (y * w + (x + 1)) 0
            - st.gray.getD (y * w + (x + 1)) 0)
          + ((atkinsonCell gradient iw orig w h st x y).2.gray.getD (y * w + (x + 2)) 0
            - st.gray.getD (y * w + (x + 2)) 0)
          + ((atkinsonCell gradient iw orig w h st x y).2.gray.getD ((y + 1) * w + (x - 1)) 0
            - st.gray.getD ((y + 1) * w + (x - 1)) 0)
          + ((atkinsonCell gradient iw orig w h st x y).2.gray.getD ((y + 1) * w + x) 0
            - st.gray.getD ((y + 1) * w + x) 0)
          + ((atkinsonCell gradient iw orig w h st x y).2.gray.getD ((y + 1) * w + (x + 1)) 0
            - st.gray.getD ((y + 1) * w + (x + 1)) 0)
          + ((atkinsonCell gradient iw orig w h st x y).2.gray.getD ((y + 2) * w + x) 0
            - st.gray.getD ((y + 2) * w + x) 0)
            = 6 / 8 * quantError gradient.length (st.gray.getD (y * w + x) 0)) := by
  obtain ⟨c1, c2⟩ := atkinsonCell_cells gradient iw orig w h st x y hlen hx hy hq
  refine ⟨c1, c2, ?_⟩
  intro hx1 hx2 hy2 hnc
  have t1 : AtkinsonTarget x y y (x + 1) := Or.inl ⟨rfl, rfl⟩
  have t2 : AtkinsonTarget x y y (x + 2) := Or.inr (Or.inl ⟨rfl, rfl⟩)
  have t3 : AtkinsonTarget x y (y + 1) (x - 1) :=
    Or.inr (Or.inr (Or.inl ⟨rfl, by omega⟩))
  have t4 : AtkinsonTarget x y (y + 1) x := Or.inr (Or.inr (Or.inr (Or.inl ⟨rfl, rfl⟩)))
  have t5 : AtkinsonTarget x y (y + 1) (x + 1) :=
    Or.inr (Or.inr (Or.inr (Or.inr (Or.inl ⟨rfl, rfl⟩))))
  have t6 : AtkinsonTarget x y (y + 2) x :=
    Or.inr (Or.inr (Or.inr (Or.inr (Or.inr ⟨rfl, rfl⟩))))
  rw [(c2 y (x + 1) (by omega) (by omega)).1 t1, (c2 y (x + 2) (by omega) (by omega)).1 t2,
    (c2 (y + 1) (x - 1) (by omega) (by omega)).1 t3,
    (c2 (y + 1) x (by omega) (by omega)).1 t4,
    (c2 (y + 1) (x + 1) (by omega) (by omega)).1 t5,
    (c2 (y + 2) x (by omega) (by omega)).1 t6,
    clamp_of_mem _ (hnc _ _ t1).1 (hnc _ _ t1).2, clamp_of_mem _ (hnc _ _ t2).1 (hnc _ _ t2).2,
    clamp_of_mem _ (hnc _ _ t3).1 (hnc _ _ t3).2, clamp_of_mem _ (hnc _ _ t4).1 (hnc _ _ t4).2,
    clamp_of_mem _ (hnc _ _ t5).1 (hnc _ _ t5).2, clamp_of_mem _ (hnc _ _ t6).1 (hnc _ _ t6).2]
  ring

/-- Witness for claim C16: the first cell of a 3 x 3 buffer of tone 128 with the palette
`AB`. -/
theorem atkinson_step_witness :
    (atkinsonCell ['A', 'B'] false ([128, 128, 128, 128, 128, 128, 128, 128, 128] : List ℚ)
        3 3 ⟨[128, 128, 128, 128, 128, 128, 128, 128, 128], 0⟩ 0 0).2.gray.length = 3 * 3 :=
  (atkinson_step ['A', 'B'] false ([128, 128, 128, 128, 128, 128, 128, 128, 128] : List ℚ)
    3 3 ⟨[128, 128, 128, 128, 128, 128, 128, 128, 128], 0⟩ 0 0 (by decide) (by decide)
    (by decide) (by simp)).1

end AtkinsonClaim

section LineTheorems

variable {α : Type} [LinearOrderedField α] [FloorRing α]

/-- A grid of one-character pieces is a text of lines of equal length. -/
theorem asciiText_lines (Q : Char → Prop) (cells : List (List (List Char))) (w h : Nat)
    (hrows : cells.length = h) (hcols : ∀ row ∈ cells, row.length = w)
    (hpiece : ∀ row ∈ cells, ∀ piece ∈ row, ∃ c, piece = [c] ∧ Q c) :
    ∃ lines : List (List Char), lines.length = h
      ∧ (∀ l ∈ lines, l.length = w ∧ ∀ c ∈ l, Q c)
      ∧ asciiText cells
          = (lines.map fun (l : List Char) => l ++ [Char.ofNat 10]).flatten := by
  refine ⟨cells.map List.flatten, by simp [hrows], ?_,
    by simp [asciiText, List.map_map, Function.comp_def]⟩
  intro l hl
  simp only [List.mem_map] at hl
  obtain ⟨row, hrow, rfl⟩ := hl
  have hp := hpiece row hrow
  have hw := hcols row hrow
  clear hrow hpiece hcols hrows
  induction row generalizing w with
  | nil => exact ⟨by simpa using hw, by simp⟩
  | cons piece rest ih =>
    obtain ⟨c, rfl, hc⟩ := hp piece (List.mem_cons_self _ _)
    obtain ⟨i1, i2⟩ := ih (w - 1) (fun q hq => hp q (List.mem_cons_of_mem _ hq))
      (by simp at hw; omega)
    constructor
    · simp only [List.flatten_cons, List.singleton_append, List.length_cons, i1]
      simp at hw
      omega
    · intro c2 hc2
      simp only [List.flatten_cons, List.singleton_append, List.mem_cons] at hc2
      rcases hc2 with rfl | hc2
      · exact hc
      · exact i2 c2 hc2

/-- A scan whose steps keep an invariant and append one character each produces `h` lines
of `w` characters. -/
theorem scan_lines (P : Work α → Prop) (Q : Char → Prop)
    (body : Work α → Nat → Nat → List Char × Work α) (w h : Nat) (st : Work α)
    (hP : ∀ s x y, x < w → y < h → P s → P (body s x y).2)
    (hpiece : ∀ s x y, x < w → y < h → P s → ∃ c, (body s x y).1 = [c] ∧ Q c)
    (h0 : P st) :
    ∃ lines : List (List Char), lines.length = h
      ∧ (∀ l ∈ lines, l.length = w ∧ ∀ c ∈ l, Q c)
      ∧ asciiText (scanCells body w h st).1
          = (lines.map fun (l : List Char) => l ++ [Char.ofNat 10]).flatten := by
  obtain ⟨_, s2, s3, s4⟩ := scanCells_spec P body w h st hP h0
  apply asciiText_lines Q _ w h s2 s3
  intro row hrow piece hpc
  obtain ⟨y, hy, rfl⟩ := List.getElem_of_mem hrow
  obtain ⟨x, hx, rfl⟩ := List.getElem_of_mem hpc
  have hy2 : y < h := by omega
  have hx2 : x < w := by rw [← s3 _ hrow]; exact hx
  obtain ⟨s, hs, hget⟩ := s4 y x hy2 hx2
  rw [List.getElem?_eq_getElem hy, Option.some_bind, List.getElem?_eq_getElem hx] at hget
  rw [Option.some.inj hget]
  exact hpiece s x y hx2 hy2 hs

end LineTheorems

section BufferTheorems

variable {α : Type} [LinearOrderedField α] [FloorRing α]

theorem addClamped_range (g : List α) (i : Nat) (d : α) (hg : ∀ v ∈ g, 0 ≤ v ∧ v ≤ 255) :
    ∀ v ∈ addClamped g i d, 0 ≤ v ∧ v ≤ 255 := by
  intro v hv
  rcases List.mem_or_eq_of_mem_set hv with hmem | rfl
  · exact hg v hmem
  · exact clamp_mem _

theorem foldl_addClamped_range (upd : List (Nat × α)) (g : List α)
    (hg : ∀ v ∈ g, 0 ≤ v ∧ v ≤ 255) :
    (upd.foldl (fun (g : List α) (p : Nat × α) => addClamped g p.1 p.2) g).length = g.length
      ∧ ∀ v ∈ upd.foldl (fun (g : List α) (p : Nat × α) => addClamped g p.1 p.2) g,
          0 ≤ v ∧ v ≤ 255 := by
  induction upd generalizing g with
  | nil => exact ⟨rfl, hg⟩
  | cons a rest ih =>
    obtain ⟨i1, i2⟩ := ih (addClamped g a.1 a.2) (addClamped_range g a.1 a.2 hg)
    exact ⟨by rw [List.foldl_cons, i1, addClamped_length], i2⟩

theorem toneBuffer_getD (w h : Nat) (st : Work α) (hst : ToneBuffer w h st) (x y : Nat)
    (hx : x < w) (hy : y < h) :
    0 ≤ st.gray.getD (y * w + x) 0 ∧ st.gray.getD (y * w + x) 0 ≤ 255 := by
  have hidx : y * w + x < st.gray.length := by rw [hst.1]; exact rowMajor_lt hy hx
  rw [List.getD_eq_getElem?_getD, List.getElem?_eq_getElem hidx, Option.getD_some]
  exact hst.2 _ (List.getElem_mem hidx)

/-- The glyph of a level computed by rounding from a tone of `[0, 255]` is one character
of the palette. -/
theorem charAt_round_mem (gradient : List Char) (t : α) (ht0 : 0 ≤ t) (ht1 : t ≤ 255)
    (hn : 1 ≤ gradient.length) :
    ∃ c, charAt gradient (jsRound (t / 255 * ((gradient.length : α) - 1))) = [c]
      ∧ (c ∈ gradient ∨ c = ' ') := by
  obtain ⟨hl0, hl1⟩ := jsRound_level_bounds t gradient.length ht0 ht1 hn
  obtain ⟨c, hc1, hc2⟩ := charAt_of_lt gradient _ hl0 hl1
  exact ⟨c, hc2, Or.inl (List.getElem?_mem hc1)⟩

theorem plainCell_line (gradient : List Char) (iw : Bool) (orig : List α) (w h : Nat)
    (hn : 1 ≤ gradient.length) (s : Work α) (x y : Nat) (hx : x < w) (hy : y < h)
    (hs : ToneBuffer w h s) :
    ToneBuffer w h (plainCell gradient iw orig w s x y).2
      ∧ ∃ c, (plainCell gradient iw orig w s x y).1 = [c] ∧ (c ∈ gradient ∨ c = ' ') := by
  refine ⟨by rw [plainCell_state]; exact hs, ?_⟩
  obtain ⟨t0, t1⟩ := toneBuffer_getD w h s hs x y hx hy
  simp only [plainCell]
  split_ifs
  · exact ⟨' ', rfl, Or.inr rfl⟩
  · exact charAt_round_mem gradient _ t0 t1 hn

theorem floydCell_line (gradient : List Char) (iw : Bool) (orig : List α) (w h : Nat)
    (hn : 1 ≤ gradient.length) (s : Work α) (x y : Nat) (hx : x < w) (hy : y < h)
    (hs : ToneBuffer w h s) :
    ToneBuffer w h (floydCell gradient iw orig w h s x y).2
      ∧ ∃ c, (floydCell gradient iw orig w h s x y).1 = [c] ∧ (c ∈ gradient ∨ c = ' ') := by
  obtain ⟨t0, t1⟩ := toneBuffer_getD w h s hs x y hx hy
  cases hq : (iw && decide (orig.getD (y * w + x) 0 = 255)) with
  | true =>
    have : floydCell gradient iw orig w h s x y = ([' '], s) := by
      simp only [floydCell]; rw [if_pos hq]
    rw [this]
    exact ⟨hs, ' ', rfl, Or.inr rfl⟩
  | false =>
    rw [floydCell_eq gradient iw orig w h s x y hq]
    obtain ⟨r1, r2⟩ := foldl_addClamped_range
      (floydTargets w h x y (quantError gradient.length (s.gray.getD (y * w + x) 0)))
      s.gray hs.2
    exact ⟨⟨by rw [r1]; exact hs.1, r2⟩, charAt_round_mem gradient _ t0 t1 hn⟩

theorem atkinsonCell_line (gradient : List Char) (iw : Bool) (orig : List α) (w h : Nat)
    (hn : 1 ≤ gradient.length) (s : Work α) (x y : Nat) (hx : x < w) (hy : y < h)
    (hs : ToneBuffer w h s) :
    ToneBuffer w h (atkinsonCell gradient iw orig w h s x y).2
      ∧ ∃ c, (atkinsonCell gradient iw orig w h s x y).1 = [c]
          ∧ (c ∈ gradient ∨ c = ' ') := by
  obtain ⟨t0, t1⟩ := toneBuffer_getD w h s hs x y hx hy
  cases hq : (iw && decide (orig.getD (y * w + x) 0 = 255)) with
  | true =>
    have : atkinsonCell gradient iw orig w h s x y = ([' '], s) := by
      simp only [atkinsonCell]; rw [if_pos hq]
    rw [this]
    exact ⟨hs, ' ', rfl, Or.inr rfl⟩
  | false =>
    rw [atkinsonCell_eq gradient iw orig w h s x y hq]
    obtain ⟨r1, r2⟩ := foldl_addClamped_range
      (atkinsonTargets w h x y (quantError gradient.length (s.gray.getD (y * w + x) 0) / 8))
      s.gray hs.2
    exact ⟨⟨by rw [r1]; exact hs.1, r2⟩, charAt_round_mem gradient _ t0 t1 hn⟩

theorem noiseCell_line (random : Nat → α) (gradient : List Char) (iw : Bool)
    (orig : List α) (w h : Nat) (hn : 1 ≤ gradient.length) (s : Work α) (x y : Nat)
    (hs : ToneBuffer w h s) :
    ToneBuffer w h (noiseCell random gradient iw orig w s x y).2
      ∧ ∃ c, (noiseCell random gradient iw orig w s x y).1 = [c]
          ∧ (c ∈ gradient ∨ c = ' ') := by
  simp only [noiseCell]
  split_ifs
  · exact ⟨hs, ' ', rfl, Or.inr rfl⟩
  · exact ⟨hs, charAt_round_mem gradient _ (clamp_mem _).1 (clamp_mem _).2 hn⟩

theorem orderedCell_line (gradient : List Char) (iw : Bool) (orig : List α) (w h : Nat)
    (hn : 1 ≤ gradient.length) (s : Work α) (x y : Nat) (hs : ToneBuffer w h s) :
    ToneBuffer w h (orderedCell gradient iw orig w s x y).2
      ∧ ∃ c, (orderedCell gradient iw orig w s x y).1 = [c]
          ∧ (c ∈ gradient ∨ c = ' ') := by
  rw [orderedCell_eq]
  refine ⟨hs, ?_⟩
  simp only
  split_ifs
  · exact ⟨' ', rfl, Or.inr rfl⟩
  · obtain ⟨hb0, hb1⟩ := orderedLevelSpec_bounds gradient.length
      (s.gray.getD (y * w + x) 0) x y hn
    obtain ⟨c, hc1, hc2⟩ := charAt_of_lt gradient _ hb0 hb1
    exact ⟨c, hc2, Or.inl (List.getElem?_mem hc1)⟩

end BufferTheorems

section ShapeTheorems

variable {α : Type} [LinearOrderedField α] [FloorRing α]

/-- The edge buffer of the sobel branch is a tone buffer: it has one cell per character
and holds only 0 and 255. -/
theorem applyEdgeDetection_toneBuffer (sqrt : α → α) (gray : List α) (w h : Nat) (thr : α) :
    ToneBuffer w h ⟨applyEdgeDetection sqrt gray w h thr, 0⟩ := by
  obtain ⟨hlen, hcells⟩ := applyEdgeDetection_cells sqrt gray w h thr
  refine ⟨hlen, ?_⟩
  intro v hv
  obtain ⟨k, hk, rfl⟩ := List.getElem_of_mem hv
  have hk2 : k < w * h := by rw [← hlen]; exact hk
  obtain ⟨y, x, hy, hx, rfl⟩ := rowMajor_decomp hk2
  have e := hcells y x hy hx
  rw [List.getElem?_eq_getElem hk] at e
  have e2 := Option.some.inj e
  simp only at e2 ⊢
  rw [e2]
  split_ifs <;> norm_num

theorem pathStart_toneBuffer (sqrt : α → α) (cfg : RenderConfig α) (w h : Nat)
    (gray : List α) (hlen : gray.length = w * h) (hrange : ∀ v ∈ gray, 0 ≤ v ∧ v ≤ 255) :
    ToneBuffer w h (pathStart sqrt cfg w h gray) := by
  simp only [pathStart]
  split_ifs
  · exact applyEdgeDetection_toneBuffer sqrt gray w h cfg.edgeThreshold
  · exact ⟨hlen, hrange⟩

theorem pathCell_line (random : Nat → α) (cfg : RenderConfig α) (iw : Bool)
    (orig : List α) (w h : Nat) (hn : 1 ≤ cfg.gradient.length)
    (hpath : cfg.sobel = true ∨ cfg.ditheringEnabled = false
      ∨ cfg.ditherAlgorithm ≠ DitherAlgorithm.other)
    (s : Work α) (x y : Nat) (hx : x < w) (hy : y < h) (hs : ToneBuffer w h s) :
    ToneBuffer w h (pathCell random cfg iw orig w h s x y).2
      ∧ ∃ c, (pathCell random cfg iw orig w h s x y).1 = [c]
          ∧ (c ∈ cfg.gradient ∨ c = ' ') := by
  obtain ⟨gradient, iw0, sobel, thr, de, alg⟩ := cfg
  simp only at hpath hn ⊢
  cases sobel with
  | true =>
    simp only [pathCell, if_true]
    exact plainCell_line gradient iw orig w h hn s x y hx hy hs
  | false =>
    cases de with
    | false =>
      simp only [pathCell, Bool.false_eq_true, if_false]
      exact plainCell_line gradient iw orig w h hn s x y hx hy hs
    | true =>
      cases alg with
      | floyd =>
        simp only [pathCell, Bool.false_eq_true, if_false, if_true]
        exact floydCell_line gradient iw orig w h hn s x y hx hy hs
      | atkinson =>
        simp only [pathCell, Bool.false_eq_true, if_false, if_true]
        exact atkinsonCell_line gradient iw orig w h hn s x y hx hy hs
      | noise =>
        simp only [pathCell, Bool.false_eq_true, if_false, if_true]
        exact noiseCell_line random gradient iw orig w h hn s x y hs
      | ordered =>
        simp only [pathCell, Bool.false_eq_true, if_false, if_true]
        exact orderedCell_line gradient iw orig w h hn s x y hs
      | other => simp at hpath

theorem selectGradient_length (charset : String) (manualCharInput : List Char) :
    1 ≤ (selectGradient charset manualCharInput).length := by
  simp only [selectGradient]
  split_ifs <;> simp

theorem contourCells_lines (suppressedMag angle : List (List α)) (w h : Nat) (thr : α) :
    ∃ lines : List (List Char), lines.length = h
      ∧ (∀ l ∈ lines, l.length = w ∧ ∀ c ∈ l, c ∈ ['-', '/', '|', Char.ofNat 92, ' '])
      ∧ asciiText (contourCells suppressedMag angle w h thr)
          = (lines.map fun (l : List Char) => l ++ [Char.ofNat 10]).flatten := by
  apply asciiText_lines (fun c => c ∈ ['-', '/', '|', Char.ofNat 92, ' '])
  · simp [contourCells]
  · intro row hrow
    simp only [contourCells, List.mem_map, List.mem_range] at hrow
    obtain ⟨y, _, rfl⟩ := hrow
    simp
  · intro row hrow piece hpiece
    simp only [contourCells, List.mem_map, List.mem_range] at hrow
    obtain ⟨y, _, rfl⟩ := hrow
    simp only [List.mem_map, List.mem_range] at hpiece
    obtain ⟨x, _, rfl⟩ := hpiece
    split_ifs
    · exact ⟨_, rfl, edgeChar_mem _⟩
    · exact ⟨' ', rfl, by simp⟩

/-- With no row in the tone grid, `generateContourASCII` stores no text: the first
convolution throws. -/
theorem generateContourASCII_no_rows (exp sqrt : α → α) (atan2 : α → α → α) (pi : α)
    (w : Nat) (thr : α) :
    generateContourASCII exp sqrt atan2 pi ([] : List (List α)) w 0 thr = none := by
  simp [generateContourASCII, generateContourASCIICells, differenceOfGaussians2D, convolve2D]

end ShapeTheorems

section ShapeClaim

variable {α : Type} [LinearOrderedField α] [FloorRing α]

/-- Claim C19.  For every width and height, every tone buffer of `w * h` values in
`[0, 255]`, every palette chosen by `selectGradient` and every sequence of random draws,
the text of `generateASCII` in the plain, Floyd-Steinberg, Atkinson, noise, ordered and
sobel modes is `h` lines of exactly `w` characters, each a palette character or a space,
every line closed by a line feed.  In `dog` mode the same holds of the text of
`generateContourASCII`, with the five contour glyphs, when the tone grid has at least one
row. -/
theorem text_lines_shape (exp sqrt : α → α) (atan2 : α → α → α) (pi : α) (random : Nat → α)
    (cfg : RenderConfig α) (charset : String) (manualCharInput : List Char) (w h : Nat)
    (gray : List α) (gray2d : List (List α)) (thr : α)
    (hpal : cfg.gradient = selectGradient charset manualCharInput)
    (hpath : cfg.sobel = true ∨ cfg.ditheringEnabled = false
      ∨ cfg.ditherAlgorithm ≠ DitherAlgorithm.other)
    (hlen : gray.length = w * h) (hrange : ∀ v ∈ gray, 0 ≤ v ∧ v ≤ 255)
    (hgrid : IsGrid gray2d h w) :
    (∃ lines : List (List Char), lines.length = h
        ∧ (∀ l ∈ lines, l.length = w ∧ ∀ c ∈ l, c ∈ cfg.gradient ∨ c = ' ')
        ∧ generateASCII sqrt random cfg w h gray
            = (lines.map fun (l : List Char) => l ++ [Char.ofNat 10]).flatten)
      ∧ (0 < h → ∃ lines : List (List Char), lines.length = h
          ∧ (∀ l ∈ lines, l.length = w
              ∧ ∀ c ∈ l, c ∈ ['-', '/', '|', Char.ofNat 92, ' '])
          ∧ generateContourASCII exp sqrt atan2 pi gray2d w h thr
              = some ((lines.map fun (l : List Char) => l ++ [Char.ofNat 10]).flatten)) := by
  have hn : 1 ≤ cfg.gradient.length := by
    rw [hpal]; exact selectGradient_length charset manualCharInput
  constructor
  · simp only [generateASCII]
    rw [generateASCIICells_eq_scan sqrt random cfg w h gray hpath]
    exact scan_lines (ToneBuffer w h) (fun c => c ∈ cfg.gradient ∨ c = ' ')
      (pathCell random cfg cfg.ignoreWhite gray w h) w h (pathStart sqrt cfg w h gray)
      (fun s x y hx hy hs =>
        (pathCell_line random cfg cfg.ignoreWhite gray w h hn hpath s x y hx hy hs).1)
      (fun s x y hx hy hs =>
        (pathCell_line random cfg cfg.ignoreWhite gray w h hn hpath s x y hx hy hs).2)
      (pathStart_toneBuffer sqrt cfg w h gray hlen hrange)
  · intro hh
    obtain ⟨b1, b2, _, _, hdog⟩ :=
      differenceOfGaussians2D_eq exp gray2d (0.5 : α) (1.0 : α) 3 h w hgrid hh
    simp only [generateContourASCII, generateContourASCIICells, hdog, Option.map_some']
    obtain ⟨lines, l1, l2, l3⟩ := contourCells_lines
      (nonMaxSuppression
        (applySobel2D sqrt atan2 pi ((List.range h).map fun (y : Nat) =>
          (List.range w).map fun (x : Nat) => cell b1 y x - cell b2 y x) w h).1
        (applySobel2D sqrt atan2 pi ((List.range h).map fun (y : Nat) =>
          (List.range w).map fun (x : Nat) => cell b1 y x - cell b2 y x) w h).2 w h)
      (applySobel2D sqrt atan2 pi ((List.range h).map fun (y : Nat) =>
          (List.range w).map fun (x : Nat) => cell b1 y x - cell b2 y x) w h).2 w h thr
    exact ⟨lines, l1, l2, by rw [l3]⟩

/-- The claim at a Floyd-Steinberg rendering of the 2 x 1 buffer `[100, 200]` with the
binary palette, and at the contour rendering of the same tones. -/
theorem text_lines_shape_witness :
    (∃ lines : List (List Char), lines.length = 1
        ∧ (∀ l ∈ lines, l.length = 2 ∧ ∀ c ∈ l,
            c ∈ (⟨selectGradient "binary" [], false, false, 0, true,
              DitherAlgorithm.floyd⟩ : RenderConfig ℚ).gradient ∨ c = ' ')
        ∧ generateASCII (fun (v : ℚ) => v) (fun _ => 0)
            ⟨selectGradient "binary" [], false, false, 0, true, DitherAlgorithm.floyd⟩
            2 1 [100, 200]
            = (lines.map fun (l : List Char) => l ++ [Char.ofNat 10]).flatten)
      ∧ ∃ lines : List (List Char), lines.length = 1
          ∧ (∀ l ∈ lines, l.length = 2
              ∧ ∀ c ∈ l, c ∈ ['-', '/', '|', Char.ofNat 92, ' '])
          ∧ generateContourASCII (fun (_ : ℚ) => 1) (fun (v : ℚ) => v) (fun _ _ => 0) 3
              [[100, 200]] 2 1 0
              = some ((lines.map fun (l : List Char) => l ++ [Char.ofNat 10]).flatten) :=
  ⟨(text_lines_shape (fun (_ : ℚ) => 1) (fun (v : ℚ) => v) (fun _ _ => 0) 3 (fun _ => 0)
      ⟨selectGradient "binary" [], false, false, 0, true, DitherAlgorithm.floyd⟩
      "binary" [] 2 1 [100, 200] [[100, 200]] 0 rfl (by simp) rfl
      (by intro v hv; simp at hv; rcases hv with rfl | rfl <;> norm_num)
      (by simp [IsGrid])).1,
   (text_lines_shape (fun (_ : ℚ) => 1) (fun (v : ℚ) => v) (fun _ _ => 0) 3 (fun _ => 0)
      ⟨selectGradient "binary" [], false, false, 0, true, DitherAlgorithm.floyd⟩
      "binary" [] 2 1 [100, 200] [[100, 200]] 0 rfl (by simp) rfl
      (by intro v hv; simp at hv; rcases hv with rfl | rfl <;> norm_num)
      (by simp [IsGrid])).2 (by decide)⟩

/-- The failing input of claim C19: for the width 1 and the height 0 the tone grid has no
row; the modes of `generateASCII` produce the empty text, zero lines, but in `dog` mode
`generateContourASCII` stores no text at all, because `convolve2D` reads `img[0]` of the
empty grid. -/
theorem contour_text_missing_at_height_zero :
    IsGrid ([] : List (List ℚ)) 0 1
      ∧ generateASCII (fun (v : ℚ) => v) (fun _ => 0)
          ⟨['A', 'B'], false, false, 0, false, DitherAlgorithm.floyd⟩ 1 0 [] = []
      ∧ generateASCII (fun (v : ℚ) => v) (fun _ => 0)
          ⟨['A', 'B'], false, true, 0, false, DitherAlgorithm.floyd⟩ 1 0 [] = []
      ∧ generateASCII (fun (v : ℚ) => v) (fun _ => 0)
          ⟨['A', 'B'], false, false, 0, true, DitherAlgorithm.floyd⟩ 1 0 [] = []
      ∧ generateASCII (fun (v : ℚ) => v) (fun _ => 0)
          ⟨['A', 'B'], false, false, 0, true, DitherAlgorithm.atkinson⟩ 1 0 [] = []
      ∧ generateASCII (fun (v : ℚ) => v) (fun _ => 0)
          ⟨['A', 'B'], false, false, 0, true, DitherAlgorithm.noise⟩ 1 0 [] = []
      ∧ generateASCII (fun (v : ℚ) => v) (fun _ => 0)
          ⟨['A', 'B'], false, false, 0, true, DitherAlgorithm.ordered⟩ 1 0 [] = []
      ∧ generateContourASCII (fun (_ : ℚ) => 1) (fun (v : ℚ) => v) (fun _ _ => 0) 3
          ([] : List (List ℚ)) 1 0 0 = none
      ∧ ¬ ∃ lines : List (List Char), lines.length = 0
          ∧ generateContourASCII (fun (_ : ℚ) => 1) (fun (v : ℚ) => v) (fun _ _ => 0) 3
              ([] : List (List ℚ)) 1 0 0
              = some ((lines.map fun (l : List Char) => l ++ [Char.ofNat 10]).flatten) := by
  refine ⟨by simp [IsGrid], ?_, ?_, ?_, ?_, ?_, ?_, generateContourASCII_no_rows _ _ _ _ _ _,
    ?_⟩
  · simp [generateASCII, generateASCIICells, scanCells, asciiText]
  · simp [generateASCII, generateASCIICells, scanCells, asciiText]
  · simp [generateASCII, generateASCIICells, scanCells, asciiText]
  · simp [generateASCII, generateASCIICells, scanCells, asciiText]
  · simp [generateASCII, generateASCIICells, scanCells, asciiText]
  · simp [generateASCII, generateASCIICells, scanCells, asciiText]
  · rintro ⟨lines, _, hl⟩
    rw [generateContourASCII_no_rows] at hl
    exact Option.noConfusion hl

end ShapeClaim

section UniformTheorems

/-- The 3 x 3 kernel of `gaussianKernel2D` written out: with `a` the weight of the four
edge cells and `b` the weight of the four corner cells before the division, every cell is
divided by `1 + 4 a + 4 b`. -/
theorem gaussianKernel2D_three (sigma : ℝ) :
    gaussianKernel2D Real.exp sigma 3
      = [[Real.exp (-2 / (2 * sigma ^ 2)), Real.exp (-1 / (2 * sigma ^ 2)),
            Real.exp (-2 / (2 * sigma ^ 2))],
          [Real.exp (-1 / (2 * sigma ^ 2)), 1, Real.exp (-1 / (2 * sigma ^ 2))],
          [Real.exp (-2 / (2 * sigma ^ 2)), Real.exp (-1 / (2 * sigma ^ 2)),
            Real.exp (-2 / (2 * sigma ^ 2))]].map fun (row : List ℝ) =>
          row.map fun (value : ℝ) =>
            value / (1 + 4 * Real.exp (-1 / (2 * sigma ^ 2))
              + 4 * Real.exp (-2 / (2 * sigma ^ 2))) := by
  have h := gaussianKernel2D_eq Real.exp sigma 1
  have h3 : (2 * 1 + 1 : Nat) = 3 := rfl
  rw [h3] at h
  rw [h]
  simp only [List.range_succ, List.range_zero, Finset.sum_range_succ, Finset.sum_range_zero,
    List.nil_append, List.cons_append, List.map_cons, List.map_nil, Nat.cast_zero,
    Nat.cast_one, Nat.cast_ofNat, zero_add]
  norm_num
  have hs : Real.exp (-2 / (2 * sigma ^ 2)) + Real.exp (-1 / (2 * sigma ^ 2))
        + Real.exp (-2 / (2 * sigma ^ 2))
        + (Real.exp (-1 / (2 * sigma ^ 2)) + 1 + Real.exp (-1 / (2 * sigma ^ 2)))
        + (Real.exp (-2 / (2 * sigma ^ 2)) + Real.exp (-1 / (2 * sigma ^ 2))
          + Real.exp (-2 / (2 * sigma ^ 2)))
      = 1 + 4 * Real.exp (-1 / (2 * sigma ^ 2)) + 4 * Real.exp (-2 / (2 * sigma ^ 2)) := by
    ring
  rw [hs]
  trivial

/-- The cells of the 3 x 3 kernel sum to 1. -/
theorem gaussianKernel2D_three_sum (sigma : ℝ) :
    ∑ ky in Finset.range 3, ∑ kx in Finset.range 3,
      cell (gaussianKernel2D Real.exp sigma 3) ky kx = 1 := by
  have hpos : 0 < 1 + 4 * Real.exp (-1 / (2 * sigma ^ 2))
      + 4 * Real.exp (-2 / (2 * sigma ^ 2)) := by
    have h1 := Real.exp_pos (-1 / (2 * sigma ^ 2))
    have h2 := Real.exp_pos (-2 / (2 * sigma ^ 2))
    linarith
  rw [gaussianKernel2D_three]
  simp only [Finset.sum_range_succ, Finset.sum_range_zero, cell, List.map_cons, List.map_nil,
    List.getD_cons_zero, List.getD_cons_succ, zero_add]
  field_simp
  ring

/-- On a grid whose cells all hold `v`, `convolve2D` gives at every cell `v` times the
total of the kernel cells that fall inside the grid. -/
theorem convolve2D_uniform (img kernel : List (List ℝ)) (h w : Nat) (v : ℝ)
    (himg : IsGrid img h w) (hh : 0 < h)
    (huni : ∀ y x : Nat, y < h → x < w → cell img y x = v) :
    convolve2D img kernel = some ((List.range h).map fun (y : Nat) =>
      (List.range w).map fun (x : Nat) =>
        v * ∑ ky in Finset.range kernel.length, ∑ kx in Finset.range kernel.length,
          (if 0 ≤ (y : Int) + (ky : Int) - ((kernel.length / 2 : Nat) : Int)
              ∧ (y : Int) + (ky : Int) - ((kernel.length / 2 : Nat) : Int) < (h : Int)
              ∧ 0 ≤ (x : Int) + (kx : Int) - ((kernel.length / 2 : Nat) : Int)
              ∧ (x : Int) + (kx : Int) - ((kernel.length / 2 : Nat) : Int) < (w : Int)
            then cell kernel ky kx else 0)) := by
  rw [convolve2D_eq img kernel h w himg hh]
  congr 1
  apply List.map_congr_left
  intro y _
  apply List.map_congr_left
  intro x _
  rw [Finset.mul_sum]
  apply Finset.sum_congr rfl
  intro ky _
  rw [Finset.mul_sum]
  apply Finset.sum_congr rfl
  intro kx _
  split_ifs with hc
  · rw [huni _ _ (by omega) (by omega)]
  · simp

end UniformTheorems

section UniformFieldTheorems

theorem gaussianKernel2D_three_length (sigma : ℝ) :
    (gaussianKernel2D Real.exp sigma 3).length = 3 := by
  rw [gaussianKernel2D_three]
  rfl

/-- The field of `differenceOfGaussians2D` with a 3 x 3 kernel on a grid whose cells all
hold `v`: at every cell, `v` times the difference of the totals of the cells of the two
kernels that fall inside the grid. -/
theorem differenceOfGaussians2D_uniform (img : List (List ℝ)) (h w : Nat) (v : ℝ)
    (sigma1 sigma2 : ℝ) (himg : IsGrid img h w) (hh : 0 < h)
    (huni : ∀ y x : Nat, y < h → x < w → cell img y x = v) :
    ∃ dog, differenceOfGaussians2D Real.exp img sigma1 sigma2 3 = some dog
      ∧ IsGrid dog h w
      ∧ ∀ y x : Nat, y < h → x < w →
          cell dog y x
            = v * (∑ ky in Finset.range 3, ∑ kx in Finset.range 3,
                (if 0 ≤ (y : Int) + (ky : Int) - 1 ∧ (y : Int) + (ky : Int) - 1 < (h : Int)
                    ∧ 0 ≤ (x : Int) + (kx : Int) - 1 ∧ (x : Int) + (kx : Int) - 1 < (w : Int)
                  then cell (gaussianKernel2D Real.exp sigma1 3) ky kx else 0))
              - v * (∑ ky in Finset.range 3, ∑ kx in Finset.range 3,
                (if 0 ≤ (y : Int) + (ky : Int) - 1 ∧ (y : Int) + (ky : Int) - 1 < (h : Int)
                    ∧ 0 ≤ (x : Int) + (kx : Int) - 1 ∧ (x : Int) + (kx : Int) - 1 < (w : Int)
                  then cell (gaussianKernel2D Real.exp sigma2 3) ky kx else 0)) := by
  obtain ⟨b1, b2, e1, e2, hdog⟩ :=
    differenceOfGaussians2D_eq Real.exp img sigma1 sigma2 3 h w himg hh
  rw [convolve2D_uniform img _ h w v himg hh huni] at e1 e2
  refine ⟨_, hdog, isGrid_map_range _ h w, ?_⟩
  intro y x hy hx
  rw [cell_map_range _ h w y x hy hx, ← Option.some.inj e1, ← Option.some.inj e2,
    cell_map_range _ h w y x hy hx, cell_map_range _ h w y x hy hx]
  simp only [gaussianKernel2D_three_length]
  rfl

/-- Away from the border all nine kernel cells fall inside the grid, both blurred values
are `v` and the field of `differenceOfGaussians2D` is zero. -/
theorem differenceOfGaussians2D_uniform_inner (img : List (List ℝ)) (h w : Nat) (v : ℝ)
    (sigma1 sigma2 : ℝ) (himg : IsGrid img h w) (hh : 0 < h)
    (huni : ∀ y x : Nat, y < h → x < w → cell img y x = v) :
    ∃ dog, differenceOfGaussians2D Real.exp img sigma1 sigma2 3 = some dog
      ∧ IsGrid dog h w
      ∧ ∀ y x : Nat, 1 ≤ y → y + 1 < h → 1 ≤ x → x + 1 < w → cell dog y x = 0 := by
  obtain ⟨dog, hdog, hgrid, hcells⟩ :=
    differenceOfGaussians2D_uniform img h w v sigma1 sigma2 himg hh huni
  refine ⟨dog, hdog, hgrid, ?_⟩
  intro y x hy1 hy2 hx1 hx2
  have hall : ∀ sigma : ℝ, (∑ ky in Finset.range 3, ∑ kx in Finset.range 3,
      (if 0 ≤ (y : Int) + (ky : Int) - 1 ∧ (y : Int) + (ky : Int) - 1 < (h : Int)
          ∧ 0 ≤ (x : Int) + (kx : Int) - 1 ∧ (x : Int) + (kx : Int) - 1 < (w : Int)
        then cell (gaussianKernel2D Real.exp sigma 3) ky kx else 0)) = 1 := by
    intro sigma
    rw [← gaussianKernel2D_three_sum sigma]
    apply Finset.sum_congr rfl
    intro ky hky
    apply Finset.sum_congr rfl
    intro kx hkx
    rw [Finset.mem_range] at hky hkx
    rw [if_pos (by omega)]
  rw [hcells y x (by omega) (by omega), hall sigma1, hall sigma2]
  ring

end UniformFieldTheorems

section SobelSumTheorems

variable {α : Type} [LinearOrderedField α]

/-- The two sums of `applySobel2D` at a cell with a row above and a column to the left,
from the eight neighbours of the cell. -/
theorem sobelSums_eq (img : List (List α)) (y x : Nat) :
    sobelSums img (y + 1) (x + 1)
      = (-cell img y x + cell img y (x + 2) - 2 * cell img (y + 1) x
            + 2 * cell img (y + 1) (x + 2) - cell img (y + 2) x + cell img (y + 2) (x + 2),
          -cell img y x - 2 * cell img y (x + 1) - cell img y (x + 2)
            + cell img (y + 2) x + 2 * cell img (y + 2) (x + 1)
            + cell img (y + 2) (x + 2)) := by
  have t0 : ∀ n : Nat, (((n + 1 : Nat) : Int) + -1).toNat = n := by intro n; omega
  have t1 : ∀ n : Nat, (((n + 1 : Nat) : Int) + 0).toNat = n + 1 := by intro n; omega
  have t2 : ∀ n : Nat, (((n + 1 : Nat) : Int) + 1).toNat = n + 2 := by intro n; omega
  have o : offsets 1 = [-1, 0, 1] := by decide
  have kx : ∀ (i j : Nat), cell (kernelX : List (List α)) i j
      = (([[-1, 0, 1], [-2, 0, 2], [-1, 0, 1]] : List (List α)).getD i []).getD j 0 := by
    intro i j; rfl
  have ky : ∀ (i j : Nat), cell (kernelY : List (List α)) i j
      = (([[-1, -2, -1], [0, 0, 0], [1, 2, 1]] : List (List α)).getD i []).getD j 0 := by
    intro i j; rfl
  have k0 : ((-1 : Int) + 1).toNat = 0 := rfl
  have k1 : ((0 : Int) + 1).toNat = 1 := rfl
  have k2 : ((1 : Int) + 1).toNat = 2 := rfl
  simp only [sobelSums, o, List.foldl_cons, List.foldl_nil, t0, t1, t2, kx, ky, k0, k1, k2,
    List.getD_cons_zero, List.getD_cons_succ]
  norm_num
  constructor <;> ring

end SobelSumTheorems

section FlatTheorems

/-- Where the field handed to `applySobel2D` is zero on the eight neighbours of a cell,
or the cell is on the border, the suppressed magnitude of the cell is zero and, for a
threshold that is not negative, its piece of text is a space. -/
theorem contour_space_of_flat (atan2 : ℝ → ℝ → ℝ) (pi : ℝ) (dog : List (List ℝ))
    (w h : Nat) (thr : ℝ) (hthr : 0 ≤ thr) (y x : Nat) (hy : y < h) (hx : x < w)
    (hflat : 1 ≤ y → y + 1 < h → 1 ≤ x → x + 1 < w →
      ∀ r c : Nat, y ≤ r + 1 → r ≤ y + 1 → x ≤ c + 1 → c ≤ x + 1 → (r, c) ≠ (y, x) →
        cell dog r c = 0) :
    cell (nonMaxSuppression (applySobel2D Real.sqrt atan2 pi dog w h).1
        (applySobel2D Real.sqrt atan2 pi dog w h).2 w h) y x = 0
      ∧ ((contourCells (nonMaxSuppression (applySobel2D Real.sqrt atan2 pi dog w h).1
            (applySobel2D Real.sqrt atan2 pi dog w h).2 w h)
          (applySobel2D Real.sqrt atan2 pi dog w h).2 w h thr)[y]?).bind
            (fun row => row[x]?) = some [' '] := by
  have hzero : cell (nonMaxSuppression (applySobel2D Real.sqrt atan2 pi dog w h).1
      (applySobel2D Real.sqrt atan2 pi dog w h).2 w h) y x = 0 := by
    rw [(nonMaxSuppression_cells _ _ w h).2 y x hy hx]
    split_ifs with hin
    · rcases suppressedAt_zero_or_mag (applySobel2D Real.sqrt atan2 pi dog w h).1
        (applySobel2D Real.sqrt atan2 pi dog w h).2 y x with h0 | hm
      · exact h0
      · rw [hm, ((applySobel2D_cells Real.sqrt atan2 pi dog w h).2.2 y x hy hx).1, if_pos hin]
        obtain ⟨⟨hy1, hy2⟩, hx1, hx2⟩ := hin
        have hf := hflat hy1 hy2 hx1 hx2
        obtain ⟨y0, rfl⟩ : ∃ y0, y = y0 + 1 := ⟨y - 1, by omega⟩
        obtain ⟨x0, rfl⟩ : ∃ x0, x = x0 + 1 := ⟨x - 1, by omega⟩
        rw [sobelSums_eq]
        simp only
        rw [hf y0 x0 (by omega) (by omega) (by omega) (by omega) (by simp),
          hf y0 (x0 + 1) (by omega) (by omega) (by omega) (by omega) (by simp),
          hf y0 (x0 + 2) (by omega) (by omega) (by omega) (by omega) (by simp),
          hf (y0 + 1) x0 (by omega) (by omega) (by omega) (by omega) (by simp),
          hf (y0 + 1) (x0 + 2) (by omega) (by omega) (by omega) (by omega) (by simp),
          hf (y0 + 2) x0 (by omega) (by omega) (by omega) (by omega) (by simp),
          hf (y0 + 2) (x0 + 1) (by omega) (by omega) (by omega) (by omega) (by simp),
          hf (y0 + 2) (x0 + 2) (by omega) (by omega) (by omega) (by omega) (by simp)]
        norm_num
    · rfl
  refine ⟨hzero, ?_⟩
  rw [contourCells_get _ _ w h thr y x hy hx, hzero, if_neg (not_lt.mpr hthr)]

end FlatTheorems

section UniformClaim

/-- Claim C14, as amended.  For a tone grid of `h >= 1` rows of `w` cells that all hold
the same value `v`, and a threshold that is not negative, the contour pipeline
(`differenceOfGaussians2D` with sigma 0.5 and 1.0 and kernelSize 3, `applySobel2D`,
`nonMaxSuppression`, glyph selection) yields a field that is zero at every cell off the
one-cell border; the suppressed magnitude is zero and the piece of text is a space at
every cell of the border and at every cell at least two cells away from the border, and
at every cell without exception when `v = 0`. -/
theorem contour_uniform_buffer (gray2d : List (List ℝ)) (w h : Nat) (v thr : ℝ)
    (hgrid : IsGrid gray2d h w) (hh : 0 < h)
    (huni : ∀ y x : Nat, y < h → x < w → cell gray2d y x = v) (hthr : 0 ≤ thr) :
    ∃ dog cells,
      differenceOfGaussians2D Real.exp gray2d 0.5 1.0 3 = some dog
        ∧ generateContourASCIICells Real.exp Real.sqrt (fun (b a : ℝ) => Complex.arg ⟨a, b⟩)
            Real.pi gray2d w h thr = some cells
        ∧ (∀ y x : Nat, 1 ≤ y → y + 1 < h → 1 ≤ x → x + 1 < w → cell dog y x = 0)
        ∧ (∀ y x : Nat, y < h → x < w →
            ((y = 0 ∨ y + 1 = h ∨ x = 0 ∨ x + 1 = w)
              ∨ (2 ≤ y ∧ y + 2 < h ∧ 2 ≤ x ∧ x + 2 < w) ∨ v = 0) →
            cell (nonMaxSuppression
                (applySobel2D Real.sqrt (fun (b a : ℝ) => Complex.arg ⟨a, b⟩) Real.pi
                  dog w h).1
                (applySobel2D Real.sqrt (fun (b a : ℝ) => Complex.arg ⟨a, b⟩) Real.pi
                  dog w h).2 w h) y x = 0
              ∧ (cells[y]?).bind (fun row => row[x]?) = some [' ']) := by
  obtain ⟨dog, hdog, _, hcells⟩ :=
    differenceOfGaussians2D_uniform gray2d h w v 0.5 1.0 hgrid hh huni
  obtain ⟨dog2, hdog2, _, hinner⟩ :=
    differenceOfGaussians2D_uniform_inner gray2d h w v 0.5 1.0 hgrid hh huni
  have hsame : dog2 = dog := Option.some.inj (hdog2.symm.trans hdog)
  rw [hsame] at hinner
  refine ⟨dog,
    contourCells (nonMaxSuppression
        (applySobel2D Real.sqrt (fun (b a : ℝ) => Complex.arg ⟨a, b⟩) Real.pi dog w h).1
        (applySobel2D Real.sqrt (fun (b a : ℝ) => Complex.arg ⟨a, b⟩) Real.pi dog w h).2 w h)
      (applySobel2D Real.sqrt (fun (b a : ℝ) => Complex.arg ⟨a, b⟩) Real.pi dog w h).2 w h thr,
    hdog, by simp only [generateContourASCIICells, hdog], hinner, ?_⟩
  intro y x hy hx hwhere
  apply contour_space_of_flat _ _ dog w h thr hthr y x hy hx
  intro hy1 hy2 hx1 hx2 r c hr1 hr2 hc1 hc2 _
  rcases hwhere with hb | hdeep | hv
  · omega
  · exact hinner r c (by omega) (by omega) (by omega) (by omega)
  · rw [hcells r c (by omega) (by omega), hv]
    ring

/-- The amended claim at the 5 x 5 grid whose cells all hold 255, with the threshold 0. -/
theorem contour_uniform_buffer_witness :
    ∃ dog cells,
      differenceOfGaussians2D Real.exp
          (List.replicate 5 (List.replicate 5 (255 : ℝ))) 0.5 1.0 3 = some dog
        ∧ generateContourASCIICells Real.exp Real.sqrt (fun (b a : ℝ) => Complex.arg ⟨a, b⟩)
            Real.pi (List.replicate 5 (List.replicate 5 (255 : ℝ))) 5 5 0 = some cells
        ∧ (∀ y x : Nat, 1 ≤ y → y + 1 < 5 → 1 ≤ x → x + 1 < 5 → cell dog y x = 0)
        ∧ (∀ y x : Nat, y < 5 → x < 5 →
            ((y = 0 ∨ y + 1 = 5 ∨ x = 0 ∨ x + 1 = 5)
              ∨ (2 ≤ y ∧ y + 2 < 5 ∧ 2 ≤ x ∧ x + 2 < 5) ∨ (255 : ℝ) = 0) →
            cell (nonMaxSuppression
                (applySobel2D Real.sqrt (fun (b a : ℝ) => Complex.arg ⟨a, b⟩) Real.pi
                  dog 5 5).1
                (applySobel2D Real.sqrt (fun (b a : ℝ) => Complex.arg ⟨a, b⟩) Real.pi
                  dog 5 5).2 5 5) y x = 0
              ∧ (cells[y]?).bind (fun row => row[x]?) = some [' ']) :=
  contour_uniform_buffer (List.replicate 5 (List.replicate 5 (255 : ℝ))) 5 5 255 0
    (by simp [IsGrid]) (by decide)
    (by
      intro y x hy hx
      interval_cases y <;> interval_cases x <;> simp [cell, List.replicate])
    (le_refl 0)

end UniformClaim

section BorderTheorems

/-- The totals of the kernel cells that fall inside a grid of 3 rows of 4 cells: the whole
kernel at the two inner cells, `1 + 2 a + b` of its `1 + 4 a + 4 b` at a corner and
`1 + 3 a + 2 b` at the other border cells. -/
theorem inside_weights_3x4 (sigma : ℝ) (y x : Nat) (hy : y < 3) (hx : x < 4) :
    (∑ ky in Finset.range 3, ∑ kx in Finset.range 3,
      (if 0 ≤ (y : Int) + (ky : Int) - 1 ∧ (y : Int) + (ky : Int) - 1 < ((3 : Nat) : Int)
          ∧ 0 ≤ (x : Int) + (kx : Int) - 1 ∧ (x : Int) + (kx : Int) - 1 < ((4 : Nat) : Int)
        then cell (gaussianKernel2D Real.exp sigma 3) ky kx else 0))
      = (if y = 1 then
          (if x = 0 ∨ x = 3 then
            1 + 3 * Real.exp (-1 / (2 * sigma ^ 2)) + 2 * Real.exp (-2 / (2 * sigma ^ 2))
          else 1 + 4 * Real.exp (-1 / (2 * sigma ^ 2))
            + 4 * Real.exp (-2 / (2 * sigma ^ 2)))
        else
          (if x = 0 ∨ x = 3 then
            1 + 2 * Real.exp (-1 / (2 * sigma ^ 2)) + Real.exp (-2 / (2 * sigma ^ 2))
          else 1 + 3 * Real.exp (-1 / (2 * sigma ^ 2))
            + 2 * Real.exp (-2 / (2 * sigma ^ 2))))
        / (1 + 4 * Real.exp (-1 / (2 * sigma ^ 2))
            + 4 * Real.exp (-2 / (2 * sigma ^ 2))) := by
  rw [gaussianKernel2D_three]
  generalize Real.exp (-1 / (2 * sigma ^ 2)) = a
  generalize Real.exp (-2 / (2 * sigma ^ 2)) = b
  interval_cases y <;> interval_cases x <;>
    simp [Finset.sum_range_succ, cell] <;> ring

end BorderTheorems

section CornerTheorems

/-- At a corner the narrow kernel (sigma 0.5) keeps a larger share of its weight inside
the grid than the wide one (sigma 1.0). -/
theorem corner_weight_gap :
    (1 + 2 * Real.exp (-1 / (2 * (1.0 : ℝ) ^ 2)) + Real.exp (-2 / (2 * (1.0 : ℝ) ^ 2)))
        / (1 + 4 * Real.exp (-1 / (2 * (1.0 : ℝ) ^ 2))
          + 4 * Real.exp (-2 / (2 * (1.0 : ℝ) ^ 2)))
      < (1 + 2 * Real.exp (-1 / (2 * (0.5 : ℝ) ^ 2)) + Real.exp (-2 / (2 * (0.5 : ℝ) ^ 2)))
        / (1 + 4 * Real.exp (-1 / (2 * (0.5 : ℝ) ^ 2))
          + 4 * Real.exp (-2 / (2 * (0.5 : ℝ) ^ 2))) := by
  have hA : Real.exp (-1 / (2 * (0.5 : ℝ) ^ 2)) < Real.exp (-1 / (2 * (1.0 : ℝ) ^ 2)) :=
    Real.exp_lt_exp.mpr (by norm_num)
  have hB : Real.exp (-2 / (2 * (0.5 : ℝ) ^ 2)) < Real.exp (-2 / (2 * (1.0 : ℝ) ^ 2)) :=
    Real.exp_lt_exp.mpr (by norm_num)
  have hAB : Real.exp (-1 / (2 * (1.0 : ℝ) ^ 2)) * Real.exp (-2 / (2 * (0.5 : ℝ) ^ 2))
      < Real.exp (-1 / (2 * (0.5 : ℝ) ^ 2)) * Real.exp (-2 / (2 * (1.0 : ℝ) ^ 2)) := by
    rw [← Real.exp_add, ← Real.exp_add]
    exact Real.exp_lt_exp.mpr (by norm_num)
  have p1 := Real.exp_pos (-1 / (2 * (0.5 : ℝ) ^ 2))
  have p2 := Real.exp_pos (-2 / (2 * (0.5 : ℝ) ^ 2))
  have p3 := Real.exp_pos (-1 / (2 * (1.0 : ℝ) ^ 2))
  have p4 := Real.exp_pos (-2 / (2 * (1.0 : ℝ) ^ 2))
  revert hA hB hAB p1 p2 p3 p4
  generalize Real.exp (-1 / (2 * (0.5 : ℝ) ^ 2)) = a1
  generalize Real.exp (-2 / (2 * (0.5 : ℝ) ^ 2)) = b1
  generalize Real.exp (-1 / (2 * (1.0 : ℝ) ^ 2)) = a2
  generalize Real.exp (-2 / (2 * (1.0 : ℝ) ^ 2)) = b2
  intro hA hB hAB p1 p2 p3 p4
  rw [div_lt_div_iff₀ (by linarith) (by linarith)]
  nlinarith [hA, hB, hAB]

/-- The field of `differenceOfGaussians2D` on the grid of 3 rows of 4 cells that all
hold 255: zero at the two inner cells, one positive value at the four corners and one
value at the six other border cells. -/
theorem uniform_3x4_field :
    ∃ dog C E, differenceOfGaussians2D Real.exp
        ([[255, 255, 255, 255], [255, 255, 255, 255], [255, 255, 255, 255]] : List (List ℝ))
        0.5 1.0 3 = some dog
      ∧ 0 < C
      ∧ cell dog 0 0 = C ∧ cell dog 0 1 = E ∧ cell dog 0 2 = E ∧ cell dog 0 3 = C
      ∧ cell dog 1 0 = E ∧ cell dog 1 1 = 0 ∧ cell dog 1 2 = 0 ∧ cell dog 1 3 = E
      ∧ cell dog 2 0 = C ∧ cell dog 2 1 = E ∧ cell dog 2 2 = E ∧ cell dog 2 3 = C := by
  have hgrid : IsGrid
      ([[255, 255, 255, 255], [255, 255, 255, 255], [255, 255, 255, 255]] : List (List ℝ))
      3 4 := by simp [IsGrid]
  have huni : ∀ y x : Nat, y < 3 → x < 4 → cell
      ([[255, 255, 255, 255], [255, 255, 255, 255], [255, 255, 255, 255]] : List (List ℝ))
      y x = 255 := by
    intro y x hy hx
    interval_cases y <;> interval_cases x <;> simp [cell]
  obtain ⟨dog, hdog, _, hcells⟩ :=
    differenceOfGaussians2D_uniform _ 3 4 255 0.5 1.0 hgrid (by decide) huni
  have hval : ∀ y x : Nat, y < 3 → x < 4 → cell dog y x
      = 255 * ((if y = 1 then
          (if x = 0 ∨ x = 3 then
            1 + 3 * Real.exp (-1 / (2 * (0.5 : ℝ) ^ 2))
              + 2 * Real.exp (-2 / (2 * (0.5 : ℝ) ^ 2))
          else 1 + 4 * Real.exp (-1 / (2 * (0.5 : ℝ) ^ 2))
            + 4 * Real.exp (-2 / (2 * (0.5 : ℝ) ^ 2)))
        else
          (if x = 0 ∨ x = 3 then
            1 + 2 * Real.exp (-1 / (2 * (0.5 : ℝ) ^ 2)) + Real.exp (-2 / (2 * (0.5 : ℝ) ^ 2))
          else 1 + 3 * Real.exp (-1 / (2 * (0.5 : ℝ) ^ 2))
            + 2 * Real.exp (-2 / (2 * (0.5 : ℝ) ^ 2))))
        / (1 + 4 * Real.exp (-1 / (2 * (0.5 : ℝ) ^ 2))
            + 4 * Real.exp (-2 / (2 * (0.5 : ℝ) ^ 2))))
      - 255 * ((if y = 1 then
          (if x = 0 ∨ x = 3 then
            1 + 3 * Real.exp (-1 / (2 * (1.0 : ℝ) ^ 2))
              + 2 * Real.exp (-2 / (2 * (1.0 : ℝ) ^ 2))
          else 1 + 4 * Real.exp (-1 / (2 * (1.0 : ℝ) ^ 2))
            + 4 * Real.exp (-2 / (2 * (1.0 : ℝ) ^ 2)))
        else
          (if x = 0 ∨ x = 3 then
            1 + 2 * Real.exp (-1 / (2 * (1.0 : ℝ) ^ 2)) + Real.exp (-2 / (2 * (1.0 : ℝ) ^ 2))
          else 1 + 3 * Real.exp (-1 / (2 * (1.0 : ℝ) ^ 2))
            + 2 * Real.exp (-2 / (2 * (1.0 : ℝ) ^ 2))))
        / (1 + 4 * Real.exp (-1 / (2 * (1.0 : ℝ) ^ 2))
            + 4 * Real.exp (-2 / (2 * (1.0 : ℝ) ^ 2)))) := by
    intro y x hy hx
    rw [hcells y x hy hx, inside_weights_3x4 0.5 y x hy hx, inside_weights_3x4 1.0 y x hy hx]
  obtain ⟨dog2, hdog2, _, hinner⟩ :=
    differenceOfGaussians2D_uniform_inner _ 3 4 255 0.5 1.0 hgrid (by decide) huni
  have hsame : dog2 = dog := Option.some.inj (hdog2.symm.trans hdog)
  rw [hsame] at hinner
  have h00 := hval 0 0 (by decide) (by decide)
  have h01 := hval 0 1 (by decide) (by decide)
  have h02 := hval 0 2 (by decide) (by decide)
  have h03 := hval 0 3 (by decide) (by decide)
  have h10 := hval 1 0 (by decide) (by decide)
  have h13 := hval 1 3 (by decide) (by decide)
  have h20 := hval 2 0 (by decide) (by decide)
  have h21 := hval 2 1 (by decide) (by decide)
  have h22 := hval 2 2 (by decide) (by decide)
  have h23 := hval 2 3 (by decide) (by decide)
  have hgap := corner_weight_gap
  norm_num at h00 h01 h02 h03 h10 h13 h20 h21 h22 h23 hgap
  refine ⟨dog, cell dog 0 0, cell dog 0 1, hdog, ?_, rfl, rfl, ?_, ?_, ?_, ?_, ?_, ?_, ?_, ?_,
    ?_, ?_⟩
  · rw [h00]
    linarith
  · rw [h02, h01]
  · rw [h03, h00]
  · rw [h10, h01]
  · exact hinner 1 1 (by decide) (by decide) (by decide) (by decide)
  · exact hinner 1 2 (by decide) (by decide) (by decide) (by decide)
  · rw [h13, h01]
  · rw [h20, h00]
  · rw [h21, h01]
  · rw [h22, h01]
  · rw [h23, h00]

end CornerTheorems

section UniformCounterexample

/-- Counterexample to claim C14 as stated: on the grid of 3 rows of 4 cells that all hold
255, with the threshold 0, the field of `differenceOfGaussians2D` is positive at the
corner `(0, 0)`, where the two kernels lose different shares of their weight to the zero
padding; the Sobel sums at the cell `(1, 1)` are `Gx = -2 C` and `Gy = 0` for that corner
value `C`, its angle is 180, its magnitude `2 C` is kept by `nonMaxSuppression`, and the
text of the cell is `|`, not a space. -/
theorem contour_uniform_border_glyph :
    ∃ dog cells,
      differenceOfGaussians2D Real.exp
          ([[255, 255, 255, 255], [255, 255, 255, 255], [255, 255, 255, 255]] : List (List ℝ))
          0.5 1.0 3 = some dog
        ∧ generateContourASCIICells Real.exp Real.sqrt (fun (b a : ℝ) => Complex.arg ⟨a, b⟩)
            Real.pi [[255, 255, 255, 255], [255, 255, 255, 255], [255, 255, 255, 255]]
            4 3 0 = some cells
        ∧ 0 < cell dog 0 0
        ∧ 0 < cell (nonMaxSuppression
            (applySobel2D Real.sqrt (fun (b a : ℝ) => Complex.arg ⟨a, b⟩) Real.pi dog 4 3).1
            (applySobel2D Real.sqrt (fun (b a : ℝ) => Complex.arg ⟨a, b⟩) Real.pi dog 4 3).2
            4 3) 1 1
        ∧ (cells[1]?).bind (fun row => row[1]?) = some ['|'] := by
  obtain ⟨dog, C, E, hdog, hC, c00, c01, c02, c03, c10, c11, c12, c13, c20, c21, c22, c23⟩ :=
    uniform_3x4_field
  obtain ⟨_, _, hs⟩ := applySobel2D_cells Real.sqrt (fun (b a : ℝ) => Complex.arg ⟨a, b⟩)
    Real.pi dog 4 3
  generalize hmag : (applySobel2D Real.sqrt (fun (b a : ℝ) => Complex.arg ⟨a, b⟩)
    Real.pi dog 4 3).1 = mag at hs
  generalize hang : (applySobel2D Real.sqrt (fun (b a : ℝ) => Complex.arg ⟨a, b⟩)
    Real.pi dog 4 3).2 = angle at hs
  have s11 : sobelSums dog 1 1 = (-(2 * C), 0) := by
    have e := sobelSums_eq dog 0 0
    norm_num at e
    rw [e, c00, c01, c02, c10, c12, c20, c21, c22]
    ext <;> simp <;> ring
  have s12 : sobelSums dog 1 2 = (2 * C, 0) := by
    have e := sobelSums_eq dog 0 1
    norm_num at e
    rw [e, c01, c02, c03, c11, c13, c21, c22, c23]
    ext <;> simp <;> ring
  have hsq1 : Real.sqrt (-(2 * C) * -(2 * C) + 0 * 0) = 2 * C := by
    rw [show -(2 * C) * -(2 * C) + 0 * 0 = (2 * C) ^ 2 by ring]
    exact Real.sqrt_sq (by linarith)
  have hsq2 : Real.sqrt (2 * C * (2 * C) + 0 * 0) = 2 * C := by
    rw [show 2 * C * (2 * C) + 0 * 0 = (2 * C) ^ 2 by ring]
    exact Real.sqrt_sq (by linarith)
  have m11 : cell mag 1 1 = 2 * C := by
    rw [(hs 1 1 (by decide) (by decide)).1, if_pos (by decide), s11]
    exact hsq1
  have m12 : cell mag 1 2 = 2 * C := by
    rw [(hs 1 2 (by decide) (by decide)).1, if_pos (by decide), s12]
    exact hsq2
  have m10 : cell mag 1 0 = 0 := by
    rw [(hs 1 0 (by decide) (by decide)).1, if_neg (by decide)]
  have a11 : cell angle 1 1 = 180 := by
    rw [(hs 1 1 (by decide) (by decide)).2, if_pos (by decide), s11]
    exact (foldedAngle_real_range (-(2 * C)) 0).2.2.mpr ⟨rfl, by linarith⟩
  have hsup : suppressedAt mag angle 1 1 = 2 * C := by
    have e0 : (1 : Nat) - 1 = 0 := rfl
    have e2 : (1 : Nat) + 1 = 2 := rfl
    simp only [suppressedAt, e0, e2, a11, m11, m10, m12]
    rw [if_pos (Or.inr ⟨by norm_num, le_refl _⟩)]
    simp only
    rw [if_pos ⟨by linarith, le_refl _⟩]
  have hcell : cell (nonMaxSuppression mag angle 4 3) 1 1 = 2 * C := by
    rw [(nonMaxSuppression_cells mag angle 4 3).2 1 1 (by decide) (by decide),
      if_pos (by decide), hsup]
  refine ⟨dog, contourCells (nonMaxSuppression mag angle 4 3) angle 4 3 0, hdog,
    by simp only [generateContourASCIICells, hdog, hmag, hang], by rw [c00]; exact hC,
    by rw [hmag, hang, hcell]; linarith, ?_⟩
  rw [contourCells_get _ _ 4 3 0 1 1 (by decide) (by decide), hcell,
    if_pos (by linarith : (2 * C > 0)), a11,
    jsRem_shifted_angle 180 (by norm_num) (le_refl _)]
  norm_num [edgeChar]

end UniformCounterexample

section ErrorBoundTheorems

variable {α : Type} [LinearOrderedField α] [FloorRing α]

/-- The quantisation error of a tone is at most half a quantisation step. -/
theorem quantError_abs_le (n : Nat) (t : α) (hn : 2 ≤ n) :
    |quantError n t| ≤ 255 / (2 * ((n : α) - 1)) := by
  have hn2 : (2 : α) ≤ (n : α) := by exact_mod_cast hn
  have hm : (0 : α) < (n : α) - 1 := by linarith
  have h1 := Int.floor_le (t / 255 * ((n : α) - 1) + 0.5)
  have h2 := Int.lt_floor_add_one (t / 255 * ((n : α) - 1) + 0.5)
  have he : quantError n t
      = (t / 255 * ((n : α) - 1) - ((jsRound (t / 255 * ((n : α) - 1)) : Int) : α))
          * (255 / ((n : α) - 1)) := by
    simp only [quantError]
    field_simp
    ring
  have hc : (0 : α) < 255 / ((n : α) - 1) := div_pos (by norm_num) hm
  have hhalf : (255 : α) / (2 * ((n : α) - 1)) = 255 / ((n : α) - 1) / 2 := by
    field_simp
    ring
  rw [he, hhalf, jsRound]
  generalize 255 / ((n : α) - 1) = c at hc
  generalize t / 255 * ((n : α) - 1) = u at h1 h2
  generalize ((⌊u + 0.5⌋ : Int) : α) = l at h1 h2
  have h3 : -(1 / 2) ≤ u - l := by norm_num at h1 ⊢; linarith
  have h4 : u - l ≤ 1 / 2 := by norm_num at h2 ⊢; linarith
  rw [abs_le]
  constructor
  · nlinarith
  · nlinarith

/-- The quantisation error is zero at the two ends of the tone range. -/
theorem quantError_ends (n : Nat) (t : α) (hn : 2 ≤ n) (ht : t = 0 ∨ t = 255) :
    quantError n t = 0 := by
  have hn2 : (2 : α) ≤ (n : α) := by exact_mod_cast hn
  have hm : (0 : α) < (n : α) - 1 := by linarith
  rcases ht with rfl | rfl
  · have hr : jsRound (0 : α) = 0 := by
      rw [jsRound_eq_iff]; norm_num
    simp [quantError, hr]
  · have hr : jsRound ((255 : α) / 255 * ((n : α) - 1)) = (n : Int) - 1 := by
      rw [jsRound_eq_iff]
      push_cast
      constructor <;> norm_num
    simp only [quantError, hr]
    push_cast
    field_simp

end ErrorBoundTheorems

section ErrorBoundClaim

variable {α : Type} [LinearOrderedField α] [FloorRing α]

/-- Claim C27.  At a cell of tone `t` in `[0, 255]` that is not skipped, with a palette
of `nLevels >= 2` characters, the Floyd-Steinberg step and the Atkinson step spread the
error `e = t - round(t / 255 * (nLevels - 1)) / (nLevels - 1) * 255` (the Atkinson step in
eighths); this error satisfies `|e| <= 255 / (2 * (nLevels - 1))`, and `e = 0` when `t`
is 0 or 255. -/
theorem diffusion_error_bound (gradient : List Char) (iw : Bool) (orig : List α)
    (w h : Nat) (st : Work α) (x y : Nat) (hn : 2 ≤ gradient.length)
    (_ht0 : 0 ≤ st.gray.getD (y * w + x) 0) (_ht1 : st.gray.getD (y * w + x) 0 ≤ 255)
    (hq : (iw && decide (orig.getD (y * w + x) 0 = 255)) = false) :
    (floydCell gradient iw orig w h st x y).2.gray
        = (floydTargets w h x y
            (quantError gradient.length (st.gray.getD (y * w + x) 0))).foldl
            (fun (g : List α) (p : Nat × α) => addClamped g p.1 p.2) st.gray
      ∧ (atkinsonCell gradient iw orig w h st x y).2.gray
        = (atkinsonTargets w h x y
            (quantError gradient.length (st.gray.getD (y * w + x) 0) / 8)).foldl
            (fun (g : List α) (p : Nat × α) => addClamped g p.1 p.2) st.gray
      ∧ quantError gradient.length (st.gray.getD (y * w + x) 0)
        = st.gray.getD (y * w + x) 0
          - ((jsRound (st.gray.getD (y * w + x) 0 / 255 * ((gradient.length : α) - 1)) : Int) : α)
              / ((gradient.length : α) - 1) * 255
      ∧ |quantError gradient.length (st.gray.getD (y * w + x) 0)|
        ≤ 255 / (2 * ((gradient.length : α) - 1))
      ∧ (st.gray.getD (y * w + x) 0 = 0 ∨ st.gray.getD (y * w + x) 0 = 255 →
          quantError gradient.length (st.gray.getD (y * w + x) 0) = 0) := by
  refine ⟨?_, ?_, rfl, quantError_abs_le _ _ hn, quantError_ends _ _ hn⟩
  · rw [floydCell_eq gradient iw orig w h st x y hq]
  · rw [atkinsonCell_eq gradient iw orig w h st x y hq]

/-- The claim at the first cell of the buffer `[100, 200]` with the palette `AB`: the
error is within `255 / 2`. -/
theorem diffusion_error_bound_witness :
    |quantError (['A', 'B'] : List Char).length
        ((⟨[100, 200], 0⟩ : Work ℚ).gray.getD (0 * 2 + 0) 0)|
      ≤ 255 / (2 * (((['A', 'B'] : List Char).length : ℚ) - 1)) :=
  (diffusion_error_bound ['A', 'B'] false [100, 200] 2 1 (⟨[100, 200], 0⟩ : Work ℚ) 0 0
    (by decide) (by simp) (by simp; norm_num) rfl).2.2.2.1

end ErrorBoundClaim

section KernelShapeTheorems

variable {α : Type} [LinearOrderedField α]

/-- The kernel of `gaussianKernel2D` for any `kernelSize`: a table of side
`2 * (kernelSize / 2) + 1` of Gaussian weights, of which the cells in the first
`kernelSize` rows and columns are divided by the total of all the weights. -/
theorem gaussianKernel2D_table (exp : α → α) (sigma : α) (kernelSize : Nat) :
    gaussianKernel2D exp sigma kernelSize
      = (List.range (2 * (kernelSize / 2) + 1)).map fun (i : Nat) =>
          (List.range (2 * (kernelSize / 2) + 1)).map fun (j : Nat) =>
            if i < kernelSize ∧ j < kernelSize then
              exp (-(((j : α) - ((kernelSize / 2 : Nat) : α)) ^ 2
                  + ((i : α) - ((kernelSize / 2 : Nat) : α)) ^ 2) / (2 * sigma ^ 2))
              / ∑ y in Finset.range (2 * (kernelSize / 2) + 1),
                  ∑ x in Finset.range (2 * (kernelSize / 2) + 1),
                    exp (-(((x : α) - ((kernelSize / 2 : Nat) : α)) ^ 2
                      + ((y : α) - ((kernelSize / 2 : Nat) : α)) ^ 2) / (2 * sigma ^ 2))
            else
              exp (-(((j : α) - ((kernelSize / 2 : Nat) : α)) ^ 2
                  + ((i : α) - ((kernelSize / 2 : Nat) : α)) ^ 2) / (2 * sigma ^ 2)) := by
  generalize hhalf : kernelSize / 2 = half
  have hw : ∀ x y : Nat,
      exp (-((((x : Int) - (half : Int) : Int) : α) * (((x : Int) - (half : Int) : Int) : α)
          + (((y : Int) - (half : Int) : Int) : α) * (((y : Int) - (half : Int) : Int) : α))
            / (2 * sigma * sigma))
        = exp (-(((x : α) - (half : α)) ^ 2 + ((y : α) - (half : α)) ^ 2)
            / (2 * sigma ^ 2)) := by
    intro x y
    congr 1
    simp only [Int.cast_sub, Int.cast_natCast]
    ring
  simp only [gaussianKernel2D, hhalf, offsets, List.map_map, Function.comp_def, hw]
  rw [foldl_add_eq_sum, List.sum_flatten, List.map_map, zero_add]
  simp only [Function.comp_def, sum_map_range]
  apply List.ext_getElem?
  intro i
  by_cases hi : i < 2 * half + 1
  · simp only [List.getElem?_mapIdx, List.getElem?_map, List.getElem?_range hi, Option.map_some']
    congr 1
    apply List.ext_getElem?
    intro j
    by_cases hj : j < 2 * half + 1
    · simp [List.getElem?_mapIdx, List.getElem?_map, List.getElem?_range hj]
    · have hj2 : (List.range (2 * half + 1))[j]? = none :=
        List.getElem?_eq_none (by simpa using not_lt.mp hj)
      simp [List.getElem?_mapIdx, hj2]
  · have hi2 : (List.range (2 * half + 1))[i]? = none :=
      List.getElem?_eq_none (by simpa using not_lt.mp hi)
    simp [List.getElem?_mapIdx, hi2]

/-- The side of the kernel of `gaussianKernel2D`, whatever the arguments. -/
theorem gaussianKernel2D_side (exp : α → α) (sigma : α) (kernelSize : Nat) :
    (gaussianKernel2D exp sigma kernelSize).length = 2 * (kernelSize / 2) + 1
      ∧ ∀ row ∈ gaussianKernel2D exp sigma kernelSize,
          row.length = 2 * (kernelSize / 2) + 1 := by
  rw [gaussianKernel2D_table]
  refine ⟨by simp, ?_⟩
  intro row hrow
  simp only [List.mem_map, List.mem_range] at hrow
  obtain ⟨i, _, rfl⟩ := hrow
  simp

/-- The sign of `sigma` plays no part in `gaussianKernel2D`, which uses `sigma * sigma`
only. -/
theorem gaussianKernel2D_neg (exp : α → α) (sigma : α) (kernelSize : Nat) :
    gaussianKernel2D exp (-sigma) kernelSize = gaussianKernel2D exp sigma kernelSize := by
  simp only [gaussianKernel2D, mul_neg, neg_mul, neg_neg]

/-- With the real exponential and an odd `kernelSize` the weights sum to 1, whatever
`sigma`. -/
theorem gaussianKernel2D_odd_sum (sigma : ℝ) (kernelSize : Nat) (hodd : kernelSize % 2 = 1) :
    ((gaussianKernel2D Real.exp sigma kernelSize).map List.sum).sum = 1 := by
  obtain ⟨half, rfl⟩ : ∃ half, kernelSize = 2 * half + 1 := ⟨kernelSize / 2, by omega⟩
  rw [gaussianKernel2D_eq]
  have hpos : 0 < ∑ y in Finset.range (2 * half + 1), ∑ x in Finset.range (2 * half + 1),
      Real.exp (-(((x : ℝ) - (half : ℝ)) ^ 2 + ((y : ℝ) - (half : ℝ)) ^ 2)
        / (2 * sigma ^ 2)) :=
    Finset.sum_pos (fun _ _ => Finset.sum_pos (fun _ _ => Real.exp_pos _) (by simp)) (by simp)
  rw [List.map_map]
  simp only [Function.comp_def, sum_map_range]
  simp only [← Finset.sum_div]
  exact div_self (ne_of_gt hpos)

end KernelShapeTheorems

section KernelRejectionClaim

/-- With `kernelSize = 2` and `sigma = 1` the kernel has three rows of three weights, of
which only the first two rows and columns are divided by the total; the weights sum to
more than 1. -/
theorem gaussianKernel2D_even_sum :
    1 < ((gaussianKernel2D Real.exp 1 2).map List.sum).sum := by
  rw [gaussianKernel2D_table]
  have ha : (1 : ℝ) / 2 ≤ Real.exp (-(1 / 2)) := by
    have := Real.add_one_le_exp (-(1 / 2) : ℝ)
    linarith
  have hb := Real.exp_pos (-1 : ℝ)
  simp only [List.range_succ, List.range_zero, Finset.sum_range_succ, Finset.sum_range_zero,
    List.nil_append, List.cons_append, List.map_cons, List.map_nil, List.sum_cons,
    List.sum_nil]
  norm_num
  generalize Real.exp (-(1 / 2)) = a at ha ⊢
  generalize Real.exp (-1) = b at hb ⊢
  have hS : 0 < b + a + b + (a + 1 + a) + (b + a + b) := by linarith
  have h1 := div_pos hb hS
  have h2 := div_pos (lt_of_lt_of_le (by norm_num) ha) hS
  have h3 := inv_pos.mpr hS
  linarith

/-- Claim C21, as amended.  The function `gaussianKernel2D` rejects nothing: for every
`sigma` other than 0 and every `kernelSize`, odd or even, it returns a kernel, a
non-empty square table; the sign of `sigma` is ignored, the kernel of `-sigma` being the
kernel of `sigma`; and for every odd `kernelSize` the kernel it returns has `kernelSize`
rows of `kernelSize` weights, which sum to 1. -/
theorem gaussianKernel2D_never_rejects (sigma : ℝ) (kernelSize : Nat) (_hsigma : sigma ≠ 0) :
    (∃ kernel : List (List ℝ), gaussianKernel2D Real.exp sigma kernelSize = kernel
        ∧ 1 ≤ kernel.length ∧ ∀ row ∈ kernel, row.length = kernel.length)
      ∧ gaussianKernel2D Real.exp (-sigma) kernelSize
          = gaussianKernel2D Real.exp sigma kernelSize
      ∧ (kernelSize % 2 = 1 →
          (gaussianKernel2D Real.exp sigma kernelSize).length = kernelSize
            ∧ (∀ row ∈ gaussianKernel2D Real.exp sigma kernelSize, row.length = kernelSize)
            ∧ ((gaussianKernel2D Real.exp sigma kernelSize).map List.sum).sum = 1) := by
  obtain ⟨s1, s2⟩ := gaussianKernel2D_side Real.exp sigma kernelSize
  refine ⟨⟨_, rfl, by rw [s1]; omega, fun row hrow => by rw [s1]; exact s2 row hrow⟩,
    gaussianKernel2D_neg Real.exp sigma kernelSize, ?_⟩
  intro hodd
  have hside : 2 * (kernelSize / 2) + 1 = kernelSize := by omega
  refine ⟨by rw [s1]; exact hside, ?_, gaussianKernel2D_odd_sum sigma kernelSize hodd⟩
  intro row hrow
  rw [s2 row hrow]
  exact hside

/-- The amended claim at `sigma = -1` and `kernelSize = 3`: a kernel of three rows whose
weights sum to 1. -/
theorem gaussianKernel2D_never_rejects_witness :
    (-1 : ℝ) ≠ 0
      ∧ (gaussianKernel2D Real.exp (-1) 3).length = 3
      ∧ ((gaussianKernel2D Real.exp (-1) 3).map List.sum).sum = 1 :=
  ⟨by norm_num,
    ((gaussianKernel2D_never_rejects (-1) 3 (by norm_num)).2.2 (by decide)).1,
    ((gaussianKernel2D_never_rejects (-1) 3 (by norm_num)).2.2 (by decide)).2.2⟩

/-- Counterexample to claim C21 as stated: with the negative `sigma = -1` and
`kernelSize = 3` the function returns the normalised kernel of `sigma = 1`, and with the
even `kernelSize = 2` it returns a kernel too, of three rows, whose weights sum to more
than 1; neither call is rejected. -/
theorem gaussianKernel2D_returns_on_bad_arguments :
    gaussianKernel2D Real.exp (-1) 3 = gaussianKernel2D Real.exp 1 3
      ∧ (gaussianKernel2D Real.exp (-1) 3).length = 3
      ∧ ((gaussianKernel2D Real.exp (-1) 3).map List.sum).sum = 1
      ∧ (gaussianKernel2D Real.exp 1 2).length = 3
      ∧ 1 < ((gaussianKernel2D Real.exp 1 2).map List.sum).sum :=
  ⟨gaussianKernel2D_neg Real.exp 1 3, (gaussianKernel2D_side Real.exp (-1) 3).1,
    gaussianKernel2D_odd_sum (-1) 3 (by decide), (gaussianKernel2D_side Real.exp 1 2).1,
    gaussianKernel2D_even_sum⟩

end KernelRejectionClaim

section SobelRenderTheorems

variable {α : Type} [LinearOrderedField α] [FloorRing α]

/-- In the sobel branch every cell is quantised from the edge buffer, whatever the
dithering settings. -/
theorem sobel_cells (sqrt : α → α) (random : Nat → α) (gradient : List Char) (thr : α)
    (de : Bool) (alg : DitherAlgorithm) (iw : Bool) (w h : Nat) (gray : List α) (y x : Nat)
    (hy : y < h) (hx : x < w) :
    ((generateASCIICells sqrt random ⟨gradient, iw, true, thr, de, alg⟩ w h gray)[y]?).bind
        (fun row => row[x]?)
      = some (plainCell gradient iw gray w
          ⟨applyEdgeDetection sqrt gray w h thr, 0⟩ x y).1 := by
  obtain ⟨_, _, _, h4⟩ := scanCells_spec
    (fun (s : Work α) => s = ⟨applyEdgeDetection sqrt gray w h thr, 0⟩)
    (plainCell gradient iw gray w) w h ⟨applyEdgeDetection sqrt gray w h thr, 0⟩
    (fun s x y _ _ hs => by
      simp only [plainCell]
      split_ifs <;> exact hs) rfl
  obtain ⟨s, hs, hget⟩ := h4 y x hy hx
  subst hs
  simpa [generateASCIICells] using hget

/-- The glyphs of the two tones of an edge buffer: the first palette character for 0 and
the last one for 255. -/
theorem charAt_binary_tone (gradient : List Char) (hn : 1 ≤ gradient.length) :
    ∃ first last, gradient[0]? = some first ∧ gradient[gradient.length - 1]? = some last
      ∧ charAt gradient (jsRound ((0 : α) / 255 * ((gradient.length : α) - 1))) = [first]
      ∧ charAt gradient (jsRound ((255 : α) / 255 * ((gradient.length : α) - 1))) = [last] := by
  have h0 : jsRound ((0 : α) / 255 * ((gradient.length : α) - 1)) = 0 := by
    rw [jsRound_eq_iff]; norm_num
  have h255 : jsRound ((255 : α) / 255 * ((gradient.length : α) - 1))
      = (gradient.length : Int) - 1 := by
    rw [jsRound_eq_iff]
    push_cast
    constructor <;> norm_num
  obtain ⟨c0, g0, e0⟩ := charAt_of_lt gradient 0 (le_refl 0) (by omega)
  obtain ⟨c1, g1, e1⟩ := charAt_of_lt gradient ((gradient.length : Int) - 1) (by omega)
    (le_refl _)
  have ht : ((gradient.length : Int) - 1).toNat = gradient.length - 1 := by omega
  rw [ht] at g1
  exact ⟨c0, c1, g0, g1, by rw [h0]; exact e0, by rw [h255]; exact e1⟩

end SobelRenderTheorems

section SobelRenderClaim

variable {α : Type} [LinearOrderedField α] [FloorRing α]

/-- Claim C22.  In sobel mode, for a tone buffer of `w * h` values and a palette of at
least one character, two runs of `generateASCII` that differ only in `ditheringEnabled`
and `ditherAlgorithm` (and in the random draws) produce the same text; and the piece of
text of every cell is a space when ignoreWhite is set and the original tone is 255, the
first palette character when the edge buffer holds 0 at the cell, and the last palette
character when it holds 255. -/
theorem sobel_ignores_dithering (sqrt : α → α) (random1 random2 : Nat → α)
    (gradient : List Char) (iw : Bool) (thr : α) (de1 de2 : Bool)
    (alg1 alg2 : DitherAlgorithm) (w h : Nat) (gray : List α)
    (_hlen : gray.length = w * h) (hn : 1 ≤ gradient.length) :
    generateASCII sqrt random1 ⟨gradient, iw, true, thr, de1, alg1⟩ w h gray
        = generateASCII sqrt random2 ⟨gradient, iw, true, thr, de2, alg2⟩ w h gray
      ∧ ∃ first last, gradient[0]? = some first
          ∧ gradient[gradient.length - 1]? = some last
          ∧ ∀ y x : Nat, y < h → x < w →
              ∃ e, (applyEdgeDetection sqrt gray w h thr)[y * w + x]? = some e
                ∧ (e = 0 ∨ e = 255)
                ∧ ((generateASCIICells sqrt random1 ⟨gradient, iw, true, thr, de1, alg1⟩
                      w h gray)[y]?).bind (fun row => row[x]?)
                    = some (if iw && decide (gray.getD (y * w + x) 0 = 255) then [' ']
                        else if e = 0 then [first] else [last]) := by
  refine ⟨by simp [generateASCII, generateASCIICells], ?_⟩
  obtain ⟨first, last, g0, g1, e0, e1⟩ := charAt_binary_tone (α := α) gradient hn
  refine ⟨first, last, g0, g1, ?_⟩
  intro y x hy hx
  obtain ⟨hl, hcells⟩ := applyEdgeDetection_cells sqrt gray w h thr
  have hidx : y * w + x < (applyEdgeDetection sqrt gray w h thr).length := by
    rw [hl]; exact rowMajor_lt hy hx
  have hget : (applyEdgeDetection sqrt gray w h thr)[y * w + x]?
      = some ((applyEdgeDetection sqrt gray w h thr).getD (y * w + x) 0) := by
    rw [List.getD_eq_getElem?_getD, List.getElem?_eq_getElem hidx, Option.getD_some]
  have hbin : (applyEdgeDetection sqrt gray w h thr).getD (y * w + x) 0 = 0
      ∨ (applyEdgeDetection sqrt gray w h thr).getD (y * w + x) 0 = 255 := by
    have hc := hcells y x hy hx
    rw [hget] at hc
    rw [Option.some.inj hc]
    split_ifs <;> simp
  refine ⟨_, hget, hbin, ?_⟩
  rw [sobel_cells sqrt random1 gradient thr de1 alg1 iw w h gray y x hy hx]
  simp only [plainCell]
  rcases hbin with hz | hw
  · rw [hz, e0]
    split_ifs <;> simp_all
  · rw [hw, e1]
    have : ¬ ((255 : α) = 0) := by norm_num
    split_ifs <;> simp_all

/-- The claim at the 1 x 1 buffer `[255]` with the palette `AB`: Floyd-Steinberg
dithering switched on or off, the text is the same. -/
theorem sobel_ignores_dithering_witness :
    generateASCII (fun (v : ℚ) => v) (fun _ => 0)
        ⟨['A', 'B'], false, true, 10, true, DitherAlgorithm.floyd⟩ 1 1 [255]
      = generateASCII (fun (v : ℚ) => v) (fun _ => 1 / 2)
        ⟨['A', 'B'], false, true, 10, false, DitherAlgorithm.noise⟩ 1 1 [255] :=
  (sobel_ignores_dithering (fun (v : ℚ) => v) (fun _ => 0) (fun _ => 1 / 2) ['A', 'B'] false
    10 true false DitherAlgorithm.floyd DitherAlgorithm.noise 1 1 [255] rfl (by decide)).1

end SobelRenderClaim

section SobelBoundTheorems

variable {α : Type} [LinearOrderedField α]

/-- The two Sobel sums of `applyEdgeDetection` written out over the eight neighbours. -/
theorem neighbourhoodSum_sobel (gray : List α) (width y x : Nat) :
    neighbourhoodSum kernelX gray width y x
        = -gray.getD ((y + 0 - 1) * width + (x + 0 - 1)) 0
          + gray.getD ((y + 0 - 1) * width + (x + 2 - 1)) 0
          - 2 * gray.getD ((y + 1 - 1) * width + (x + 0 - 1)) 0
          + 2 * gray.getD ((y + 1 - 1) * width + (x + 2 - 1)) 0
          - gray.getD ((y + 2 - 1) * width + (x + 0 - 1)) 0
          + gray.getD ((y + 2 - 1) * width + (x + 2 - 1)) 0
      ∧ neighbourhoodSum kernelY gray width y x
        = -gray.getD ((y + 0 - 1) * width + (x + 0 - 1)) 0
          - 2 * gray.getD ((y + 0 - 1) * width + (x + 1 - 1)) 0
          - gray.getD ((y + 0 - 1) * width + (x + 2 - 1)) 0
          + gray.getD ((y + 2 - 1) * width + (x + 0 - 1)) 0
          + 2 * gray.getD ((y + 2 - 1) * width + (x + 1 - 1)) 0
          + gray.getD ((y + 2 - 1) * width + (x + 2 - 1)) 0 := by
  simp only [neighbourhoodSum, Finset.sum_range_succ, Finset.sum_range_zero, kernelX, kernelY,
    cell, List.getD_cons_zero, List.getD_cons_succ, zero_add]
  constructor <;> ring

/-- For eight neighbours in `[0, 255]` the squares of the two Sobel sums add up to at most
`1020^2 + 510^2`. -/
theorem sobel_square_bound (a b c d f g h i : α)
    (ha : 0 ≤ a ∧ a ≤ 255) (hb : 0 ≤ b ∧ b ≤ 255) (hc : 0 ≤ c ∧ c ≤ 255)
    (hd : 0 ≤ d ∧ d ≤ 255) (hf : 0 ≤ f ∧ f ≤ 255) (hg : 0 ≤ g ∧ g ≤ 255)
    (hh : 0 ≤ h ∧ h ≤ 255) (hi : 0 ≤ i ∧ i ≤ 255) :
    (-a + c - 2 * d + 2 * f - g + i) ^ 2 + (-a - 2 * b - c + g + 2 * h + i) ^ 2
      ≤ 1300500 := by
  obtain ⟨p, hp⟩ : ∃ p, p = i - a := ⟨_, rfl⟩
  obtain ⟨q, hq⟩ : ∃ q, q = c - g := ⟨_, rfl⟩
  obtain ⟨r, hr⟩ : ∃ r, r = f - d := ⟨_, rfl⟩
  obtain ⟨s, hs⟩ : ∃ s, s = h - b := ⟨_, rfl⟩
  have e1 : -a + c - 2 * d + 2 * f - g + i = p + q + 2 * r := by rw [hp, hq, hr]; ring
  have e2 : -a - 2 * b - c + g + 2 * h + i = p - q + 2 * s := by rw [hp, hq, hs]; ring
  rw [e1, e2]
  have p1 : -255 ≤ p := by rw [hp]; linarith [ha.2, hi.1]
  have p2 : p ≤ 255 := by rw [hp]; linarith [ha.1, hi.2]
  have q1 : -255 ≤ q := by rw [hq]; linarith [hg.2, hc.1]
  have q2 : q ≤ 255 := by rw [hq]; linarith [hg.1, hc.2]
  have r1 : -255 ≤ r := by rw [hr]; linarith [hd.2, hf.1]
  have r2 : r ≤ 255 := by rw [hr]; linarith [hd.1, hf.2]
  have s1 : -255 ≤ s := by rw [hs]; linarith [hb.2, hh.1]
  have s2 : s ≤ 255 := by rw [hs]; linarith [hb.1, hh.2]
  have sp := mul_nonneg (sub_nonneg.mpr p2) (by linarith : 0 ≤ p + 255)
  have sq := mul_nonneg (sub_nonneg.mpr q2) (by linarith : 0 ≤ q + 255)
  have sr := mul_nonneg (sub_nonneg.mpr r2) (by linarith : 0 ≤ r + 255)
  have ss := mul_nonneg (sub_nonneg.mpr s2) (by linarith : 0 ≤ s + 255)
  rcases le_total 0 (p + q) with h1 | h1 <;> rcases le_total 0 (p - q) with h2 | h2
  · have t1 := mul_nonneg (sub_nonneg.mpr r2) h1
    have t2 := mul_nonneg (sub_nonneg.mpr s2) h2
    linarith only [sp, sq, sr, ss, t1, t2, p1, p2, q1, q2]
  · have t1 := mul_nonneg (sub_nonneg.mpr r2) h1
    have t2 := mul_nonneg (by linarith : 0 ≤ s + 255) (by linarith : 0 ≤ -(p - q))
    linarith only [sp, sq, sr, ss, t1, t2, p1, p2, q1, q2]
  · have t1 := mul_nonneg (by linarith : 0 ≤ r + 255) (by linarith : 0 ≤ -(p + q))
    have t2 := mul_nonneg (sub_nonneg.mpr s2) h2
    linarith only [sp, sq, sr, ss, t1, t2, p1, p2, q1, q2]
  · have t1 := mul_nonneg (by linarith : 0 ≤ r + 255) (by linarith : 0 ≤ -(p + q))
    have t2 := mul_nonneg (by linarith : 0 ≤ s + 255) (by linarith : 0 ≤ -(p - q))
    linarith only [sp, sq, sr, ss, t1, t2, p1, p2, q1, q2]

/-- Every read of a buffer of values in `[0, 255]` is in `[0, 255]`, the default 0
included. -/
theorem getD_mem_range (gray : List α) (hrange : ∀ v ∈ gray, 0 ≤ v ∧ v ≤ 255) (k : Nat) :
    0 ≤ gray.getD k 0 ∧ gray.getD k 0 ≤ 255 := by
  rw [List.getD_eq_getElem?_getD]
  by_cases hk : k < gray.length
  · rw [List.getElem?_eq_getElem hk, Option.getD_some]
    exact hrange _ (List.getElem_mem hk)
  · rw [List.getElem?_eq_none (not_lt.mp hk), Option.getD_none]
    norm_num

/-- For a buffer of values in `[0, 255]` the squares of the Sobel sums of
`applyEdgeDetection` add up to at most 1300500 at every cell. -/
theorem sobel_sums_sq_le (gray : List α) (width y x : Nat)
    (hrange : ∀ v ∈ gray, 0 ≤ v ∧ v ≤ 255) :
    neighbourhoodSum kernelX gray width y x ^ 2 + neighbourhoodSum kernelY gray width y x ^ 2
      ≤ 1300500 := by
  obtain ⟨ex, ey⟩ := neighbourhoodSum_sobel gray width y x
  rw [ex, ey]
  exact sobel_square_bound _ _ _ _ _ _ _ _ (getD_mem_range gray hrange _)
    (getD_mem_range gray hrange _) (getD_mem_range gray hrange _)
    (getD_mem_range gray hrange _) (getD_mem_range gray hrange _)
    (getD_mem_range gray hrange _) (getD_mem_range gray hrange _)
    (getD_mem_range gray hrange _)

end SobelBoundTheorems

section SobelBoundClaims

/-- The magnitude of `applyEdgeDetection` for a buffer of values in `[0, 255]` is at most
the square root of 1300500, and below 1141. -/
theorem sobel_magnitude_le (gray : List ℝ) (width y x : Nat)
    (hrange : ∀ v ∈ gray, 0 ≤ v ∧ v ≤ 255) :
    Real.sqrt (neighbourhoodSum kernelX gray width y x ^ 2
        + neighbourhoodSum kernelY gray width y x ^ 2) ≤ Real.sqrt 1300500
      ∧ Real.sqrt 1300500 < 1141 := by
  refine ⟨Real.sqrt_le_sqrt (sobel_sums_sq_le gray width y x hrange), ?_⟩
  rw [Real.sqrt_lt' (by norm_num)]
  norm_num

/-- The Sobel sums at the centre of the neighbourhood whose right column and bottom
centre are 255 and whose other cells are 0. -/
theorem sobel_sums_extreme :
    neighbourhoodSum kernelX ([0, 0, 255, 0, 0, 255, 0, 255, 255] : List ℝ) 3 1 1 = 1020
      ∧ neighbourhoodSum kernelY ([0, 0, 255, 0, 0, 255, 0, 255, 255] : List ℝ) 3 1 1
        = 510 := by
  obtain ⟨ex, ey⟩ :=
    neighbourhoodSum_sobel ([0, 0, 255, 0, 0, 255, 0, 255, 255] : List ℝ) 3 1 1
  rw [ex, ey]
  norm_num

/-- Claim C28.  For every buffer of `w * h` values in `[0, 255]`, the Sobel sums of
`applyEdgeDetection` satisfy `Gx^2 + Gy^2 <= 1300500` at every cell, the normalised value
`sqrt(Gx^2 + Gy^2) / 1442 * 255` is below 202, and for every threshold of at least 202
`applyEdgeDetection` returns `w * h` cells that all hold 255. -/
theorem high_threshold_no_edge (gray : List ℝ) (w h : Nat) (thr : ℝ)
    (_hlen : gray.length = w * h) (hrange : ∀ v ∈ gray, 0 ≤ v ∧ v ≤ 255)
    (hthr : 202 ≤ thr) :
    (∀ y x : Nat,
        neighbourhoodSum kernelX gray w y x ^ 2 + neighbourhoodSum kernelY gray w y x ^ 2
            ≤ 1300500
          ∧ Real.sqrt (neighbourhoodSum kernelX gray w y x ^ 2
              + neighbourhoodSum kernelY gray w y x ^ 2) / 1442 * 255 < 202)
      ∧ (applyEdgeDetection Real.sqrt gray w h thr).length = w * h
      ∧ ∀ v ∈ applyEdgeDetection Real.sqrt gray w h thr, v = 255 := by
  have hnorm : ∀ y x : Nat, Real.sqrt (neighbourhoodSum kernelX gray w y x ^ 2
      + neighbourhoodSum kernelY gray w y x ^ 2) / 1442 * 255 < 202 := by
    intro y x
    obtain ⟨m1, m2⟩ := sobel_magnitude_le gray w y x hrange
    generalize Real.sqrt (neighbourhoodSum kernelX gray w y x ^ 2
      + neighbourhoodSum kernelY gray w y x ^ 2) = m at m1
    have hm : m < 1141 := lt_of_le_of_lt m1 m2
    rw [div_mul_eq_mul_div, div_lt_iff₀ (by norm_num)]
    linarith
  obtain ⟨hl, hcells⟩ := applyEdgeDetection_cells Real.sqrt gray w h thr
  refine ⟨fun y x => ⟨sobel_sums_sq_le gray w y x hrange, hnorm y x⟩, hl, ?_⟩
  intro v hv
  obtain ⟨k, hk, rfl⟩ := List.getElem_of_mem hv
  have hk2 : k < w * h := by rw [← hl]; exact hk
  obtain ⟨y, x, hy, hx, rfl⟩ := rowMajor_decomp hk2
  have e := hcells y x hy hx
  rw [List.getElem?_eq_getElem hk] at e
  rw [Option.some.inj e]
  have hno : ¬ (Real.sqrt (neighbourhoodSum kernelX gray w y x ^ 2
      + neighbourhoodSum kernelY gray w y x ^ 2) / 1442 * 255 > thr) :=
    not_lt.mpr (le_trans (le_of_lt (hnorm y x)) hthr)
  rw [if_neg hno]
  split_ifs <;> rfl

/-- The claim at the 3 x 3 buffer of the largest Sobel magnitude, with the threshold
202: no edge is detected. -/
theorem high_threshold_no_edge_witness :
    applyEdgeDetection Real.sqrt [0, 0, 255, 0, 0, 255, 0, 255, 255] 3 3 202
      = List.replicate (3 * 3) 255 :=
  List.eq_replicate_iff.mpr (high_threshold_no_edge [0, 0, 255, 0, 0, 255, 0, 255, 255] 3 3 202
    rfl
    (by
      intro v hv
      simp only [List.mem_cons, List.mem_singleton, List.not_mem_nil, or_false] at hv
      rcases hv with rfl | rfl | rfl | rfl | rfl | rfl | rfl | rfl | rfl <;> norm_num)
    (le_refl 202)).2

end SobelBoundClaims

section SobelMaximumClaim

/-- The constant `4 * 255 * sqrt 2` lies above 1442. -/
theorem naive_sobel_bound_gt : (1442 : ℝ) < 4 * 255 * Real.sqrt 2 := by
  have h : (1442 / 1020 : ℝ) < Real.sqrt 2 := by
    rw [Real.lt_sqrt (by norm_num)]
    norm_num
  rw [div_lt_iff₀ (by norm_num)] at h
  linarith

/-- Claim C23, as amended.  Over all buffers with values in `[0, 255]` the largest Sobel
magnitude `sqrt(Gx^2 + Gy^2)` that `applyEdgeDetection` computes at an interior cell is
`sqrt(1300500) = sqrt(1020^2 + 510^2)`, below 1141: the magnitude never exceeds it and the
3 x 3 buffer `[0, 0, 255, 0, 0, 255, 0, 255, 255]` attains it.  The constant 1442 and the
value `4 * 255 * sqrt 2` above it are upper bounds that no buffer attains, and the
normalised value `magnitude / 1442 * 255`, with which the cell is compared to the
threshold, stays below 202. -/
theorem sobel_magnitude_max (gray : List ℝ) (w h : Nat) (thr : ℝ) (y x : Nat)
    (hrange : ∀ v ∈ gray, 0 ≤ v ∧ v ≤ 255) (hy : 1 ≤ y ∧ y + 1 < h)
    (hx : 1 ≤ x ∧ x + 1 < w) :
    (applyEdgeDetection Real.sqrt gray w h thr)[y * w + x]?
        = some (if Real.sqrt (neighbourhoodSum kernelX gray w y x ^ 2
              + neighbourhoodSum kernelY gray w y x ^ 2) / 1442 * 255 > thr
            then 0 else 255)
      ∧ Real.sqrt (neighbourhoodSum kernelX gray w y x ^ 2
          + neighbourhoodSum kernelY gray w y x ^ 2) ≤ Real.sqrt 1300500
      ∧ Real.sqrt 1300500 < 1141
      ∧ (1442 : ℝ) < 4 * 255 * Real.sqrt 2
      ∧ Real.sqrt (neighbourhoodSum kernelX gray w y x ^ 2
          + neighbourhoodSum kernelY gray w y x ^ 2) / 1442 * 255 < 202
      ∧ Real.sqrt
          (neighbourhoodSum kernelX ([0, 0, 255, 0, 0, 255, 0, 255, 255] : List ℝ) 3 1 1 ^ 2
            + neighbourhoodSum kernelY ([0, 0, 255, 0, 0, 255, 0, 255, 255] : List ℝ) 3 1 1
              ^ 2)
          = Real.sqrt 1300500 := by
  obtain ⟨m1, m2⟩ := sobel_magnitude_le gray w y x hrange
  obtain ⟨_, hcells⟩ := applyEdgeDetection_cells Real.sqrt gray w h thr
  refine ⟨?_, m1, m2, naive_sobel_bound_gt, ?_, ?_⟩
  · rw [hcells y x (by omega) (by omega), if_pos ⟨hy, hx⟩]
  · generalize Real.sqrt (neighbourhoodSum kernelX gray w y x ^ 2
      + neighbourhoodSum kernelY gray w y x ^ 2) = m at m1
    have hm : m < 1141 := lt_of_le_of_lt m1 m2
    rw [div_mul_eq_mul_div, div_lt_iff₀ (by norm_num)]
    linarith
  · rw [sobel_sums_extreme.1, sobel_sums_extreme.2]
    norm_num

/-- The amended claim at the centre of the 3 x 3 buffer whose cells all hold 255. -/
theorem sobel_magnitude_max_witness :
    Real.sqrt (neighbourhoodSum kernelX
          ([255, 255, 255, 255, 255, 255, 255, 255, 255] : List ℝ) 3 1 1 ^ 2
        + neighbourhoodSum kernelY
          ([255, 255, 255, 255, 255, 255, 255, 255, 255] : List ℝ) 3 1 1 ^ 2)
      ≤ Real.sqrt 1300500 :=
  (sobel_magnitude_max [255, 255, 255, 255, 255, 255, 255, 255, 255] 3 3 100 1 1
    (by
      intro v hv
      simp only [List.mem_cons, List.mem_singleton, List.not_mem_nil, or_false] at hv
      rcases hv with rfl | rfl | rfl | rfl | rfl | rfl | rfl | rfl | rfl <;> norm_num)
    (by decide) (by decide)).2.1

/-- Counterexample to claim C23 as stated: no buffer with values in `[0, 255]` has a
cell whose Sobel magnitude is `4 * 255 * sqrt 2`; the two sums cannot both reach 1020. -/
theorem sobel_magnitude_never_1442 :
    ¬ ∃ (gray : List ℝ) (width y x : Nat), (∀ v ∈ gray, 0 ≤ v ∧ v ≤ 255)
        ∧ Real.sqrt (neighbourhoodSum kernelX gray width y x ^ 2
            + neighbourhoodSum kernelY gray width y x ^ 2) = 4 * 255 * Real.sqrt 2 := by
  rintro ⟨gray, width, y, x, hrange, heq⟩
  obtain ⟨m1, m2⟩ := sobel_magnitude_le gray width y x hrange
  have := naive_sobel_bound_gt
  rw [heq] at m1
  linarith

end SobelMaximumClaim

section FrameTheorems

variable {α : Type} [LinearOrderedField α] [FloorRing α]

theorem floydNeighbours_target (w h x y : Nat) (e : α) :
    ∀ t ∈ floydNeighbours w h x y e, FloydTarget x y t.1.1 t.1.2 := by
  intro t ht
  simp only [floydNeighbours, List.mem_append] at ht
  rcases ht with ((ht | ht) | ht) | ht <;> split_ifs at ht <;>
    simp only [List.mem_singleton, List.not_mem_nil] at ht <;> subst ht <;>
    first | (simp [FloydTarget]; done) | (simp [FloydTarget]; omega)

/-- A target cell of either step lies after the current cell in row-major order. -/
theorem target_after (w x y row col : Nat) (hx : x < w)
    (ht : FloydTarget x y row col ∨ AtkinsonTarget x y row col) :
    y * w + x < row * w + col := by
  have e1 : (y + 1) * w = y * w + w := by ring
  have e2 : (y + 2) * w = y * w + w + w := by ring
  rcases ht with ht | ht
  · rcases ht with ⟨rfl, rfl⟩ | ⟨rfl, hc⟩ | ⟨rfl, rfl⟩ | ⟨rfl, rfl⟩ <;> omega
  · rcases ht with ⟨rfl, rfl⟩ | ⟨rfl, rfl⟩ | ⟨rfl, hc⟩ | ⟨rfl, rfl⟩ | ⟨rfl, rfl⟩
      | ⟨rfl, rfl⟩ <;> omega

/-- The frame of a chain of clamped additions at cells that all lie after the index
`idx`: the length is kept, and so is every cell that is no target, the cells up to `idx`
among them. -/
theorem foldl_addClamped_frame (T : List ((Nat × Nat) × α)) (w h : Nat) (g : List α)
    (idx : Nat) (hlen : g.length = w * h) (hnd : (T.map Prod.fst).Nodup)
    (hin : ∀ t ∈ T, t.1.1 < h ∧ t.1.2 < w) (hafter : ∀ t ∈ T, idx < t.1.1 * w + t.1.2) :
    ((T.map (fun (t : (Nat × Nat) × α) => (t.1.1 * w + t.1.2, t.2))).foldl
        (fun (g : List α) (p : Nat × α) => addClamped g p.1 p.2) g).length = w * h
      ∧ (∀ j, (∀ t ∈ T, t.1.1 * w + t.1.2 ≠ j) →
          ((T.map (fun (t : (Nat × Nat) × α) => (t.1.1 * w + t.1.2, t.2))).foldl
            (fun (g : List α) (p : Nat × α) => addClamped g p.1 p.2) g).getD j 0
            = g.getD j 0)
      ∧ ∀ k, k ≤ idx →
          ((T.map (fun (t : (Nat × Nat) × α) => (t.1.1 * w + t.1.2, t.2))).foldl
            (fun (g : List α) (p : Nat × α) => addClamped g p.1 p.2) g).getD k 0
            = g.getD k 0 := by
  obtain ⟨f1, _, f3⟩ := foldl_addClamped_grid T w h g hlen hnd hin
  refine ⟨f1, f3, ?_⟩
  intro k hk
  apply f3
  intro t ht heq
  have := hafter t ht
  omega

end FrameTheorems

section FrameStepTheorems

variable {α : Type} [LinearOrderedField α] [FloorRing α]

/-- Every assignment of the Floyd-Steinberg step goes to the flat index of one of its
four targets inside the grid, after the current cell. -/
theorem floydTargets_where (w h x y : Nat) (e : α) (hx : x < w) (hy : y < h) :
    ∀ p ∈ floydTargets w h x y e, y * w + x < p.1 ∧ p.1 < w * h
      ∧ ∃ row col, row < h ∧ col < w ∧ FloydTarget x y row col ∧ p.1 = row * w + col := by
  intro p hp
  rw [floydTargets_eq, List.mem_map] at hp
  obtain ⟨t, ht, rfl⟩ := hp
  obtain ⟨i1, i2⟩ := floydNeighbours_inside w h x y e hx hy t ht
  have htar := floydNeighbours_target w h x y e t ht
  exact ⟨target_after w x y _ _ hx (Or.inl htar), rowMajor_lt i1 i2, _, _, i1, i2, htar, rfl⟩

/-- Every assignment of the Atkinson step goes to the flat index of one of its six
targets inside the grid, after the current cell. -/
theorem atkinsonTargets_where (w h x y : Nat) (d : α) (hx : x < w) (hy : y < h) :
    ∀ p ∈ atkinsonTargets w h x y d, y * w + x < p.1 ∧ p.1 < w * h
      ∧ ∃ row col, row < h ∧ col < w ∧ AtkinsonTarget x y row col
          ∧ p.1 = row * w + col := by
  intro p hp
  rw [atkinsonTargets_eq, List.mem_map] at hp
  obtain ⟨t, ht, rfl⟩ := hp
  obtain ⟨i1, i2⟩ := atkinsonNeighbours_inside w h x y d hx hy t ht
  have htar := (atkinsonNeighbours_target w h x y d t ht).1
  exact ⟨target_after w x y _ _ hx (Or.inr htar), rowMajor_lt i1 i2, _, _, i1, i2, htar, rfl⟩

/-- The frame of the Floyd-Steinberg step. -/
theorem floydCell_frame (gradient : List Char) (iw : Bool) (orig : List α) (w h : Nat)
    (st : Work α) (x y : Nat) (hlen : st.gray.length = w * h) (hx : x < w) (hy : y < h) :
    ((floydCell gradient iw orig w h st x y).2.gray = st.gray
        ∨ (floydCell gradient iw orig w h st x y).2.gray
          = (floydTargets w h x y
              (quantError gradient.length (st.gray.getD (y * w + x) 0))).foldl
              (fun (g : List α) (p : Nat × α) => addClamped g p.1 p.2) st.gray)
      ∧ (floydCell gradient iw orig w h st x y).2.gray.length = w * h
      ∧ (floydCell gradient iw orig w h st x y).2.draws = st.draws
      ∧ ∀ k, k ≤ y * w + x →
          (floydCell gradient iw orig w h st x y).2.gray.getD k 0 = st.gray.getD k 0 := by
  cases hq : (iw && decide (orig.getD (y * w + x) 0 = 255)) with
  | true =>
    have : floydCell gradient iw orig w h st x y = ([' '], st) := by
      simp only [floydCell]; rw [if_pos hq]
    rw [this]
    exact ⟨Or.inl rfl, hlen, rfl, fun _ _ => rfl⟩
  | false =>
    rw [floydCell_eq gradient iw orig w h st x y hq]
    refine ⟨Or.inr rfl, ?_⟩
    simp only
    rw [floydTargets_eq]
    obtain ⟨f1, _, f3⟩ := foldl_addClamped_frame
      (floydNeighbours w h x y (quantError gradient.length (st.gray.getD (y * w + x) 0)))
      w h st.gray (y * w + x) hlen (floydNeighbours_nodup w h x y _)
      (floydNeighbours_inside w h x y _ hx hy)
      (fun t ht => target_after w x y _ _ hx
        (Or.inl (floydNeighbours_target w h x y _ t ht)))
    exact ⟨f1, trivial, f3⟩

/-- The frame of the Atkinson step. -/
theorem atkinsonCell_frame (gradient : List Char) (iw : Bool) (orig : List α) (w h : Nat)
    (st : Work α) (x y : Nat) (hlen : st.gray.length = w * h) (hx : x < w) (hy : y < h) :
    ((atkinsonCell gradient iw orig w h st x y).2.gray = st.gray
        ∨ (atkinsonCell gradient iw orig w h st x y).2.gray
          = (atkinsonTargets w h x y
              (quantError gradient.length (st.gray.getD (y * w + x) 0) / 8)).foldl
              (fun (g : List α) (p : Nat × α) => addClamped g p.1 p.2) st.gray)
      ∧ (atkinsonCell gradient iw orig w h st x y).2.gray.length = w * h
      ∧ (atkinsonCell gradient iw orig w h st x y).2.draws = st.draws
      ∧ ∀ k, k ≤ y * w + x →
          (atkinsonCell gradient iw orig w h st x y).2.gray.getD k 0 = st.gray.getD k 0 := by
  cases hq : (iw && decide (orig.getD (y * w + x) 0 = 255)) with
  | true =>
    have : atkinsonCell gradient iw orig w h st x y = ([' '], st) := by
      simp only [atkinsonCell]; rw [if_pos hq]
    rw [this]
    exact ⟨Or.inl rfl, hlen, rfl, fun _ _ => rfl⟩
  | false =>
    rw [atkinsonCell_eq gradient iw orig w h st x y hq]
    refine ⟨Or.inr rfl, ?_⟩
    simp only
    rw [atkinsonTargets_eq]
    obtain ⟨f1, _, f3⟩ := foldl_addClamped_frame
      (atkinsonNeighbours w h x y
        (quantError gradient.length (st.gray.getD (y * w + x) 0) / 8))
      w h st.gray (y * w + x) hlen (atkinsonNeighbours_nodup w h x y _)
      (atkinsonNeighbours_inside w h x y _ hx hy)
      (fun t ht => target_after w x y _ _ hx
        (Or.inr (atkinsonNeighbours_target w h x y _ t ht).1))
    exact ⟨f1, trivial, f3⟩

end FrameStepTheorems

section FrameClaim

variable {α : Type} [LinearOrderedField α] [FloorRing α]

/-- Claim C24.  On a buffer of `w * h` cells stored row by row, the Floyd-Steinberg step
and the Atkinson step at the cell `(x, y)` of index `idx = y * w + x` either leave the
buffer as it is (a cell skipped by ignoreWhite) or make the chain of clamped additions
listed by `floydTargets` (`atkinsonTargets`); every index in these lists is larger than
`idx`, smaller than `w * h`, and is the flat index `row * w + col` of a target `(row,
col)` of the step that lies inside the grid, so that no write wraps around a row end;
the buffer keeps its length, the cells of index up to `idx` (the current cell and the
cells already visited) keep their values, and the step returns nothing else than the
buffer and the unchanged count of random draws: `grayOriginal` is only read. -/
theorem diffusion_writes_ahead (gradient : List Char) (iw : Bool) (orig : List α)
    (w h : Nat) (st : Work α) (x y : Nat) (hlen : st.gray.length = w * h) (hx : x < w)
    (hy : y < h) :
    (((floydCell gradient iw orig w h st x y).2.gray = st.gray
          ∨ (floydCell gradient iw orig w h st x y).2.gray
            = (floydTargets w h x y
                (quantError gradient.length (st.gray.getD (y * w + x) 0))).foldl
                (fun (g : List α) (p : Nat × α) => addClamped g p.1 p.2) st.gray)
        ∧ (floydCell gradient iw orig w h st x y).2.gray.length = w * h
        ∧ (floydCell gradient iw orig w h st x y).2.draws = st.draws
        ∧ ∀ k, k ≤ y * w + x →
            (floydCell gradient iw orig w h st x y).2.gray.getD k 0 = st.gray.getD k 0)
      ∧ (∀ e : α, ∀ p ∈ floydTargets w h x y e, y * w + x < p.1 ∧ p.1 < w * h
          ∧ ∃ row col, row < h ∧ col < w ∧ FloydTarget x y row col ∧ p.1 = row * w + col)
      ∧ (((atkinsonCell gradient iw orig w h st x y).2.gray = st.gray
          ∨ (atkinsonCell gradient iw orig w h st x y).2.gray
            = (atkinsonTargets w h x y
                (quantError gradient.length (st.gray.getD (y * w + x) 0) / 8)).foldl
                (fun (g : List α) (p : Nat × α) => addClamped g p.1 p.2) st.gray)
        ∧ (atkinsonCell gradient iw orig w h st x y).2.gray.length = w * h
        ∧ (atkinsonCell gradient iw orig w h st x y).2.draws = st.draws
        ∧ ∀ k, k ≤ y * w + x →
            (atkinsonCell gradient iw orig w h st x y).2.gray.getD k 0 = st.gray.getD k 0)
      ∧ (∀ d : α, ∀ p ∈ atkinsonTargets w h x y d, y * w + x < p.1 ∧ p.1 < w * h
          ∧ ∃ row col, row < h ∧ col < w ∧ AtkinsonTarget x y row col
            ∧ p.1 = row * w + col) :=
  ⟨floydCell_frame gradient iw orig w h st x y hlen hx hy,
    fun e => floydTargets_where w h x y e hx hy,
    atkinsonCell_frame gradient iw orig w h st x y hlen hx hy,
    fun d => atkinsonTargets_where w h x y d hx hy⟩

/-- The claim at the first cell of a buffer of width 1 and height 2: the
Floyd-Steinberg step keeps the two cells of the buffer and the value of the current
cell. -/
theorem diffusion_writes_ahead_witness :
    (floydCell ['A', 'B'] false [100, 200] 1 2 (⟨[100, 200], 0⟩ : Work ℚ) 0 0).2.gray.length
        = 1 * 2
      ∧ (floydCell ['A', 'B'] false [100, 200] 1 2
            (⟨[100, 200], 0⟩ : Work ℚ) 0 0).2.gray.getD 0 0
          = (⟨[100, 200], 0⟩ : Work ℚ).gray.getD 0 0 :=
  ⟨(diffusion_writes_ahead ['A', 'B'] false [100, 200] 1 2 (⟨[100, 200], 0⟩ : Work ℚ) 0 0
      rfl (by decide) (by decide)).1.2.1,
    (diffusion_writes_ahead ['A', 'B'] false [100, 200] 1 2 (⟨[100, 200], 0⟩ : Work ℚ) 0 0
      rfl (by decide) (by decide)).1.2.2.2 0 (by decide)⟩

end FrameClaim

section RangeClaim

variable {α : Type} [LinearOrderedField α] [FloorRing α]

/-- Claim C25.  With a palette of `nLevels >= 2` characters and a buffer of `w * h`
values in `[0, 255]`: every step of the Floyd-Steinberg pass and of the Atkinson pass
taken from a buffer with values in `[0, 255]` leaves a buffer with values in `[0, 255]`,
and the level `round(value / 255 * (nLevels - 1))` of the cell it visits lies in
`[0, nLevels - 1]`; hence the buffer has its values in `[0, 255]` before the step of
every cell of either pass and at the end of the pass. -/
theorem diffusion_keeps_range (gradient : List Char) (iw : Bool) (orig : List α)
    (w h : Nat) (st : Work α) (hn : 2 ≤ gradient.length) (h0 : ToneBuffer w h st) :
    (∀ (s : Work α) (x y : Nat), x < w → y < h → ToneBuffer w h s →
        ToneBuffer w h (floydCell gradient iw orig w h s x y).2
          ∧ ToneBuffer w h (atkinsonCell gradient iw orig w h s x y).2
          ∧ 0 ≤ jsRound (s.gray.getD (y * w + x) 0 / 255 * ((gradient.length : α) - 1))
          ∧ jsRound (s.gray.getD (y * w + x) 0 / 255 * ((gradient.length : α) - 1))
              ≤ (gradient.length : Int) - 1)
      ∧ ToneBuffer w h (scanCells (floydCell gradient iw orig w h) w h st).2
      ∧ ToneBuffer w h (scanCells (atkinsonCell gradient iw orig w h) w h st).2
      ∧ (∀ y x : Nat, y < h → x < w → ∃ s, ToneBuffer w h s
          ∧ ((scanCells (floydCell gradient iw orig w h) w h st).1[y]?).bind
              (fun row => row[x]?) = some (floydCell gradient iw orig w h s x y).1)
      ∧ (∀ y x : Nat, y < h → x < w → ∃ s, ToneBuffer w h s
          ∧ ((scanCells (atkinsonCell gradient iw orig w h) w h st).1[y]?).bind
              (fun row => row[x]?) = some (atkinsonCell gradient iw orig w h s x y).1) := by
  have hn1 : 1 ≤ gradient.length := by omega
  obtain ⟨f1, _, _, f4⟩ := scanCells_spec (ToneBuffer w h) (floydCell gradient iw orig w h)
    w h st (fun s x y hx hy hs => (floydCell_line gradient iw orig w h hn1 s x y hx hy hs).1)
    h0
  obtain ⟨a1, _, _, a4⟩ := scanCells_spec (ToneBuffer w h)
    (atkinsonCell gradient iw orig w h) w h st
    (fun s x y hx hy hs => (atkinsonCell_line gradient iw orig w h hn1 s x y hx hy hs).1) h0
  refine ⟨?_, f1, a1, f4, a4⟩
  intro s x y hx hy hs
  obtain ⟨t0, t1⟩ := toneBuffer_getD w h s hs x y hx hy
  obtain ⟨l0, l1⟩ := jsRound_level_bounds (s.gray.getD (y * w + x) 0) gradient.length t0 t1 hn1
  exact ⟨(floydCell_line gradient iw orig w h hn1 s x y hx hy hs).1,
    (atkinsonCell_line gradient iw orig w h hn1 s x y hx hy hs).1, l0, l1⟩

/-- The claim at the buffer `[100, 200]` of width 2 with the palette `AB`: the
Floyd-Steinberg pass ends with values in `[0, 255]`. -/
theorem diffusion_keeps_range_witness :
    ToneBuffer 2 1 (scanCells (floydCell ['A', 'B'] false ([100, 200] : List ℚ) 2 1) 2 1
      ⟨[100, 200], 0⟩).2 :=
  (diffusion_keeps_range ['A', 'B'] false ([100, 200] : List ℚ) 2 1 ⟨[100, 200], 0⟩
    (by decide)
    ⟨rfl, by
      intro v hv
      simp only [List.mem_cons, List.mem_singleton, List.not_mem_nil, or_false] at hv
      rcases hv with rfl | rfl <;> norm_num⟩).2.1

end RangeClaim

section BorderBiasTheorems

/-- The weight of a corner cell of the 3 x 3 kernel before the division is the square of
the weight of an edge cell. -/
theorem corner_weight_sq (sigma : ℝ) :
    Real.exp (-2 / (2 * sigma ^ 2)) = Real.exp (-1 / (2 * sigma ^ 2)) ^ 2 := by
  rw [← Real.exp_nat_mul]
  congr 1
  push_cast
  ring

/-- The total of the cells of the 3 x 3 kernel that fall inside a grid of `h` rows of `w`
cells around the cell `(y, x)`: the product of the share of the rows and of the share of
the columns that are inside, `a` being the weight of an edge cell before the division. -/
theorem inside_weights (sigma : ℝ) (h w y x : Nat) (hy : y < h) (hx : x < w) :
    (∑ ky in Finset.range 3, ∑ kx in Finset.range 3,
      (if 0 ≤ (y : Int) + (ky : Int) - 1 ∧ (y : Int) + (ky : Int) - 1 < (h : Int)
          ∧ 0 ≤ (x : Int) + (kx : Int) - 1 ∧ (x : Int) + (kx : Int) - 1 < (w : Int)
        then cell (gaussianKernel2D Real.exp sigma 3) ky kx else 0))
      = (((if 1 ≤ y then Real.exp (-1 / (2 * sigma ^ 2)) else 0) + 1
            + (if y + 1 < h then Real.exp (-1 / (2 * sigma ^ 2)) else 0))
          / (1 + 2 * Real.exp (-1 / (2 * sigma ^ 2))))
        * (((if 1 ≤ x then Real.exp (-1 / (2 * sigma ^ 2)) else 0) + 1
            + (if x + 1 < w then Real.exp (-1 / (2 * sigma ^ 2)) else 0))
          / (1 + 2 * Real.exp (-1 / (2 * sigma ^ 2)))) := by
  rw [gaussianKernel2D_three, corner_weight_sq]
  have hpos := Real.exp_pos (-1 / (2 * sigma ^ 2))
  generalize Real.exp (-1 / (2 * sigma ^ 2)) = a at hpos
  have h12 : 1 + 2 * a ≠ 0 := by linarith
  have hS : 1 + 4 * a + 4 * a ^ 2 ≠ 0 := by nlinarith
  have c00 :
      (0 ≤ (y : Int) + ((0 : Nat) : Int) - 1 ∧ (y : Int) + ((0 : Nat) : Int) - 1 < (h : Int)
      ∧ 0 ≤ (x : Int) + ((0 : Nat) : Int) - 1 ∧ (x : Int) + ((0 : Nat) : Int) - 1 < (w : Int))
      ↔ (1 ≤ y ∧ 1 ≤ x) := by omega
  have c01 :
      (0 ≤ (y : Int) + ((0 : Nat) : Int) - 1 ∧ (y : Int) + ((0 : Nat) : Int) - 1 < (h : Int)
      ∧ 0 ≤ (x : Int) + ((1 : Nat) : Int) - 1 ∧ (x : Int) + ((1 : Nat) : Int) - 1 < (w : Int))
      ↔ 1 ≤ y := by omega
  have c02 :
      (0 ≤ (y : Int) + ((0 : Nat) : Int) - 1 ∧ (y : Int) + ((0 : Nat) : Int) - 1 < (h : Int)
      ∧ 0 ≤ (x : Int) + ((2 : Nat) : Int) - 1 ∧ (x : Int) + ((2 : Nat) : Int) - 1 < (w : Int))
      ↔ (1 ≤ y ∧ x + 1 < w) := by omega
  have c10 :
      (0 ≤ (y : Int) + ((1 : Nat) : Int) - 1 ∧ (y : Int) + ((1 : Nat) : Int) - 1 < (h : Int)
      ∧ 0 ≤ (x : Int) + ((0 : Nat) : Int) - 1 ∧ (x : Int) + ((0 : Nat) : Int) - 1 < (w : Int))
      ↔ 1 ≤ x := by omega
  have c11 :
      (0 ≤ (y : Int) + ((1 : Nat) : Int) - 1 ∧ (y : Int) + ((1 : Nat) : Int) - 1 < (h : Int)
      ∧ 0 ≤ (x : Int) + ((1 : Nat) : Int) - 1 ∧ (x : Int) + ((1 : Nat) : Int) - 1 < (w : Int))
      ↔ True := by
    constructor
    · intro _; trivial
    · intro _; omega
  have c12 :
      (0 ≤ (y : Int) + ((1 : Nat) : Int) - 1 ∧ (y : Int) + ((1 : Nat) : Int) - 1 < (h : Int)
      ∧ 0 ≤ (x : Int) + ((2 : Nat) : Int) - 1 ∧ (x : Int) + ((2 : Nat) : Int) - 1 < (w : Int))
      ↔ x + 1 < w := by omega
  have c20 :
      (0 ≤ (y : Int) + ((2 : Nat) : Int) - 1 ∧ (y : Int) + ((2 : Nat) : Int) - 1 < (h : Int)
      ∧ 0 ≤ (x : Int) + ((0 : Nat) : Int) - 1 ∧ (x : Int) + ((0 : Nat) : Int) - 1 < (w : Int))
      ↔ (y + 1 < h ∧ 1 ≤ x) := by omega
  have c21 :
      (0 ≤ (y : Int) + ((2 : Nat) : Int) - 1 ∧ (y : Int) + ((2 : Nat) : Int) - 1 < (h : Int)
      ∧ 0 ≤ (x : Int) + ((1 : Nat) : Int) - 1 ∧ (x : Int) + ((1 : Nat) : Int) - 1 < (w : Int))
      ↔ y + 1 < h := by omega
  have c22 :
      (0 ≤ (y : Int) + ((2 : Nat) : Int) - 1 ∧ (y : Int) + ((2 : Nat) : Int) - 1 < (h : Int)
      ∧ 0 ≤ (x : Int) + ((2 : Nat) : Int) - 1 ∧ (x : Int) + ((2 : Nat) : Int) - 1 < (w : Int))
      ↔ (y + 1 < h ∧ x + 1 < w) := by omega
  simp only [Finset.sum_range_succ, Finset.sum_range_zero, zero_add, cell, List.map_cons,
    List.map_nil, List.getD_cons_zero, List.getD_cons_succ, c00, c01, c02, c10, c11, c12, c20,
    c21, c22, if_true]
  by_cases ht : 1 ≤ y <;> by_cases hb : y + 1 < h <;> by_cases hl : 1 ≤ x <;>
    by_cases hr : x + 1 < w <;>
    simp only [ht, hb, hl, hr, and_self, and_true, true_and, and_false, false_and, if_true,
      if_false] <;>
    field_simp <;> first | ring1 | (left; ring1)

end BorderBiasTheorems

section ShareTheorems

/-- The share of the kernel rows (or columns) that fall inside the grid: positive, at
most 1, and 1 exactly when both side rows are inside. -/
theorem share_bounds (c1 c2 : Prop) [Decidable c1] [Decidable c2] (a : ℝ) (ha : 0 < a) :
    0 < ((if c1 then a else 0) + 1 + (if c2 then a else 0)) / (1 + 2 * a)
      ∧ ((if c1 then a else 0) + 1 + (if c2 then a else 0)) / (1 + 2 * a) ≤ 1
      ∧ (c1 ∧ c2 → ((if c1 then a else 0) + 1 + (if c2 then a else 0)) / (1 + 2 * a) = 1)
      ∧ (¬ (c1 ∧ c2) →
          ((if c1 then a else 0) + 1 + (if c2 then a else 0)) / (1 + 2 * a) < 1) := by
  have hd : 0 < 1 + 2 * a := by linarith
  by_cases h1 : c1 <;> by_cases h2 : c2 <;>
    simp only [h1, h2, if_true, if_false, and_self, and_true, and_false, not_true_eq_false,
      not_false_eq_true, true_implies, false_implies, and_true, true_and] <;>
    refine ⟨div_pos (by linarith) hd, ?_, ?_⟩ <;>
    first
      | (rw [div_le_one hd]; linarith)
      | (rw [div_lt_one hd]; linarith)
      | (rw [div_eq_one_iff_eq (ne_of_gt hd)]; ring)

/-- The share of the rows inside the grid does not grow with the edge weight `a`, and it
falls when a side row is outside. -/
theorem share_anti (c1 c2 : Prop) [Decidable c1] [Decidable c2] (a1 a2 : ℝ) (h1 : 0 < a1)
    (h12 : a1 < a2) :
    ((if c1 then a2 else 0) + 1 + (if c2 then a2 else 0)) / (1 + 2 * a2)
        ≤ ((if c1 then a1 else 0) + 1 + (if c2 then a1 else 0)) / (1 + 2 * a1)
      ∧ (¬ (c1 ∧ c2) →
          ((if c1 then a2 else 0) + 1 + (if c2 then a2 else 0)) / (1 + 2 * a2)
            < ((if c1 then a1 else 0) + 1 + (if c2 then a1 else 0)) / (1 + 2 * a1)) := by
  have hd1 : 0 < 1 + 2 * a1 := by linarith
  have hd2 : 0 < 1 + 2 * a2 := by linarith
  by_cases k1 : c1 <;> by_cases k2 : c2 <;>
    simp only [k1, k2, if_true, if_false, and_self, and_true, and_false, not_true_eq_false,
      not_false_eq_true, true_implies, false_implies, and_true, true_and] <;>
    (try constructor) <;>
    first
      | (rw [div_le_div_iff₀ hd2 hd1]; nlinarith)
      | (rw [div_lt_div_iff₀ hd2 hd1]; nlinarith)

end ShareTheorems

section BorderWeightTheorems

/-- The total of the kernel cells inside the grid is 1 away from the border and lies
strictly between 0 and 1 on the border. -/
theorem inside_weights_bounds (sigma : ℝ) (h w y x : Nat) (hy : y < h) (hx : x < w) :
    (((1 ≤ y ∧ y + 1 < h) ∧ (1 ≤ x ∧ x + 1 < w)) →
        (∑ ky in Finset.range 3, ∑ kx in Finset.range 3,
          (if 0 ≤ (y : Int) + (ky : Int) - 1 ∧ (y : Int) + (ky : Int) - 1 < (h : Int)
              ∧ 0 ≤ (x : Int) + (kx : Int) - 1 ∧ (x : Int) + (kx : Int) - 1 < (w : Int)
            then cell (gaussianKernel2D Real.exp sigma 3) ky kx else 0)) = 1)
      ∧ (¬ ((1 ≤ y ∧ y + 1 < h) ∧ (1 ≤ x ∧ x + 1 < w)) →
        (∑ ky in Finset.range 3, ∑ kx in Finset.range 3,
          (if 0 ≤ (y : Int) + (ky : Int) - 1 ∧ (y : Int) + (ky : Int) - 1 < (h : Int)
              ∧ 0 ≤ (x : Int) + (kx : Int) - 1 ∧ (x : Int) + (kx : Int) - 1 < (w : Int)
            then cell (gaussianKernel2D Real.exp sigma 3) ky kx else 0)) < 1) := by
  rw [inside_weights sigma h w y x hy hx]
  have ha := Real.exp_pos (-1 / (2 * sigma ^ 2))
  obtain ⟨r1, r2, r3, r4⟩ := share_bounds (1 ≤ y) (y + 1 < h) _ ha
  obtain ⟨s1, s2, s3, s4⟩ := share_bounds (1 ≤ x) (x + 1 < w) _ ha
  constructor
  · rintro ⟨hr, hc⟩
    rw [r3 hr, s3 hc, one_mul]
  · intro hb
    by_cases hr : 1 ≤ y ∧ y + 1 < h
    · have hc : ¬ (1 ≤ x ∧ x + 1 < w) := fun hc => hb ⟨hr, hc⟩
      rw [r3 hr, one_mul]
      exact s4 hc
    · calc _ ≤ _ * 1 := mul_le_mul_of_nonneg_left s2 (le_of_lt r1)
        _ = _ := mul_one _
        _ < 1 := r4 hr

/-- On the border the kernel of sigma 0.5 keeps a larger total inside the grid than the
kernel of sigma 1.0. -/
theorem inside_weights_gap (h w y x : Nat) (hy : y < h) (hx : x < w)
    (hb : ¬ ((1 ≤ y ∧ y + 1 < h) ∧ (1 ≤ x ∧ x + 1 < w))) :
    (∑ ky in Finset.range 3, ∑ kx in Finset.range 3,
        (if 0 ≤ (y : Int) + (ky : Int) - 1 ∧ (y : Int) + (ky : Int) - 1 < (h : Int)
            ∧ 0 ≤ (x : Int) + (kx : Int) - 1 ∧ (x : Int) + (kx : Int) - 1 < (w : Int)
          then cell (gaussianKernel2D Real.exp 1.0 3) ky kx else 0))
      < (∑ ky in Finset.range 3, ∑ kx in Finset.range 3,
        (if 0 ≤ (y : Int) + (ky : Int) - 1 ∧ (y : Int) + (ky : Int) - 1 < (h : Int)
            ∧ 0 ≤ (x : Int) + (kx : Int) - 1 ∧ (x : Int) + (kx : Int) - 1 < (w : Int)
          then cell (gaussianKernel2D Real.exp 0.5 3) ky kx else 0)) := by
  rw [inside_weights 1.0 h w y x hy hx, inside_weights 0.5 h w y x hy hx]
  have h1 := Real.exp_pos (-1 / (2 * (0.5 : ℝ) ^ 2))
  have h2 := Real.exp_pos (-1 / (2 * (1.0 : ℝ) ^ 2))
  have h12 : Real.exp (-1 / (2 * (0.5 : ℝ) ^ 2)) < Real.exp (-1 / (2 * (1.0 : ℝ) ^ 2)) :=
    Real.exp_lt_exp.mpr (by norm_num)
  obtain ⟨r1, r2⟩ := share_anti (1 ≤ y) (y + 1 < h) _ _ h1 h12
  obtain ⟨s1, s2⟩ := share_anti (1 ≤ x) (x + 1 < w) _ _ h1 h12
  obtain ⟨p1, _, _, _⟩ := share_bounds (1 ≤ y) (y + 1 < h) _ h2
  obtain ⟨q1, _, _, _⟩ := share_bounds (1 ≤ x) (x + 1 < w) _ h2
  obtain ⟨p1', _, _, _⟩ := share_bounds (1 ≤ y) (y + 1 < h) _ h1
  obtain ⟨q1', _, _, _⟩ := share_bounds (1 ≤ x) (x + 1 < w) _ h1
  by_cases hr : 1 ≤ y ∧ y + 1 < h
  · have hc : ¬ (1 ≤ x ∧ x + 1 < w) := fun hc => hb ⟨hr, hc⟩
    exact mul_lt_mul' r1 (s2 hc) (le_of_lt q1) p1'
  · exact mul_lt_mul (r2 hr) s1 q1 (le_of_lt p1')

/-- The cells of `convolve2D` with a 3 x 3 kernel of `gaussianKernel2D` on a grid whose
cells all hold `v`. -/
theorem convolve2D_uniform_three (img : List (List ℝ)) (h w : Nat) (v sigma : ℝ)
    (himg : IsGrid img h w) (hh : 0 < h)
    (huni : ∀ y x : Nat, y < h → x < w → cell img y x = v) :
    ∃ out, convolve2D img (gaussianKernel2D Real.exp sigma 3) = some out
      ∧ IsGrid out h w
      ∧ ∀ y x : Nat, y < h → x < w →
          cell out y x
            = v * (∑ ky in Finset.range 3, ∑ kx in Finset.range 3,
                (if 0 ≤ (y : Int) + (ky : Int) - 1 ∧ (y : Int) + (ky : Int) - 1 < (h : Int)
                    ∧ 0 ≤ (x : Int) + (kx : Int) - 1 ∧ (x : Int) + (kx : Int) - 1 < (w : Int)
                  then cell (gaussianKernel2D Real.exp sigma 3) ky kx else 0)) := by
  refine ⟨_, convolve2D_uniform img _ h w v himg hh huni, isGrid_map_range _ h w, ?_⟩
  intro y x hy hx
  rw [cell_map_range _ h w y x hy hx]
  simp only [gaussianKernel2D_three_length]
  rfl

end BorderWeightTheorems

section BorderBiasClaim

/-- Claim C26.  For every `sigma > 0`, the 3 x 3 kernel `gaussianKernel2D(sigma, 3)` and
every grid of `h >= 1` rows of `w` cells that all hold the same value `v > 0`,
`convolve2D` returns exactly `v` at every cell off the one-cell border and a value
strictly smaller than `v` at every border cell; and the field of
`differenceOfGaussians2D` with sigma 0.5 and 1.0 is 0 at every cell off the border and
is not 0 at any border cell. -/
theorem uniform_blur_border_bias (sigma : ℝ) (img : List (List ℝ)) (h w : Nat) (v : ℝ)
    (_hsigma : 0 < sigma) (hv : 0 < v) (himg : IsGrid img h w) (hh : 0 < h)
    (huni : ∀ y x : Nat, y < h → x < w → cell img y x = v) :
    ∃ out dog, convolve2D img (gaussianKernel2D Real.exp sigma 3) = some out
      ∧ differenceOfGaussians2D Real.exp img 0.5 1.0 3 = some dog
      ∧ ∀ y x : Nat, y < h → x < w →
          (((1 ≤ y ∧ y + 1 < h) ∧ (1 ≤ x ∧ x + 1 < w)) →
              cell out y x = v ∧ cell dog y x = 0)
            ∧ (¬ ((1 ≤ y ∧ y + 1 < h) ∧ (1 ≤ x ∧ x + 1 < w)) →
              cell out y x < v ∧ cell dog y x ≠ 0) := by
  obtain ⟨out, hout, _, ocells⟩ := convolve2D_uniform_three img h w v sigma himg hh huni
  obtain ⟨dog, hdog, _, dcells⟩ :=
    differenceOfGaussians2D_uniform img h w v 0.5 1.0 himg hh huni
  refine ⟨out, dog, hout, hdog, ?_⟩
  intro y x hy hx
  obtain ⟨b1, b2⟩ := inside_weights_bounds sigma h w y x hy hx
  obtain ⟨u1, _⟩ := inside_weights_bounds 0.5 h w y x hy hx
  obtain ⟨w1, _⟩ := inside_weights_bounds 1.0 h w y x hy hx
  rw [ocells y x hy hx, dcells y x hy hx]
  constructor
  · intro hin
    rw [b1 hin, u1 hin, w1 hin]
    exact ⟨mul_one v, sub_self _⟩
  · intro hb
    have hgap := inside_weights_gap h w y x hy hx hb
    have hlt := b2 hb
    constructor
    · calc _ < v * 1 := mul_lt_mul_of_pos_left hlt hv
        _ = v := mul_one v
    · have := mul_lt_mul_of_pos_left hgap hv
      exact ne_of_gt (sub_pos.mpr this)

/-- The claim at the grid of one cell holding 255 with `sigma = 1`: the blurred value is
below 255 and the field of `differenceOfGaussians2D` is not zero there. -/
theorem uniform_blur_border_bias_witness :
    ∃ out dog, convolve2D ([[255]] : List (List ℝ)) (gaussianKernel2D Real.exp 1 3) = some out
      ∧ differenceOfGaussians2D Real.exp ([[255]] : List (List ℝ)) 0.5 1.0 3 = some dog
      ∧ cell out 0 0 < 255 ∧ cell dog 0 0 ≠ 0 := by
  obtain ⟨out, dog, h1, h2, h3⟩ := uniform_blur_border_bias 1 ([[255]] : List (List ℝ)) 1 1
    255 (by norm_num) (by norm_num) (by simp [IsGrid]) (by decide)
    (by
      intro y x hy hx
      interval_cases y
      interval_cases x
      simp [cell])
  exact ⟨out, dog, h1, h2, ((h3 0 0 (by decide) (by decide)).2 (by decide))⟩

end BorderBiasClaim

section GlyphWitness

/-- On a field of 3 rows of 4 cells that is `C > 0` at the corners, `E` at the other
border cells and 0 at the two inner cells, the cell `(1, 1)` has the Sobel sums
`Gx = -2 C` and `Gy = 0`: its angle is 180 and `nonMaxSuppression` keeps its magnitude
`2 C`, which ties with the magnitude of the cell `(1, 2)`. -/
theorem uniform_3x4_trace (dog : List (List ℝ)) (C E : ℝ) (hC : 0 < C)
    (c00 : cell dog 0 0 = C) (c01 : cell dog 0 1 = E) (c02 : cell dog 0 2 = E)
    (c03 : cell dog 0 3 = C) (c10 : cell dog 1 0 = E) (c11 : cell dog 1 1 = 0)
    (c12 : cell dog 1 2 = 0) (c13 : cell dog 1 3 = E) (c20 : cell dog 2 0 = C)
    (c21 : cell dog 2 1 = E) (c22 : cell dog 2 2 = E) (c23 : cell dog 2 3 = C) :
    cell (applySobel2D Real.sqrt (fun (b a : ℝ) => Complex.arg ⟨a, b⟩) Real.pi dog 4 3).2
        1 1 = 180
      ∧ cell (nonMaxSuppression
          (applySobel2D Real.sqrt (fun (b a : ℝ) => Complex.arg ⟨a, b⟩) Real.pi dog 4 3).1
          (applySobel2D Real.sqrt (fun (b a : ℝ) => Complex.arg ⟨a, b⟩) Real.pi dog 4 3).2
          4 3) 1 1 = 2 * C := by
  obtain ⟨_, _, hs⟩ := applySobel2D_cells Real.sqrt (fun (b a : ℝ) => Complex.arg ⟨a, b⟩)
    Real.pi dog 4 3
  generalize (applySobel2D Real.sqrt (fun (b a : ℝ) => Complex.arg ⟨a, b⟩)
    Real.pi dog 4 3).1 = mag at hs ⊢
  generalize (applySobel2D Real.sqrt (fun (b a : ℝ) => Complex.arg ⟨a, b⟩)
    Real.pi dog 4 3).2 = angle at hs ⊢
  have s11 : sobelSums dog 1 1 = (-(2 * C), 0) := by
    have e := sobelSums_eq dog 0 0
    norm_num at e
    rw [e, c00, c01, c02, c10, c12, c20, c21, c22]
    ext <;> simp <;> ring
  have s12 : sobelSums dog 1 2 = (2 * C, 0) := by
    have e := sobelSums_eq dog 0 1
    norm_num at e
    rw [e, c01, c02, c03, c11, c13, c21, c22, c23]
    ext <;> simp <;> ring
  have hsq1 : Real.sqrt (-(2 * C) * -(2 * C) + 0 * 0) = 2 * C := by
    rw [show -(2 * C) * -(2 * C) + 0 * 0 = (2 * C) ^ 2 by ring]
    exact Real.sqrt_sq (by linarith)
  have hsq2 : Real.sqrt (2 * C * (2 * C) + 0 * 0) = 2 * C := by
    rw [show 2 * C * (2 * C) + 0 * 0 = (2 * C) ^ 2 by ring]
    exact Real.sqrt_sq (by linarith)
  have m11 : cell mag 1 1 = 2 * C := by
    rw [(hs 1 1 (by decide) (by decide)).1, if_pos (by decide), s11]
    exact hsq1
  have m12 : cell mag 1 2 = 2 * C := by
    rw [(hs 1 2 (by decide) (by decide)).1, if_pos (by decide), s12]
    exact hsq2
  have m10 : cell mag 1 0 = 0 := by
    rw [(hs 1 0 (by decide) (by decide)).1, if_neg (by decide)]
  have a11 : cell angle 1 1 = 180 := by
    rw [(hs 1 1 (by decide) (by decide)).2, if_pos (by decide), s11]
    exact (foldedAngle_real_range (-(2 * C)) 0).2.2.mpr ⟨rfl, by linarith⟩
  have hsup : suppressedAt mag angle 1 1 = 2 * C := by
    have e0 : (1 : Nat) - 1 = 0 := rfl
    have e2 : (1 : Nat) + 1 = 2 := rfl
    simp only [suppressedAt, e0, e2, a11, m11, m10, m12]
    rw [if_pos (Or.inr ⟨by norm_num, le_refl _⟩)]
    simp only
    rw [if_pos ⟨by linarith, le_refl _⟩]
  refine ⟨a11, ?_⟩
  rw [(nonMaxSuppression_cells mag angle 4 3).2 1 1 (by decide) (by decide),
    if_pos (by decide), hsup]

/-- Witness for claim C13: the tone grid of 3 rows of 4 cells that all hold 255, with the
real `exp`, `sqrt`, `atan2` and `pi` and the threshold 0.  At the interior cell `(1, 1)`
the angle is 180, inside `[0, 180]`; the adjusted angle `a = (180 + 90) mod 180` is 90,
which lies in `[67.5, 112.5)`; the suppressed magnitude is above the threshold, and the
text of the cell is the glyph `|`. -/
theorem contour_glyph_selection_witness :
    IsGrid ([[255, 255, 255, 255], [255, 255, 255, 255], [255, 255, 255, 255]] : List (List ℝ))
        3 4
      ∧ ∃ dog cells,
          differenceOfGaussians2D Real.exp
              ([[255, 255, 255, 255], [255, 255, 255, 255], [255, 255, 255, 255]] :
                List (List ℝ)) 0.5 1.0 3 = some dog
            ∧ generateContourASCIICells Real.exp Real.sqrt
                (fun (b a : ℝ) => Complex.arg ⟨a, b⟩) Real.pi
                [[255, 255, 255, 255], [255, 255, 255, 255], [255, 255, 255, 255]]
                4 3 0 = some cells
            ∧ cell (applySobel2D Real.sqrt (fun (b a : ℝ) => Complex.arg ⟨a, b⟩) Real.pi
                dog 4 3).2 1 1 = 180
            ∧ 0 < cell (nonMaxSuppression
                (applySobel2D Real.sqrt (fun (b a : ℝ) => Complex.arg ⟨a, b⟩) Real.pi
                  dog 4 3).1
                (applySobel2D Real.sqrt (fun (b a : ℝ) => Complex.arg ⟨a, b⟩) Real.pi
                  dog 4 3).2 4 3) 1 1
            ∧ (∃ (a : ℝ) (g : Char), a = 90 ∧ g = '|'
                ∧ (a = cell (applySobel2D Real.sqrt (fun (b a : ℝ) => Complex.arg ⟨a, b⟩)
                      Real.pi dog 4 3).2 1 1 + 90 - 180)
                ∧ (cells[1]?).bind (fun row => row[1]?) = some [g])
            ∧ (cells[1]?).bind (fun row => row[1]?) = some ['|'] := by
  have hg : IsGrid
      ([[255, 255, 255, 255], [255, 255, 255, 255], [255, 255, 255, 255]] : List (List ℝ))
      3 4 := by simp [IsGrid]
  obtain ⟨dog, cells, h1, h2, h3, _⟩ := contour_glyph_selection Real.exp Real.sqrt
    (fun (b a : ℝ) => Complex.arg ⟨a, b⟩) Real.pi
    [[255, 255, 255, 255], [255, 255, 255, 255], [255, 255, 255, 255]] 4 3 0 hg (by decide)
  obtain ⟨dog2, C, E, hdog2, hC, c00, c01, c02, c03, c10, c11, c12, c13, c20, c21, c22,
    c23⟩ := uniform_3x4_field
  have hsame : dog2 = dog := Option.some.inj (hdog2.symm.trans h1)
  subst hsame
  obtain ⟨a11, hsup⟩ := uniform_3x4_trace dog2 C E hC c00 c01 c02 c03 c10 c11 c12 c13 c20
    c21 c22 c23
  obtain ⟨a, g, _, ha180, hcase, _, _, b3, _, hpiece⟩ := h3 1 1 (by decide) (by decide)
    (by rw [a11]; norm_num) (by rw [a11])
  rw [a11] at hcase
  have ha : a = 90 := by
    rcases hcase with hc | hc
    · rw [hc] at ha180
      norm_num at ha180
    · rw [hc]
      norm_num
  have hgl : g = '|' := b3 ⟨by rw [ha]; norm_num, by rw [ha]; norm_num⟩
  rw [hsup, if_pos (by linarith : (2 * C > 0))] at hpiece
  refine ⟨hg, dog2, cells, h1, h2, a11, by rw [hsup]; linarith, ⟨a, g, ha, hgl, ?_, hpiece⟩,
    by rw [hpiece, hgl]⟩
  rw [ha, a11]
  norm_num

end GlyphWitness

end AsciiArt
